import Mathlib

/-!
# Key-value drivers

A shallow embedding of the `drivers` package: the facade (`driver.go`), the
transaction bridge (`dbtx/bucket.go`) and the three adapters (`bolt/db.go`,
`badger/db.go`, `ristretto/cache.go`).

Go values are embedded as follows.

* `[]byte` is `Bytes`; a slice that may be `nil` is an `Option Bytes`.
* a Go `error` is an `Option Error` (`none` is `nil`).
* a method that mutates its receiver returns the new receiver.
* a call that may end in a run-time panic, or that may wait for ever, returns an
  `Option`; each definition says which of the two `none` stands for.
* a callback (`func([]byte) error`) is a function that threads a state of the
  caller: `σ → Bytes → σ × Option Error`.

The three storage engines are third-party libraries.  The two disk engines are
modelled by small reference models; the cache engine is a parameter
(`ristretto.Engine`) of the cache adapter, with concrete instances that
follow the description of the engine in the specification.
-/

namespace drivers

/-- A Go byte slice. -/
abbrev Bytes := List Nat

/-- The kinds of error the package and its engines produce. -/
inductive Error where
  /-- `badger.Open`: "empty path" -/
  | emptyPath
  /-- `drivers.Open`: "inexistent database type" -/
  | unknownEngine
  /-- `bolt.Open`: "on opening boltdb" -/
  | openFailure
  /-- `Get` on an absent key: "inexistent value", "Inexistent key", "key not found" -/
  | keyNotFound
  /-- the page-tree engine: bucket not found -/
  | partitionNotFound
  /-- `Cache.Upsert`: "error on set key value bytes in ristretto cache" -/
  | admissionRejected
  /-- the page-tree engine: bucket name required -/
  | bucketNameRequired
  /-- the page-tree engine: key required -/
  | keyRequired
  /-- the page-tree engine: key too large -/
  | keyTooLarge
  /-- the page-tree engine: value too large -/
  | valueTooLarge
  /-- the page-tree engine: database not open -/
  | databaseNotOpen
  /-- the log-structured engine: key cannot be empty -/
  | emptyKey
  /-- an error made by the caller (a visitor or a transaction function) -/
  | user (code : Nat)
  deriving DecidableEq, Repr

/-- Lexicographic order on byte slices (`bytes.Compare a b < 0`). -/
def bytesLt : Bytes → Bytes → Bool
  | [], [] => false
  | [], _ :: _ => true
  | _ :: _, [] => false
  | a :: as, b :: bs => if a < b then true else if b < a then false else bytesLt as bs

/-! ## Ordered key-value lists, shared by the two disk engine models -/

/-- The value stored under `k`, if any. -/
def kvGet {α : Type} (k : Bytes) : List (Bytes × α) → Option α
  | [] => none
  | (k', v) :: rest => if k = k' then some v else kvGet k rest

/-- Store `v` under `k`, replacing the value already there, keeping key order. -/
def kvPut {α : Type} (k : Bytes) (v : α) : List (Bytes × α) → List (Bytes × α)
  | [] => [(k, v)]
  | (k', v') :: rest =>
    if k = k' then (k, v) :: rest
    else if bytesLt k k' then (k, v) :: (k', v') :: rest
    else (k', v') :: kvPut k v rest

/-- Remove `k`. -/
def kvDel {α : Type} (k : Bytes) (m : List (Bytes × α)) : List (Bytes × α) :=
  m.filter (fun kv => decide (kv.1 ≠ k))

/-! ## dbtx/bucket.go -/

namespace dbtx

/-- One call a transaction function made on the `Bucket` it was handed, with the
error the call returned. -/
inductive Call where
  | put (key value : Bytes) (err : Option Error)
  | delete (key : Bytes) (err : Option Error)
  deriving DecidableEq, Repr

/-- The error a call returned. -/
def Call.err : Call → Option Error
  | .put _ _ e => e
  | .delete _ e => e

/-- The key a call was made on. -/
def Call.key : Call → Bytes
  | .put k _ _ => k
  | .delete k _ => k

/-- `type Execute func(Bucket) error`: a transaction function, given by what it
does with the bucket: it returns, or calls `Put` or `Delete` and goes on
according to the error the call returned. -/
inductive Execute where
  | ret (err : Option Error)
  | put (key value : Bytes) (next : Option Error → Execute)
  | delete (key : Bytes) (next : Option Error → Execute)

/-- `type BucketImp struct`: the two functions of a bucket implementation, over
a store state `σ`. `none` is a call that does not return. -/
structure BucketImp (σ : Type) where
  PutImp : σ → Bytes → Bytes → Option (σ × Option Error)
  DeleteImp : σ → Bytes → Option (σ × Option Error)

/-- `func (mb BucketImp) Put`. -/
def BucketImp.Put {σ : Type} (mb : BucketImp σ) (s : σ) (key val : Bytes) :
    Option (σ × Option Error) :=
  mb.PutImp s key val

/-- `func (mb BucketImp) Delete`. -/
def BucketImp.Delete {σ : Type} (mb : BucketImp σ) (s : σ) (key : Bytes) :
    Option (σ × Option Error) :=
  mb.DeleteImp s key

/-- Calling a transaction function on a bucket implementation: the final store,
the error the function returned, and the calls it completed, in order. -/
def Execute.run {σ : Type} (mb : BucketImp σ) : Execute → σ → Option (σ × Option Error × List Call)
  | .ret e, s => some (s, e, [])
  | .put k v next, s =>
    match mb.Put s k v with
    | none => none
    | some (s', e) =>
      match Execute.run mb (next e) s' with
      | none => none
      | some (s'', r, log) => some (s'', r, Call.put k v e :: log)
  | .delete k next, s =>
    match mb.Delete s k with
    | none => none
    | some (s', e) =>
      match Execute.run mb (next e) s' with
      | none => none
      | some (s'', r, log) => some (s'', r, Call.delete k e :: log)

/-- What is left of a transaction function once its first calls returned the
errors `answers`. -/
def Execute.after : Execute → List (Option Error) → Execute
  | t, [] => t
  | .ret e, _ :: _ => .ret e
  | .put _ _ next, a :: rest => Execute.after (next a) rest
  | .delete _ next, a :: rest => Execute.after (next a) rest

end dbtx

/-- A call that opens a storage engine, recorded by the constructors. -/
inductive EngineCall where
  /-- `b.Open(filepath, 0600, nil)` of the page-tree engine -/
  | boltOpen (filepath : String)
  /-- `b.Open(b.DefaultOptions(filepath))` of the log-structured engine -/
  | badgerOpen (filepath : String)
  /-- `r.NewCache(...)` of the cache engine -/
  | newCache
  deriving DecidableEq, Repr

/-! ## The page-tree engine (`go.etcd.io/bbolt`) -/

namespace bbolt

/-- Modelled from the spec: the page-tree engine is a third-party library, so a
bucket is modelled as the ordered list of its key/value pairs. -/
abbrev Bucket := List (Bytes × Bytes)

/-- Modelled from the spec: the contents a transaction of the page-tree engine
sees: the named partitions (root buckets) of the database. -/
abbrev Tx := List (Bytes × Bucket)

/-- Modelled from the spec: a database of the page-tree engine, open or closed,
with its committed contents. -/
structure DB where
  opened : Bool
  root : Tx
  deriving DecidableEq, Repr

/-- The engine's limit on the length of a key. -/
def MaxKeySize : Nat := 32768

/-- The engine's limit on the length of a value, `(1 << 31) - 2`. -/
def MaxValueSize : Nat := 2147483646

/-- Modelled from the spec: `tx.Bucket(name)`, `none` (a nil bucket) when there
is no partition of that name. -/
def Tx.Bucket (tx : Tx) (name : Bytes) : Option Bucket :=
  kvGet name tx

/-- Modelled from the spec: `tx.CreateBucketIfNotExists(name)`: refuses an empty
name, keeps a partition that exists, creates an empty one otherwise. -/
def Tx.CreateBucketIfNotExists (tx : Tx) (name : Bytes) : Tx × Option Error :=
  if name = [] then (tx, some Error.bucketNameRequired)
  else
    match kvGet name tx with
    | some _ => (tx, none)
    | none => (kvPut name [] tx, none)

/-- Modelled from the spec: `tx.DeleteBucket(name)`: fails when there is no
partition of that name, removes it otherwise. -/
def Tx.DeleteBucket (tx : Tx) (name : Bytes) : Tx × Option Error :=
  match kvGet name tx with
  | none => (tx, some Error.partitionNotFound)
  | some _ => (kvDel name tx, none)

/-- Modelled from the spec: `b.Get(key)`, `none` (nil) when the key is absent. -/
def Bucket.Get (b : Bucket) (key : Bytes) : Option Bytes :=
  kvGet key b

/-- Modelled from the spec: `b.Put(key, value)`. -/
def Bucket.Put (b : Bucket) (key value : Bytes) : Bucket × Option Error :=
  if key = [] then (b, some Error.keyRequired)
  else if MaxKeySize < key.length then (b, some Error.keyTooLarge)
  else if MaxValueSize < value.length then (b, some Error.valueTooLarge)
  else (kvPut key value b, none)

/-- Modelled from the spec: `b.Delete(key)`; deleting an absent key succeeds. -/
def Bucket.Delete (b : Bucket) (key : Bytes) : Bucket × Option Error :=
  (kvDel key b, none)

/-- Modelled from the spec: `b.ForEach(fn)`: calls `fn` on the pairs in key
order and stops at the first error. -/
def Bucket.ForEach {σ : Type} (fn : σ → Bytes → Bytes → σ × Option Error) :
    Bucket → σ → σ × Option Error
  | [], s => (s, none)
  | (k, v) :: rest, s =>
    match fn s k v with
    | (s', some e) => (s', some e)
    | (s', none) => Bucket.ForEach fn rest s'

/-- Modelled from the spec: `db.Update(fn)`: runs `fn` in a read-write
transaction, commits when `fn` returns nil and rolls back when it returns an
error. `none` is a panic inside `fn`. -/
def DB.Update (db : DB) (fn : Tx → Option (Tx × Option Error)) : Option (DB × Option Error) :=
  if db.opened then
    match fn db.root with
    | none => none
    | some (tx, none) => some ({ db with root := tx }, none)
    | some (_, some e) => some (db, some e)
  else some (db, some Error.databaseNotOpen)

/-- Modelled from the spec: `db.View(fn)`: runs `fn` in a read-only transaction.
`a` is what the variables `fn` assigns hold before the call; `none` is a panic
inside `fn`. -/
def DB.View {α : Type} (db : DB) (a : α) (fn : Tx → Option (α × Option Error)) :
    Option (α × Option Error) :=
  if db.opened then fn db.root else some (a, some Error.databaseNotOpen)

/-- Modelled from the spec: `db.Close()`. -/
def DB.Close (db : DB) : DB × Option Error :=
  ({ db with opened := false }, none)

end bbolt

/-! ## bolt/db.go -/

namespace bolt

/-- `type Bolt struct`. `db` holds the state of the engine the handle points to. -/
structure Bolt where
  db : bbolt.DB
  tp : Int
  opened : Bool
  path : String
  Bucket : Bytes
  deriving DecidableEq, Repr

/-- The loop of `CreateBuckets`; `err` is the variable `err`. -/
def Bolt.createLoop : List Bytes → Bolt → Option Error → Option (Bolt × Option Error)
  | [], blt, err => some (blt, err)
  | bkt :: rest, blt, err =>
    if bkt = [] then Bolt.createLoop rest blt err
    else
      match bbolt.DB.Update blt.db (fun tx => some (bbolt.Tx.CreateBucketIfNotExists tx bkt)) with
      | none => none
      | some (db', e) => Bolt.createLoop rest { blt with db := db', Bucket := bkt } e

/-- `func (blt *Bolt) CreateBuckets(buckets ...[]byte) error`. -/
def Bolt.CreateBuckets (blt : Bolt) (buckets : List Bytes) : Option (Bolt × Option Error) :=
  Bolt.createLoop buckets blt none

/-- The loop of `DeleteBuckets`; the error of each round replaces `err`. -/
def Bolt.deleteLoop : List Bytes → Bolt → Option Error → Option (Bolt × Option Error)
  | [], blt, err => some (blt, err)
  | bkt :: rest, blt, _ =>
    match bbolt.DB.Update blt.db (fun tx => some (bbolt.Tx.DeleteBucket tx bkt)) with
    | none => none
    | some (db', e) => Bolt.deleteLoop rest { blt with db := db' } e

/-- `func (blt Bolt) DeleteBuckets(buckets ...[]byte) error`. -/
def Bolt.DeleteBuckets (blt : Bolt) (buckets : List Bytes) : Option (Bolt × Option Error) :=
  Bolt.deleteLoop buckets blt none

/-- `func Open(tp int, filepath string, bucket []byte) (*Bolt, error)`.
`engineOpen` is `b.Open(filepath, 0600, nil)`, `none` when it fails. The last
component lists the engine calls made. -/
def Open (engineOpen : String → Option bbolt.DB) (tp : Int) (filepath : String) (bucket : Bytes) :
    Option (Option Bolt × Option Error × List EngineCall) :=
  match engineOpen filepath with
  | none => some (none, some Error.openFailure, [EngineCall.boltOpen filepath])
  | some db =>
    match Bolt.CreateBuckets
        { db := db, tp := tp, opened := true, path := filepath, Bucket := [] } [bucket] with
    | none => none
    | some (boltdb, err) => some (some boltdb, err, [EngineCall.boltOpen filepath])

/-- `func (blt *Bolt) Open() bool`. -/
def Bolt.Open (blt : Bolt) : Bool := blt.opened

/-- `func (blt *Bolt) Type() int`. -/
def Bolt.Type (blt : Bolt) : Int := blt.tp

/-- `func (blt Bolt) Path() string`. -/
def Bolt.Path (blt : Bolt) : String := blt.path

/-- `func (blt Bolt) Clean()`: the error of the update is dropped. -/
def Bolt.Clean (blt : Bolt) : Option Bolt :=
  match bbolt.DB.Update blt.db (fun tx => some (bbolt.Tx.DeleteBucket tx blt.Bucket)) with
  | none => none
  | some (db', _) => some { blt with db := db' }

/-- `func (blt Bolt) Length() int`. `none` is the panic of `Stats` on a nil bucket. -/
def Bolt.Length (blt : Bolt) : Option Nat :=
  match bbolt.DB.View blt.db 0 (fun tx =>
      match bbolt.Tx.Bucket tx blt.Bucket with
      | none => none
      | some b => some (b.length, none)) with
  | none => none
  | some (len, _) => some len

/-- `func (blt Bolt) Get(key []byte) ([]byte, error)`. `none` is the panic of
`Get` on a nil bucket. -/
def Bolt.Get (blt : Bolt) (key : Bytes) : Option (Option Bytes × Option Error) :=
  bbolt.DB.View blt.db none (fun tx =>
    match bbolt.Tx.Bucket tx blt.Bucket with
    | none => none
    | some b =>
      match bbolt.Bucket.Get b key with
      | none => some (none, some Error.keyNotFound)
      | some value => some (some value, none))

/-- `tx.Bucket(name).Put(key, value)` inside a transaction. -/
def txPut (name : Bytes) (tx : bbolt.Tx) (key value : Bytes) : Option (bbolt.Tx × Option Error) :=
  match bbolt.Tx.Bucket tx name with
  | none => none
  | some b =>
    match bbolt.Bucket.Put b key value with
    | (b', e) => some (kvPut name b' tx, e)

/-- `tx.Bucket(name).Delete(key)` inside a transaction. -/
def txDelete (name : Bytes) (tx : bbolt.Tx) (key : Bytes) : Option (bbolt.Tx × Option Error) :=
  match bbolt.Tx.Bucket tx name with
  | none => none
  | some b =>
    match bbolt.Bucket.Delete b key with
    | (b', e) => some (kvPut name b' tx, e)

/-- `func (blt Bolt) Upsert(key, value []byte) error`. -/
def Bolt.Upsert (blt : Bolt) (key value : Bytes) : Option (Bolt × Option Error) :=
  match bbolt.DB.Update blt.db (fun tx => txPut blt.Bucket tx key value) with
  | none => none
  | some (db', e) => some ({ blt with db := db' }, e)

/-- `func (blt Bolt) Update(execute dbtx.Execute) error`: the function is handed
the current bucket of the transaction itself. -/
def Bolt.Update (blt : Bolt) (execute : dbtx.Execute) : Option (Bolt × Option Error) :=
  match bbolt.DB.Update blt.db (fun tx =>
      match dbtx.Execute.run
          { PutImp := txPut blt.Bucket, DeleteImp := txDelete blt.Bucket } execute tx with
      | none => none
      | some (tx', e, _) => some (tx', e)) with
  | none => none
  | some (db', e) => some ({ blt with db := db' }, e)

/-- `func (blt Bolt) ForEach(query func([]byte) error) error`. -/
def Bolt.ForEach {σ : Type} (blt : Bolt) (query : σ → Bytes → σ × Option Error) (s : σ) :
    Option (σ × Option Error) :=
  bbolt.DB.View blt.db s (fun tx =>
    match bbolt.Tx.Bucket tx blt.Bucket with
    | none => none
    | some b => some (bbolt.Bucket.ForEach (fun s _ v => query s v) b s))

/-- `func (blt Bolt) Delete(key []byte) error`. -/
def Bolt.Delete (blt : Bolt) (key : Bytes) : Option (Bolt × Option Error) :=
  match bbolt.DB.Update blt.db (fun tx => txDelete blt.Bucket tx key) with
  | none => none
  | some (db', e) => some ({ blt with db := db' }, e)

/-- `func (blt *Bolt) Close() error`. -/
def Bolt.Close (blt : Bolt) : Bolt × Option Error :=
  match bbolt.DB.Close blt.db with
  | (db', e) => ({ blt with opened := false, db := db' }, e)

/-- `func (blt Bolt) KeyIterator(query func([]byte) error) error`. -/
def Bolt.KeyIterator {σ : Type} (blt : Bolt) (query : σ → Bytes → σ × Option Error) (s : σ) :
    Option (σ × Option Error) :=
  bbolt.DB.View blt.db s (fun tx =>
    match bbolt.Tx.Bucket tx blt.Bucket with
    | none => none
    | some b => some (bbolt.Bucket.ForEach (fun s k _ => query s k) b s))

end bolt

/-! ## The log-structured engine (`github.com/dgraph-io/badger`) -/

namespace badgerdb

/-- Modelled from the spec: the contents a transaction of the log-structured
engine sees: one flat list of key/value pairs, in key order. -/
abbrev Txn := List (Bytes × Bytes)

/-- Modelled from the spec: a database of the log-structured engine. -/
structure DB where
  items : Txn
  deriving DecidableEq, Repr

/-- Modelled from the spec: `txn.Get(key)`, `none` when the engine answers
with an error (key not found). -/
def Txn.Get (txn : Txn) (key : Bytes) : Option Bytes :=
  kvGet key txn

/-- Modelled from the spec: `txn.Set(key, value)`; an empty key is refused. -/
def Txn.Set (txn : Txn) (key value : Bytes) : Txn × Option Error :=
  if key = [] then (txn, some Error.emptyKey) else (kvPut key value txn, none)

/-- Modelled from the spec: `txn.Delete(key)`; an empty key is refused. -/
def Txn.Delete (txn : Txn) (key : Bytes) : Txn × Option Error :=
  if key = [] then (txn, some Error.emptyKey) else (kvDel key txn, none)

/-- Modelled from the spec: `db.Update(fn)`: commits when `fn` returns nil,
discards the transaction when it returns an error. `none` is a call of `fn`
that does not return. -/
def DB.Update (db : DB) (fn : Txn → Option (Txn × Option Error)) : Option (DB × Option Error) :=
  match fn db.items with
  | none => none
  | some (txn, none) => some ({ db with items := txn }, none)
  | some (_, some e) => some (db, some e)

/-- Modelled from the spec: `db.View(fn)`: runs `fn` in a read-only transaction. -/
def DB.View {α : Type} (db : DB) (fn : Txn → α × Option Error) : α × Option Error :=
  fn db.items

end badgerdb

/-! ## badger/db.go -/

namespace badger

/-- `type Badger struct`. `DB` is `none` for a nil engine pointer. The iterator
options are the constants set by `Open` (forward, one version of each key). -/
structure Badger where
  DB : Option badgerdb.DB
  opened : Bool
  tp : Int
  path : String
  deriving DecidableEq, Repr

/-- `func Open(tp int, filepath string) (*Badger, error)`. `engineOpen` is
`b.Open(b.DefaultOptions(filepath))`: the engine pointer and the error. The last
component lists the engine calls made. -/
def Open (engineOpen : String → Option badgerdb.DB × Option Error) (tp : Int) (filepath : String) :
    Option Badger × Option Error × List EngineCall :=
  if filepath = "" then (none, some Error.emptyPath, [])
  else
    match engineOpen filepath with
    | (db, err) =>
      (some { DB := db, opened := true, tp := tp, path := filepath }, err,
        [EngineCall.badgerOpen filepath])

/-- `func (bdger *Badger) Open() bool`. -/
def Badger.Open (bdger : Badger) : Bool := bdger.opened

/-- The loop of `Clean`: deletes the keys the iterator yields, stops at the
first error. -/
def cleanLoop : List (Bytes × Bytes) → badgerdb.Txn → badgerdb.Txn × Option Error
  | [], txn => (txn, none)
  | (k, _) :: rest, txn =>
    match badgerdb.Txn.Delete txn k with
    | (txn', none) => cleanLoop rest txn'
    | (txn', some e) => (txn', some e)

/-- `func (bdger *Badger) Clean()`: the error of the update is dropped. `none`
is the panic on a nil engine pointer. -/
def Badger.Clean (bdger : Badger) : Option Badger :=
  match bdger.DB with
  | none => none
  | some db =>
    match badgerdb.DB.Update db (fun txn => some (cleanLoop txn txn)) with
    | none => none
    | some (db', _) => some { bdger with DB := some db' }

/-- `func (bdger *Badger) Close() error`. -/
def Badger.Close (bdger : Badger) : Option (Badger × Option Error) :=
  match bdger.DB with
  | none => none
  | some _ => some ({ bdger with opened := false }, none)

/-- `func getValue(key []byte, txn *b.Txn) ([]byte, error)`. -/
def getValue (key : Bytes) (txn : badgerdb.Txn) : Option Bytes × Option Error :=
  match badgerdb.Txn.Get txn key with
  | none => (none, some Error.keyNotFound)
  | some val => (some val, none)

/-- `func (bdger Badger) Type() int`. -/
def Badger.Type (bdger : Badger) : Int := bdger.tp

/-- `func (bdger Badger) Size() (int64, error)`. -/
def Badger.Size (_ : Badger) : Int × Option Error := (0, none)

/-- `func (bdger Badger) Length() int`. -/
def Badger.Length (_ : Badger) : Int := 0

/-- `func (bdger Badger) Path() string`. -/
def Badger.Path (bdger : Badger) : String := bdger.path

/-- `func (bdger Badger) Get(key []byte) ([]byte, error)`: the value returned is
the one the closure assigned to `v`. -/
def Badger.Get (bdger : Badger) (key : Bytes) : Option (Option Bytes × Option Error) :=
  match bdger.DB with
  | none => none
  | some db => some (badgerdb.DB.View db (fun txn => getValue key txn))

/-- The loop of `ForEach`: `item.Value(query)` on each item, returns at the
first error. -/
def forEachLoop {σ : Type} (query : σ → Bytes → σ × Option Error) :
    List (Bytes × Bytes) → σ → σ × Option Error
  | [], s => (s, none)
  | (_, v) :: rest, s =>
    match query s v with
    | (s', some e) => (s', some e)
    | (s', none) => forEachLoop query rest s'

/-- `func (bdger Badger) ForEach(query func([]byte) error) error`. -/
def Badger.ForEach {σ : Type} (bdger : Badger) (query : σ → Bytes → σ × Option Error) (s : σ) :
    Option (σ × Option Error) :=
  match bdger.DB with
  | none => none
  | some db => some (badgerdb.DB.View db (fun txn => forEachLoop query txn s))

/-- The loop of `KeyIterator`: `err = query(k)` on each item; `err` is the
variable declared before the transaction. -/
def keyLoop {σ : Type} (query : σ → Bytes → σ × Option Error) :
    List (Bytes × Bytes) → σ → Option Error → σ × Option Error
  | [], s, err => (s, err)
  | (k, _) :: rest, s, _ =>
    match query s k with
    | (s', e) => keyLoop query rest s' e

/-- `func (bdger Badger) KeyIterator(query func([]byte) error) error`. -/
def Badger.KeyIterator {σ : Type} (bdger : Badger) (query : σ → Bytes → σ × Option Error)
    (s : σ) : Option (σ × Option Error) :=
  match bdger.DB with
  | none => none
  | some db => some (badgerdb.DB.View db (fun txn => keyLoop query txn s none))

/-- `func (bdger Badger) Upsert(k, v []byte) error`. -/
def Badger.Upsert (bdger : Badger) (k v : Bytes) : Option (Badger × Option Error) :=
  match bdger.DB with
  | none => none
  | some db =>
    match badgerdb.DB.Update db (fun txn => some (badgerdb.Txn.Set txn k v)) with
    | none => none
    | some (db', e) => some ({ bdger with DB := some db' }, e)

/-- `func (bdger Badger) Update(execute dbtx.Execute) error`. -/
def Badger.Update (bdger : Badger) (execute : dbtx.Execute) : Option (Badger × Option Error) :=
  match bdger.DB with
  | none => none
  | some db =>
    match badgerdb.DB.Update db (fun txn =>
        match dbtx.Execute.run
            { PutImp := fun txn key val => some (badgerdb.Txn.Set txn key val),
              DeleteImp := fun txn key => some (badgerdb.Txn.Delete txn key) } execute txn with
        | none => none
        | some (txn', e, _) => some (txn', e)) with
    | none => none
    | some (db', e) => some ({ bdger with DB := some db' }, e)

/-- `func (bdger Badger) Delete(key []byte) error`. -/
def Badger.Delete (bdger : Badger) (key : Bytes) : Option (Badger × Option Error) :=
  match bdger.DB with
  | none => none
  | some db =>
    match badgerdb.DB.Update db (fun txn => some (badgerdb.Txn.Delete txn key)) with
    | none => none
    | some (db', e) => some ({ bdger with DB := some db' }, e)

/-- `func (bdger Badger) CreateBuckets(...[]byte) error`. -/
def Badger.CreateBuckets (_ : Badger) (_ : List Bytes) : Option Error := none

/-- `func (bdger Badger) DeleteBuckets(...[]byte) error`. -/
def Badger.DeleteBuckets (_ : Badger) (_ : List Bytes) : Option Error := none

end badger

/-! ## The cache engine (`github.com/dgraph-io/ristretto`) -/

namespace ristretto

/-- Modelled from the spec: the interface the cache engine presents to the
adapter, over an engine state `ε`. The engine is a third-party library; the
adapter is defined for every engine of this shape.

* `Get` is `c.db.Get(key)`: the value and `ok`, as an option.
* `Set` is `c.db.Set(key, value, cost)`: whether the engine took the write.
* `Del` is `c.db.Del(key)`.
* `Sleep` is what the engine does on its own while the adapter sleeps for one
  retry interval of the visibility wait.
* `Close` is `c.db.Close()`. -/
structure Engine (ε : Type) where
  Get : ε → Bytes → Option Bytes
  Set : ε → Bytes → Bytes → Int → Bool × ε
  Del : ε → Bytes → ε
  Sleep : ε → ε
  Close : ε → ε

/-- `type Cache struct`. `keys` is the map `keys map[string]int`, whose values are
all `0`: the list of its keys, without repetition, in the order a `range` over
the map yields them. -/
structure Cache (ε : Type) where
  name : String
  tp : Int
  opened : Bool
  db : ε
  keys : List Bytes
  deriving DecidableEq, Repr

/-- `func Open(tp int, name string) (*Cache, error)`. `newCache` is the engine
`r.NewCache` returns for the constant configuration of `Open`. The last
component lists the engine calls made. -/
def Open {ε : Type} (newCache : ε × Option Error) (tp : Int) (name : String) :
    Cache ε × Option Error × List EngineCall :=
  match newCache with
  | (cacheDB, err) =>
    ({ name := name, tp := tp, opened := true, db := cacheDB, keys := [] }, err,
      [EngineCall.newCache])

/-- `func (c *Cache) waitForKey(key []byte, available bool)`, on the engine
state: polls until the presence of the key equals `available`, sleeping between
polls. `fuel` bounds the number of polls; `none` is a wait that has not ended
within `fuel` polls. -/
def waitForKey {ε : Type} (E : Engine ε) : Nat → ε → Bytes → Bool → Option ε
  | 0, _, _, _ => none
  | fuel + 1, db, key, available =>
    if (E.Get db key).isSome = available then some db
    else waitForKey E fuel (E.Sleep db) key available

/-- `func (c *Cache) Open() bool`. -/
def Cache.Open {ε : Type} (c : Cache ε) : Bool := c.opened

/-- `func (c *Cache) Clean()`. -/
def Cache.Clean {ε : Type} (c : Cache ε) : Cache ε :=
  { c with keys := [] }

/-- `func (c *Cache) Get(key []byte) ([]byte, error)`. -/
def Cache.Get {ε : Type} (E : Engine ε) (c : Cache ε) (key : Bytes) : Option Bytes × Option Error :=
  match E.Get c.db key with
  | none => (none, some Error.keyNotFound)
  | some value => (some value, none)

/-- `func (c *Cache) add(key []byte)`. -/
def Cache.add {ε : Type} (c : Cache ε) (key : Bytes) : Cache ε :=
  { c with keys := if key ∈ c.keys then c.keys else c.keys ++ [key] }

/-- `func (c *Cache) delete(key []byte)`. -/
def Cache.delete {ε : Type} (c : Cache ε) (key : Bytes) : Cache ε :=
  { c with keys := c.keys.filter (fun k => decide (k ≠ key)) }

/-- `func (c *Cache) Upsert(key, value []byte) error`. `fuel` bounds the polls
of the visibility wait; `none` is a call that has not returned within them. -/
def Cache.Upsert {ε : Type} (E : Engine ε) (fuel : Nat) (c : Cache ε) (key value : Bytes) :
    Option (Cache ε × Option Error) :=
  match E.Set c.db key value (value.length : Int) with
  | (false, db') => some ({ c with db := db' }, some Error.admissionRejected)
  | (true, db') =>
    match waitForKey E fuel db' key true with
    | none => none
    | some db'' => some ({ Cache.add { c with db := db' } key with db := db'' }, none)

/-- `func (c *Cache) Keys() map[string]int`. -/
def Cache.Keys {ε : Type} (c : Cache ε) : List Bytes := c.keys

/-- The loop of `ForEach` over the keys a `range` yields. -/
def Cache.forEachLoop {ε σ : Type} (E : Engine ε) (c : Cache ε)
    (query : σ → Bytes → σ × Option Error) : List Bytes → σ → σ × Option Error
  | [], s => (s, none)
  | key :: rest, s =>
    match Cache.Get E c key with
    | (_, some err) => (s, some err)
    | (value, none) =>
      match query s (value.getD []) with
      | (s', some err) => (s', some err)
      | (s', none) => Cache.forEachLoop E c query rest s'

/-- `func (c *Cache) ForEach(query func([]byte) error) error`. -/
def Cache.ForEach {ε σ : Type} (E : Engine ε) (c : Cache ε)
    (query : σ → Bytes → σ × Option Error) (s : σ) : σ × Option Error :=
  Cache.forEachLoop E c query c.Keys s

/-- The loop of `KeyIterator` over the keys a `range` yields. -/
def Cache.keyLoop {σ : Type} (query : σ → Bytes → σ × Option Error) :
    List Bytes → σ → σ × Option Error
  | [], s => (s, none)
  | key :: rest, s =>
    match query s key with
    | (s', some err) => (s', some err)
    | (s', none) => Cache.keyLoop query rest s'

/-- `func (c *Cache) KeyIterator(query func([]byte) error) error`. -/
def Cache.KeyIterator {ε σ : Type} (c : Cache ε) (query : σ → Bytes → σ × Option Error)
    (s : σ) : σ × Option Error :=
  Cache.keyLoop query c.Keys s

/-- `func (c *Cache) Delete(key []byte) error`. `fuel` bounds the polls of the
visibility wait; `none` is a call that has not returned within them. -/
def Cache.Delete {ε : Type} (E : Engine ε) (fuel : Nat) (c : Cache ε) (key : Bytes) :
    Option (Cache ε × Option Error) :=
  match waitForKey E fuel (E.Del c.db key) key false with
  | none => none
  | some db' => some ({ Cache.delete c key with db := db' }, none)

/-- The bucket `Update` hands to the transaction function: `PutImp` is
`c.Upsert`, `DeleteImp` is `c.Delete`. -/
def Cache.bridge {ε : Type} (E : Engine ε) (fuel : Nat) : dbtx.BucketImp (Cache ε) where
  PutImp := fun c key val => Cache.Upsert E fuel c key val
  DeleteImp := fun c key => Cache.Delete E fuel c key

/-- `func (c *Cache) Update(execute dbtx.Execute) error`. -/
def Cache.Update {ε : Type} (E : Engine ε) (fuel : Nat) (c : Cache ε) (execute : dbtx.Execute) :
    Option (Cache ε × Option Error) :=
  match dbtx.Execute.run (Cache.bridge E fuel) execute c with
  | none => none
  | some (c', e, _) => some (c', e)

/-- `func (c *Cache) Close() error`. -/
def Cache.Close {ε : Type} (E : Engine ε) (c : Cache ε) : Cache ε × Option Error :=
  ({ c with opened := false, db := E.Close c.db }, none)

/-- `func (c *Cache) Length() int`. -/
def Cache.Length {ε : Type} (c : Cache ε) : Nat := c.keys.length

/-- `func (c *Cache) Type() int`. -/
def Cache.Type {ε : Type} (c : Cache ε) : Int := c.tp

/-- `func (c *Cache) Size() (int64, error)`. -/
def Cache.Size {ε : Type} (_ : Cache ε) : Int × Option Error := (0, none)

/-- `func (c *Cache) Path() string`. -/
def Cache.Path {ε : Type} (c : Cache ε) : String := c.name

/-- `func (c *Cache) CreateBuckets(buckets ...[]byte) error`. -/
def Cache.CreateBuckets {ε : Type} (_ : Cache ε) (_ : List Bytes) : Option Error := none

/-- `func (c *Cache) DeleteBuckets(buckets ...[]byte) error`. -/
def Cache.DeleteBuckets {ε : Type} (_ : Cache ε) (_ : List Bytes) : Option Error := none

/-- An entry of the write buffer of the buffered engine. -/
inductive Item where
  | set (key value : Bytes)
  | del (key : Bytes)
  deriving DecidableEq, Repr

/-- Modelled from the spec: a state of the cache engine as the specification
describes it: the values visible to reads, the buffer of writes and deletes
taken but not yet applied, and the largest cost the admission policy takes. -/
structure Buffered where
  store : List (Bytes × Bytes)
  setBuf : List Item
  MaxCost : Int
  deriving DecidableEq, Repr

/-- Modelled from the spec: the cache engine of the specification. `Set` on a
key that is visible replaces its value at once; `Set` on a key that is not
visible takes the write into the buffer, and `Del` takes the delete into the
buffer. The buffer drains one entry per retry interval, in the order taken: a
delete is applied, a write is applied when its cost (the length of the value,
the cost the adapter gives) is within `MaxCost` and dropped by the admission
policy otherwise. Nothing is evicted. -/
def buffered : Engine Buffered where
  Get := fun b key => kvGet key b.store
  Set := fun b key value _ =>
    match kvGet key b.store with
    | some _ => (true, { b with store := kvPut key value b.store })
    | none => (true, { b with setBuf := b.setBuf ++ [Item.set key value] })
  Del := fun b key => { b with setBuf := b.setBuf ++ [Item.del key] }
  Sleep := fun b =>
    match b.setBuf with
    | [] => b
    | Item.set k v :: rest =>
      if (v.length : Int) ≤ b.MaxCost then { b with store := kvPut k v b.store, setBuf := rest }
      else { b with setBuf := rest }
    | Item.del k :: rest => { b with store := kvDel k b.store, setBuf := rest }
  Close := fun b => b

/-- Modelled from the spec: the cache engine with a write buffer of `room`
entries: `Set` on a key that is not visible is declined when the buffer is
full; otherwise the engine is the buffered engine. -/
def bounded (room : Nat) : Engine Buffered where
  Get := fun b key => kvGet key b.store
  Set := fun b key value cost =>
    match kvGet key b.store with
    | some _ => buffered.Set b key value cost
    | none => if b.setBuf.length < room then buffered.Set b key value cost else (false, b)
  Del := fun b key => buffered.Del b key
  Sleep := fun b => buffered.Sleep b
  Close := fun b => b

/-- The buffered engine between two calls of the adapter: every entry left in
the buffer is a delete of a key that is not visible. -/
def Buffered.settled (b : Buffered) : Prop :=
  ∀ it ∈ b.setBuf, ∃ k, it = Item.del k ∧ kvGet k b.store = none

/-- Modelled from the spec: a cache engine that evicts nothing and shows a write
it has taken as written. `rest` holds of the states the engine is in between
two calls of the adapter. From such a state:

* a `Set` that is declined changes nothing a read sees;
* after a `Set` that is taken, at every later retry interval the key reads as
  the value written or is not visible, every other key reads as before, and
  once the key reads as the value written the engine is at rest again;
* after a `Del`, at every later retry interval every other key reads as before,
  and once the key is not visible the engine is at rest again. -/
structure Engine.Retains {ε : Type} (E : Engine ε) (rest : ε → Prop) : Prop where
  declined : ∀ (db : ε) (key value : Bytes) (cost : Int), rest db →
    (E.Set db key value cost).1 = false →
      rest (E.Set db key value cost).2 ∧
        ∀ k, E.Get (E.Set db key value cost).2 k = E.Get db k
  taken : ∀ (db : ε) (key value : Bytes) (cost : Int) (n : Nat), rest db →
    (E.Set db key value cost).1 = true →
      (E.Get (E.Sleep^[n] (E.Set db key value cost).2) key = some value ∨
        E.Get (E.Sleep^[n] (E.Set db key value cost).2) key = none) ∧
      (∀ k, k ≠ key → E.Get (E.Sleep^[n] (E.Set db key value cost).2) k = E.Get db k) ∧
      (E.Get (E.Sleep^[n] (E.Set db key value cost).2) key = some value →
        rest (E.Sleep^[n] (E.Set db key value cost).2))
  deleted : ∀ (db : ε) (key : Bytes) (n : Nat), rest db →
    (∀ k, k ≠ key → E.Get (E.Sleep^[n] (E.Del db key)) k = E.Get db k) ∧
    (E.Get (E.Sleep^[n] (E.Del db key)) key = none → rest (E.Sleep^[n] (E.Del db key)))

/-- The engine `r.NewCache` returns for the configuration of `Open`
(`MaxCost: 1000000`): nothing stored, nothing buffered. -/
def emptyBuffered : Buffered :=
  { store := [], setBuf := [], MaxCost := 1000000 }

/-- Modelled from the spec: a cache engine whose `Set` takes every write into the
buffer and whose admission policy decides when the buffer drains: an entry whose
cost exceeds `MaxCost` is dropped there, so the write was accepted by `Set` and
never becomes visible. -/
def lossy : Engine Buffered where
  Get := fun b key => kvGet key b.store
  Set := fun b key value _ => (true, { b with setBuf := b.setBuf ++ [Item.set key value] })
  Del := fun b key => { b with setBuf := b.setBuf ++ [Item.del key] }
  Sleep := fun b =>
    match b.setBuf with
    | [] => b
    | Item.set k v :: rest =>
      if (v.length : Int) ≤ b.MaxCost then { b with store := kvPut k v b.store, setBuf := rest }
      else { b with setBuf := rest }
    | Item.del k :: rest => { b with store := kvDel k b.store, setBuf := rest }
  Close := fun b => b

/-- The cost the visible values add up to, each value costing its length. -/
def totalCost (store : List (Bytes × Bytes)) : Int :=
  (store.map (fun kv => (kv.2.length : Int))).sum

/-- Eviction under cost pressure: entries other than the one under `keep` are
dropped, first to last, until the costs fit `maxCost`. -/
def evict (maxCost : Int) (keep : Bytes) : List (Bytes × Bytes) → List (Bytes × Bytes)
  | [] => []
  | kv :: rest =>
    if totalCost (kv :: rest) ≤ maxCost then kv :: rest
    else if kv.1 = keep then kv :: evict (maxCost - (kv.2.length : Int)) keep rest
    else evict maxCost keep rest

/-- Modelled from the spec: a cache engine with eviction: a write whose cost fits
`MaxCost` is applied at once, and entries written earlier are evicted until the
visible values fit `MaxCost` again. Nothing is buffered. -/
def evicting : Engine Buffered where
  Get := fun b key => kvGet key b.store
  Set := fun b key value cost =>
    if cost ≤ b.MaxCost then
      (true, { b with store := evict b.MaxCost key (kvPut key value b.store) })
    else (false, b)
  Del := fun b key => { b with store := kvDel key b.store }
  Sleep := fun b => b
  Close := fun b => b

/-- Modelled from the spec: a cache engine that takes writes and deletes into its
buffer and never drains it. -/
def stalled : Engine Buffered where
  Get := fun b key => kvGet key b.store
  Set := fun b key value _ => (true, { b with setBuf := b.setBuf ++ [Item.set key value] })
  Del := fun b key => { b with setBuf := b.setBuf ++ [Item.del key] }
  Sleep := fun b => b
  Close := fun b => b

/-- A run of `Upsert` calls, one for each pair of the list in order, that all
return no error; `none` when one of them returns an error or does not return. -/
def upsertAll {ε : Type} (E : Engine ε) (fuel : Nat) :
    List (Bytes × Bytes) → Cache ε → Option (Cache ε)
  | [], c => some c
  | (key, value) :: rest, c =>
    match Cache.Upsert E fuel c key value with
    | some (c', none) => upsertAll E fuel rest c'
    | _ => none

end ristretto

/-! ## driver.go -/

/-- `type Options struct`. -/
structure Options where
  Bucket : Bytes
  Size : Int
  Timeout : Int
  deriving DecidableEq, Repr

/-- `DefaultOptions`: the options with the bucket `[]byte("rhz")`. -/
def DefaultOptions : Options := { Bucket := [114, 104, 122], Size := 0, Timeout := 0 }

/-- `var OptionsNil`: the zero value of `Options`. -/
def OptionsNil : Options := { Bucket := [], Size := 0, Timeout := 0 }

/-- `func DriverOptions() Options`. -/
def DriverOptions : Options := { Bucket := [], Size := 0, Timeout := 0 }

/-- `func (op *Options) AddBucket(bucket []byte)`. -/
def Options.AddBucket (op : Options) (bucket : Bytes) : Options :=
  { op with Bucket := bucket }

/-- `type DriverType int`. -/
structure DriverType where
  val : Int
  deriving DecidableEq, Repr

/-- `Boltdb DriverType = iota`. -/
def Boltdb : DriverType := ⟨0⟩

/-- `Badgerdb`. -/
def Badgerdb : DriverType := ⟨1⟩

/-- `Ristretto`. -/
def Ristretto : DriverType := ⟨2⟩

/-- `func (dtp DriverType) isValid() bool`. -/
def DriverType.isValid (dtp : DriverType) : Bool :=
  decide (dtp.val ≥ Boltdb.val) && decide (dtp.val ≤ Ristretto.val)

/-- `func ToDriverType(tp int) DriverType`. -/
def ToDriverType (tp : Int) : DriverType :=
  if (DriverType.mk tp).isValid then DriverType.mk tp else ⟨0⟩

/-- `func (dtp DriverType) Int() int`. -/
def DriverType.Int (dtp : DriverType) : Int := dtp.val

/-- `type KeyValueDB interface`: a handle is one of the three adapters. -/
inductive KeyValueDB (ε : Type) where
  | bolt (db : bolt.Bolt)
  | badger (db : badger.Badger)
  | ristretto (db : ristretto.Cache ε)

/-- What opening each engine gives: `bbolt.Open` on a path (`none` when it
fails), `badger.Open` on a path (engine pointer and error), and `r.NewCache`. -/
structure World (ε : Type) where
  boltOpen : String → Option bbolt.DB
  badgerOpen : String → Option badgerdb.DB × Option Error
  newCache : ε × Option Error

/-- `func Open(dbtype DriverType, dbpath string, options Options) (KeyValueDB, error)`.
The result is the handle, the error and the engine calls made; the outer
`none` is a panic inside a constructor. A nil adapter pointer returned by a
constructor is no handle. -/
def Open {ε : Type} (W : World ε) (dbtype : DriverType) (dbpath : String) (options : Options) :
    Option (Option (KeyValueDB ε) × Option Error × List EngineCall) :=
  if dbtype = Boltdb then
    match bolt.Open W.boltOpen Boltdb.Int dbpath options.Bucket with
    | none => none
    | some (db, err, calls) => some (db.map KeyValueDB.bolt, err, calls)
  else if dbtype = Badgerdb then
    match badger.Open W.badgerOpen Badgerdb.Int dbpath with
    | (db, err, calls) => some (db.map KeyValueDB.badger, err, calls)
  else if dbtype = Ristretto then
    match ristretto.Open W.newCache Ristretto.Int dbpath with
    | (db, err, calls) => some (some (KeyValueDB.ristretto db), err, calls)
  else some (none, some Error.unknownEngine, [])

/-! ## Observation of callbacks and fixtures of the test files -/

/-- A visitor that also records its calls: each argument with the error the
visitor returned on it, in order. -/
def recording {σ : Type} (query : σ → Bytes → σ × Option Error) :
    σ × List (Bytes × Option Error) → Bytes → (σ × List (Bytes × Option Error)) × Option Error :=
  fun st b =>
    match query st.1 b with
    | (s', e) => ((s', st.2 ++ [(b, e)]), e)

/-- The calls `KeyIterator` makes on its visitor: each key handed over, with the
error the visitor returned on it, in order. -/
def keyCalls {ε σ : Type} (c : ristretto.Cache ε) (query : σ → Bytes → σ × Option Error)
    (s : σ) : List (Bytes × Option Error) :=
  (ristretto.Cache.KeyIterator c (recording query) (s, [])).1.2

/-- The calls `ForEach` makes on its visitor: each value handed over, with the
error the visitor returned on it, in order. -/
def valueCalls {ε σ : Type} (E : ristretto.Engine ε) (c : ristretto.Cache ε)
    (query : σ → Bytes → σ × Option Error) (s : σ) : List (Bytes × Option Error) :=
  (ristretto.Cache.ForEach E c (recording query) (s, [])).1.2

/-- `var key = []byte("key")`. -/
def testKey : Bytes := [107, 101, 121]

/-- `var value = []byte("value")`. -/
def testValue : Bytes := [118, 97, 108, 117, 101]

/-- `var testBucket = []byte("tbucket")`. -/
def testBucket : Bytes := [116, 98, 117, 99, 107, 101, 116]

/-- `[]byte("k2")`. -/
def testKey2 : Bytes := [107, 50]

/-- `[]byte("v2")`. -/
def testValue2 : Bytes := [118, 50]

/-- A world for the fixtures: the page-tree engine opens every path but the
empty one on an empty database, the log-structured engine opens an empty
database, the cache engine is the buffered engine of the specification. -/
def testWorld : World ristretto.Buffered where
  boltOpen := fun filepath => if filepath = "" then none else some { opened := true, root := [] }
  badgerOpen := fun _ => (some { items := [] }, none)
  newCache := (ristretto.emptyBuffered, none)

/-- `queryError` of the tests: a visitor that always fails. -/
def queryError : Unit → Bytes → Unit × Option Error :=
  fun _ _ => ((), some (Error.user 1))

/-- `newbucket1 := []byte("newbucket1")` of `TestBuckets`. -/
def newbucket1 : Bytes := [110, 101, 119, 98, 117, 99, 107, 101, 116, 49]

/-- `newbucket2 := []byte("newbucket2")` of `TestBuckets`. -/
def newbucket2 : Bytes := [110, 101, 119, 98, 117, 99, 107, 101, 116, 50]

/-- The handle of `withBolt`: `bolt.Open(tp, "test.db", testBucket)` on an empty
database. -/
def testBolt : bolt.Bolt :=
  { db := { opened := true, root := [(testBucket, [])] }, tp := 0, opened := true,
    path := "test.db", Bucket := testBucket }

/-- The handle of `withBadger` (`b.Open(tp, dir)`, then `Upsert(key, value)`),
after a further `Upsert("k2", "v2")`. -/
def testBadger : badger.Badger :=
  { DB := some { items := [(testKey2, testValue2), (testKey, testValue)] }, opened := true,
    tp := 0, path := "dir" }

/-- A visitor that fails on the key `k` and on no other. -/
def failOn (k : Bytes) : Unit → Bytes → Unit × Option Error :=
  fun _ b => ((), if b = k then some (Error.user 1) else none)

/-- The handle of `withCache` on the buffered engine: `r.Open(2, "foo")`, then
`Upsert(key, value)`, which has waited until the value is visible. -/
def testCache : ristretto.Cache ristretto.Buffered :=
  { name := "foo", tp := 2, opened := true,
    db := { store := [(testKey, testValue)], setBuf := [], MaxCost := 1000000 },
    keys := [testKey] }

/-- The fixture `testBadger` once "key" is deleted. -/
def testBadgerDeleted : badger.Badger :=
  { DB := some { items := [(testKey2, testValue2)] }, opened := true, tp := 0, path := "dir" }

/-- The fixture `testCache` once "key" is deleted. -/
def testCacheDeleted : ristretto.Cache ristretto.Buffered :=
  { name := "foo", tp := 2, opened := true, db := ristretto.emptyBuffered, keys := [] }

/-- The fixture `testCache` once `Upsert("key", "v2")` has returned: the engine
has replaced the value of the visible key. -/
def testCacheOverwritten : ristretto.Cache ristretto.Buffered :=
  { name := "foo", tp := 2, opened := true,
    db := { store := [(testKey, testValue2)], setBuf := [], MaxCost := 1000000 },
    keys := [testKey] }

/-- A cache whose engine admits no cost above 2, holding "key". -/
def tinyCache : ristretto.Cache ristretto.Buffered :=
  { name := "foo", tp := 2, opened := true,
    db := { store := [(testKey, testValue)], setBuf := [], MaxCost := 2 },
    keys := [testKey] }

/-- Carrying out a list of completed bridge calls as ordinary `Upsert` and
`Delete` calls of the cache adapter, in order. `none` when a call does not
return, or returns another error than the one listed. -/
def replay {ε : Type} (E : ristretto.Engine ε) (fuel : Nat) :
    List dbtx.Call → ristretto.Cache ε → Option (ristretto.Cache ε)
  | [], c => some c
  | dbtx.Call.put k v e :: rest, c =>
    match ristretto.Cache.Upsert E fuel c k v with
    | none => none
    | some (c', e') => if e' = e then replay E fuel rest c' else none
  | dbtx.Call.delete k e :: rest, c =>
    match ristretto.Cache.Delete E fuel c k with
    | none => none
    | some (c', e') => if e' = e then replay E fuel rest c' else none

/-- The last call on the key `k` that returned no error, in a list of completed
bridge calls. -/
def lastOn (k : Bytes) (log : List dbtx.Call) : Option dbtx.Call :=
  (log.filter (fun x => decide (x.key = k ∧ x.err = none))).getLast?

/-- A transaction function: `Put("k2", "v2")`, then `Delete("k2")`, then it
returns an error. -/
def putDeleteFail : dbtx.Execute :=
  dbtx.Execute.put testKey2 testValue2 (fun _ =>
    dbtx.Execute.delete testKey2 (fun _ => dbtx.Execute.ret (some (Error.user 1))))

/-- A transaction function: `Put("key", "v2")`, then it returns an error. -/
def putFail : dbtx.Execute :=
  dbtx.Execute.put testKey testValue2 (fun _ => dbtx.Execute.ret (some (Error.user 1)))

/-- A transaction function: `Put("k2", "v2")`, then it returns an error. -/
def putNewFail : dbtx.Execute :=
  dbtx.Execute.put testKey2 testValue2 (fun _ => dbtx.Execute.ret (some (Error.user 1)))

/-- A transaction function: `Put("k2", "v2")`, then `Delete("key")`, then it
returns an error. -/
def putDeleteOtherFail : dbtx.Execute :=
  dbtx.Execute.put testKey2 testValue2 (fun _ =>
    dbtx.Execute.delete testKey (fun _ => dbtx.Execute.ret (some (Error.user 1))))

/-- The cache of `withCache` after `Upsert("k2", "v2")` and `Delete("key")`. -/
def swappedCache : ristretto.Cache ristretto.Buffered :=
  { name := "foo", tp := 2, opened := true,
    db := { store := [(testKey2, testValue2)], setBuf := [], MaxCost := 1000000 },
    keys := [testKey2] }

/-- A value of 600000 bytes. -/
@[irreducible]
def bigValue : Bytes := List.replicate 600000 0

/-- The fresh cache once `Upsert("key", big)` has returned on the engine with
eviction. -/
def bigCache1 : ristretto.Cache ristretto.Buffered :=
  { name := "foo", tp := 2, opened := true,
    db := { store := [(testKey, bigValue)], setBuf := [], MaxCost := 1000000 },
    keys := [testKey] }

/-- The cache `bigCache1` once `Upsert("k2", big)` has returned on the engine with
eviction: the engine holds "k2" only, the overlay holds both keys. -/
def bigCache2 : ristretto.Cache ristretto.Buffered :=
  { name := "foo", tp := 2, opened := true,
    db := { store := [(testKey2, bigValue)], setBuf := [], MaxCost := 1000000 },
    keys := [testKey, testKey2] }

/-- A transaction function: `Put("key", big)`, then `Put("k2", big)`, with the
value of 600000 bytes, then it returns an error. -/
def putBigFail : dbtx.Execute :=
  dbtx.Execute.put testKey bigValue (fun _ =>
    dbtx.Execute.put testKey2 bigValue (fun _ => dbtx.Execute.ret (some (Error.user 1))))

/-- The cache of `r.Open(2, "foo")` on the engine of the specification, before
any write. -/
def freshCache : ristretto.Cache ristretto.Buffered :=
  { name := "foo", tp := 2, opened := true, db := ristretto.emptyBuffered, keys := [] }

/-- A visitor that never fails and counts its calls (the `query` of the tests,
which appends what it is given to a list). -/
def countQuery : Nat → Bytes → Nat × Option Error :=
  fun n _ => (n + 1, none)

/-- The handle `bolt.Open(tp, "test.db", []byte(""))` returns on an empty
database: no partition was created and the current partition is the empty
name. -/
def unnamedBolt : bolt.Bolt :=
  { db := { opened := true, root := [] }, tp := 0, opened := true, path := "test.db",
    Bucket := [] }

/-- The handle of `withBolt` after `Clean()`: the partition "tbucket" is gone and
is still the current partition. -/
def cleanedBolt : bolt.Bolt :=
  { db := { opened := true, root := [] }, tp := 0, opened := true, path := "test.db",
    Bucket := testBucket }

/-- The fresh cache on the engine of the specification after `Upsert("key",
"value")`, `Upsert("k2", "v2")` and `Upsert("key", "v2")`: two distinct keys,
"key" with the value written last. -/
def twoKeyCache : ristretto.Cache ristretto.Buffered :=
  { name := "foo", tp := 2, opened := true,
    db := { store := [(testKey2, testValue2), (testKey, testValue2)], setBuf := [],
            MaxCost := 1000000 },
    keys := [testKey, testKey2] }

/-- The handle of `withBolt` after `Upsert(key, value)`, as in `TestDelete`. -/
def filledBolt : bolt.Bolt :=
  { db := { opened := true, root := [(testBucket, [(testKey, testValue)])] }, tp := 0,
    opened := true, path := "test.db", Bucket := testBucket }

/-- The cache of `withCache` after `Delete("k2")` of the absent key "k2": the
call returned at its first poll and the delete is still in the buffer. -/
def fullCache : ristretto.Cache ristretto.Buffered :=
  { name := "foo", tp := 2, opened := true,
    db := { store := [(testKey, testValue)], setBuf := [ristretto.Item.del testKey2],
            MaxCost := 1000000 },
    keys := [testKey] }

/-- The cache of `withCache` after `Upsert("k2", "v2")`. -/
def pairCache : ristretto.Cache ristretto.Buffered :=
  { name := "foo", tp := 2, opened := true,
    db := { store := [(testKey2, testValue2), (testKey, testValue)], setBuf := [],
            MaxCost := 1000000 },
    keys := [testKey, testKey2] }

/-! ## Facts about ordered key-value lists -/

theorem kvGet_kvPut {α : Type} (n k : Bytes) (v : α) (m : List (Bytes × α)) :
    kvGet n (kvPut k v m) = if n = k then some v else kvGet n m := by
  induction m with
  | nil => simp [kvPut, kvGet]
  | cons hd tl ih =>
    obtain ⟨k', v'⟩ := hd
    unfold kvPut
    by_cases h1 : k = k'
    · subst h1
      by_cases h2 : n = k <;> simp [kvGet, h2]
    · by_cases h3 : bytesLt k k' = true
      · simp [h1, h3, kvGet]
      · simp only [h1, h3, if_false, kvGet]
        rw [ih]
        by_cases h2 : n = k
        · subst h2
          simp [h1]
        · simp [h2]

theorem kvGet_kvPut_self {α : Type} (k : Bytes) (v : α) (m : List (Bytes × α)) :
    kvGet k (kvPut k v m) = some v := by
  rw [kvGet_kvPut]; simp

theorem kvGet_kvDel {α : Type} (n k : Bytes) (m : List (Bytes × α)) :
    kvGet n (kvDel k m) = if n = k then none else kvGet n m := by
  induction m with
  | nil => simp [kvDel, kvGet]
  | cons hd tl ih =>
    obtain ⟨k', v'⟩ := hd
    unfold kvDel at ih ⊢
    by_cases h1 : k' = k
    · subst h1
      simp only [List.filter, ne_eq, not_true_eq_false, decide_False]
      rw [ih]
      by_cases h2 : n = k' <;> simp [kvGet, h2]
    · have : decide (k' ≠ k) = true := by simp [h1]
      simp only [List.filter, this, kvGet]
      rw [ih]
      by_cases h2 : n = k'
      · subst h2
        simp [h1]
      · simp [h2]

theorem kvGet_kvDel_self {α : Type} (k : Bytes) (m : List (Bytes × α)) :
    kvGet k (kvDel k m) = none := by
  rw [kvGet_kvDel]; simp

/-! ## The facade -/

theorem DriverType.isValid_iff (dtp : DriverType) :
    dtp.isValid = true ↔ dtp.val = 0 ∨ dtp.val = 1 ∨ dtp.val = 2 := by
  simp only [DriverType.isValid, Boltdb, Ristretto, Bool.and_eq_true, decide_eq_true_eq]
  omega

/-- C3: for every selector outside the three declared values, on every path and
options and whatever the engines would do, `Open` returns no handle and an
`UnknownEngine` error, and makes no engine call (no adapter is constructed). -/
theorem Open_unknown_engine {ε : Type} (W : World ε) (dbtype : DriverType) (dbpath : String)
    (options : Options) (h0 : dbtype.val ≠ 0) (h1 : dbtype.val ≠ 1) (h2 : dbtype.val ≠ 2) :
    Open W dbtype dbpath options = some (none, some Error.unknownEngine, []) := by
  have hb : dbtype ≠ Boltdb := fun h => h0 (by rw [h]; rfl)
  have hg : dbtype ≠ Badgerdb := fun h => h1 (by rw [h]; rfl)
  have hr : dbtype ≠ Ristretto := fun h => h2 (by rw [h]; rfl)
  simp [Open, hb, hg, hr]

/-- C3 at the selector of `TestInvalidDriver`, `DriverType(99)`. -/
theorem Open_unknown_engine_witness :
    (DriverType.mk 99).val ≠ 0 ∧ (DriverType.mk 99).val ≠ 1 ∧ (DriverType.mk 99).val ≠ 2 ∧
      Open testWorld (DriverType.mk 99) "test.db" (DriverOptions.AddBucket testBucket)
        = some (none, some Error.unknownEngine, []) :=
  ⟨by decide, by decide, by decide,
    Open_unknown_engine testWorld (DriverType.mk 99) "test.db" (DriverOptions.AddBucket testBucket)
      (by decide) (by decide) (by decide)⟩

theorem ToDriverType_of_valid (tp : Int) (h : tp = 0 ∨ tp = 1 ∨ tp = 2) :
    ToDriverType tp = DriverType.mk tp := by
  have hv : (DriverType.mk tp).isValid = true := (DriverType.isValid_iff _).2 h
  simp [ToDriverType, hv]

theorem ToDriverType_of_invalid (tp : Int) (h : ¬ (tp = 0 ∨ tp = 1 ∨ tp = 2)) :
    ToDriverType tp = Boltdb := by
  have hv : ¬ (DriverType.mk tp).isValid = true := fun hv => h ((DriverType.isValid_iff _).1 hv)
  simp [ToDriverType, hv, Boltdb]

theorem bolt.Open_error_kinds (engineOpen : String → Option bbolt.DB) (tp : Int)
    (filepath : String) (bucket : Bytes) (r : Option bolt.Bolt × Option Error × List EngineCall)
    (h : bolt.Open engineOpen tp filepath bucket = some r) :
    (r.2.1 = none ∨ r.2.1 = some Error.openFailure ∨ r.2.1 = some Error.databaseNotOpen) ∧
      r.2.2 = [EngineCall.boltOpen filepath] := by
  unfold bolt.Open at h
  cases hdb : engineOpen filepath with
  | none =>
    rw [hdb] at h
    simp only [Option.some.injEq] at h
    subst h
    simp
  | some db =>
    rw [hdb] at h
    by_cases hb : bucket = []
    · subst hb
      simp only [bolt.Bolt.CreateBuckets, bolt.Bolt.createLoop, if_true, Option.some.injEq] at h
      subst h
      simp
    · by_cases ho : db.opened = true
      · simp [bolt.Bolt.CreateBuckets, bolt.Bolt.createLoop, hb, bbolt.DB.Update, ho,
          bbolt.Tx.CreateBucketIfNotExists] at h
        cases hk : kvGet bucket db.root with
        | none =>
          rw [hk] at h
          simp at h
          subst h
          simp
        | some b =>
          rw [hk] at h
          simp at h
          subst h
          simp
      · simp [bolt.Bolt.CreateBuckets, bolt.Bolt.createLoop, hb, bbolt.DB.Update, ho] at h
        subst h
        simp

/-- C8, as stated, fails: `ToDriverType(99)` is not rejected. It is the valid
selector `Boltdb`, and `Open` on it opens the page-tree engine and returns a
handle with no error. -/
theorem ToDriverType_rejects_counterexample :
    ¬ ((99 : Int) = 0 ∨ (99 : Int) = 1 ∨ (99 : Int) = 2) ∧
      (ToDriverType 99).isValid = true ∧ ToDriverType 99 = Boltdb ∧
      (Open testWorld (ToDriverType 99) "test.db" (DriverOptions.AddBucket testBucket)).map
          (fun r => (r.1.isSome, r.2.1, r.2.2))
        = some (true, none, [EngineCall.boltOpen "test.db"]) := by
  refine ⟨by decide, by decide, by decide, ?_⟩
  decide

/-- C8, amended: `ToDriverType` always returns a valid selector: the value itself
when it is one of 0, 1, 2, and `Boltdb` (0) otherwise. So for an integer outside
the range, `Open` on the converted value is `Open` on `Boltdb`: it opens the
page-tree engine and never fails with `UnknownEngine`. -/
theorem ToDriverType_valid (tp : Int) :
    (ToDriverType tp).isValid = true ∧
      ((tp = 0 ∨ tp = 1 ∨ tp = 2) → ToDriverType tp = DriverType.mk tp) ∧
      (¬ (tp = 0 ∨ tp = 1 ∨ tp = 2) →
        ToDriverType tp = Boltdb ∧
        ∀ (ε : Type) (W : World ε) (dbpath : String) (options : Options),
          Open W (ToDriverType tp) dbpath options = Open W Boltdb dbpath options ∧
          ∀ r, Open W (ToDriverType tp) dbpath options = some r →
            r.2.1 ≠ some Error.unknownEngine ∧ r.2.2 = [EngineCall.boltOpen dbpath]) := by
  refine ⟨?_, ToDriverType_of_valid tp, ?_⟩
  · by_cases h : tp = 0 ∨ tp = 1 ∨ tp = 2
    · rw [ToDriverType_of_valid tp h]
      exact (DriverType.isValid_iff _).2 h
    · rw [ToDriverType_of_invalid tp h]
      decide
  · intro h
    refine ⟨ToDriverType_of_invalid tp h, ?_⟩
    intro ε W dbpath options
    rw [ToDriverType_of_invalid tp h]
    refine ⟨rfl, ?_⟩
    intro r hr
    simp only [Open, if_true] at hr
    cases hb : bolt.Open W.boltOpen Boltdb.Int dbpath options.Bucket with
    | none => rw [hb] at hr; simp at hr
    | some q =>
      rw [hb] at hr
      obtain ⟨hk, hc⟩ := bolt.Open_error_kinds _ _ _ _ q hb
      obtain ⟨db, err, calls⟩ := q
      simp only [Option.some.injEq] at hr
      subst hr
      refine ⟨?_, hc⟩
      rcases hk with hk | hk | hk <;> simp only at hk <;> simp [hk]

/-- C8, amended, at 99 (out of range) and at 1 (in range). -/
theorem ToDriverType_valid_witness :
    (ToDriverType 99 = Boltdb ∧
        Open testWorld (ToDriverType 99) "test.db" OptionsNil
          = Open testWorld Boltdb "test.db" OptionsNil) ∧
      ToDriverType 1 = DriverType.mk 1 :=
  ⟨⟨((ToDriverType_valid 99).2.2 (by decide)).1,
      (((ToDriverType_valid 99).2.2 (by decide)).2 _ testWorld "test.db" OptionsNil).1⟩,
    (ToDriverType_valid 1).2.1 (Or.inr (Or.inl rfl))⟩

/-! ## The page-tree adapter -/

/-- The last non-empty name of an argument list, if there is one. -/
theorem lastNonEmpty_cons (bkt : Bytes) (rest : List Bytes) :
    ((bkt :: rest).filter (fun b => decide (b ≠ []))).getLast? =
      match (rest.filter (fun b => decide (b ≠ []))).getLast? with
      | some n => some n
      | none => if bkt = [] then none else some bkt := by
  by_cases hb : bkt = []
  · subst hb
    simp only [List.filter, ne_eq, not_true_eq_false, decide_False, if_true]
    cases (List.filter (fun b => decide (¬b = [])) rest).getLast? <;> rfl
  · have hd : decide (bkt ≠ []) = true := by simp [hb]
    simp only [List.filter, hd, hb, if_false]
    cases hl : List.filter (fun b => decide (b ≠ [])) rest with
    | nil => simp
    | cons a l =>
      rw [List.getLast?_cons_cons]
      cases hg : (a :: l).getLast? with
      | none => simp at hg
      | some n => rfl

theorem bolt.createLoop_spec (buckets : List Bytes) :
    ∀ blt : bolt.Bolt, blt.db.opened = true →
      ∃ blt', bolt.Bolt.createLoop buckets blt none = some (blt', none) ∧
        blt'.db.opened = true ∧
        (∀ name, (bbolt.Tx.Bucket blt'.db.root name).isSome = true ↔
          ((bbolt.Tx.Bucket blt.db.root name).isSome = true ∨ (name ∈ buckets ∧ name ≠ []))) ∧
        (∀ name b, bbolt.Tx.Bucket blt.db.root name = some b →
          bbolt.Tx.Bucket blt'.db.root name = some b) ∧
        (∀ name, (buckets.filter (fun b => decide (b ≠ []))).getLast? = some name →
          blt'.Bucket = name) ∧
        ((buckets.filter (fun b => decide (b ≠ []))).getLast? = none → blt' = blt) := by
  induction buckets with
  | nil =>
    intro blt ho
    exact ⟨blt, rfl, ho, by simp, fun _ _ h => h, by simp, fun _ => rfl⟩
  | cons bkt rest ih =>
    intro blt ho
    by_cases hb : bkt = []
    · subst hb
      obtain ⟨blt', h1, h2, h3, h4, h5, h6⟩ := ih blt ho
      refine ⟨blt', ?_, h2, ?_, h4, ?_, ?_⟩
      · simp only [bolt.Bolt.createLoop, if_true]
        exact h1
      · intro name
        rw [h3 name]
        constructor
        · rintro (h | ⟨h, h'⟩)
          · exact Or.inl h
          · exact Or.inr ⟨List.mem_cons_of_mem _ h, h'⟩
        · rintro (h | ⟨h, h'⟩)
          · exact Or.inl h
          · rcases List.mem_cons.1 h with h | h
            · exact absurd h h'
            · exact Or.inr ⟨h, h'⟩
      · intro name hn
        rw [lastNonEmpty_cons] at hn
        cases hl : (rest.filter (fun b => decide (b ≠ []))).getLast? with
        | none => rw [hl] at hn; simp at hn
        | some n =>
          rw [hl] at hn
          simp only [Option.some.injEq] at hn
          subst hn
          exact h5 n hl
      · intro hn
        rw [lastNonEmpty_cons] at hn
        cases hl : (rest.filter (fun b => decide (b ≠ []))).getLast? with
        | none => exact h6 hl
        | some n => rw [hl] at hn; simp at hn
    · -- the round of a non-empty name: the partition exists afterwards
      have hround : ∃ db', bbolt.DB.Update blt.db
            (fun tx => some (bbolt.Tx.CreateBucketIfNotExists tx bkt)) = some (db', none) ∧
          db'.opened = true ∧
          (∀ name, (kvGet name db'.root).isSome = true ↔
            ((kvGet name blt.db.root).isSome = true ∨ name = bkt)) ∧
          (∀ name b, kvGet name blt.db.root = some b → kvGet name db'.root = some b) := by
        cases hk : kvGet bkt blt.db.root with
        | some b =>
          refine ⟨blt.db, ?_, ho, ?_, fun _ _ h => h⟩
          · simp only [bbolt.DB.Update, ho, bbolt.Tx.CreateBucketIfNotExists, hb, hk, if_true,
              if_false]
            cases hdb : blt.db
            rw [hdb] at ho
            simp only at ho
            subst ho
            rfl
          · intro name
            constructor
            · exact Or.inl
            · rintro (h | h)
              · exact h
              · subst h; simp [hk]
        | none =>
          refine ⟨{ blt.db with root := kvPut bkt [] blt.db.root }, ?_, ho, ?_, ?_⟩
          · simp [bbolt.DB.Update, ho, bbolt.Tx.CreateBucketIfNotExists, hb, hk]
          · intro name
            simp only [kvGet_kvPut]
            by_cases hn : name = bkt
            · simp [hn]
            · simp [hn]
          · intro name b hnb
            simp only [kvGet_kvPut]
            by_cases hn : name = bkt
            · subst hn; rw [hk] at hnb; simp at hnb
            · simp [hn, hnb]
      obtain ⟨db', hu, ho', hex, hkeep⟩ := hround
      obtain ⟨blt', h1, h2, h3, h4, h5, h6⟩ :=
        ih { blt with db := db', Bucket := bkt } ho'
      refine ⟨blt', ?_, h2, ?_, ?_, ?_, ?_⟩
      · simp only [bolt.Bolt.createLoop, hb, if_false, hu]
        exact h1
      · intro name
        rw [h3 name]
        simp only [bbolt.Tx.Bucket] at hex ⊢
        rw [hex name]
        constructor
        · rintro ((h | h) | ⟨h, h'⟩)
          · exact Or.inl h
          · exact Or.inr ⟨by simp [h], by rw [h]; exact hb⟩
          · exact Or.inr ⟨List.mem_cons_of_mem _ h, h'⟩
        · rintro (h | ⟨h, h'⟩)
          · exact Or.inl (Or.inl h)
          · rcases List.mem_cons.1 h with h | h
            · exact Or.inl (Or.inr h)
            · exact Or.inr ⟨h, h'⟩
      · intro name b hnb
        exact h4 name b (hkeep name b hnb)
      · intro name hn
        rw [lastNonEmpty_cons] at hn
        cases hl : (rest.filter (fun b => decide (b ≠ []))).getLast? with
        | none =>
          rw [hl] at hn
          simp only [hb, if_false, Option.some.injEq] at hn
          rw [h6 hl]
          exact hn
        | some n =>
          rw [hl] at hn
          simp only [Option.some.injEq] at hn
          subst hn
          exact h5 n hl
      · intro hn
        rw [lastNonEmpty_cons] at hn
        cases hl : (rest.filter (fun b => decide (b ≠ []))).getLast? with
        | none => rw [hl] at hn; simp [hb] at hn
        | some n => rw [hl] at hn; simp at hn

/-- C7: on an open database, `CreateBuckets` succeeds on every argument list;
afterwards the partitions are those that existed before (with their contents)
and the non-empty names of the list, so empty names are skipped and every
non-empty name exists; the current partition is the last non-empty name of the
list; and when the list has no non-empty name the handle, with its current
partition and its partitions, is unchanged. -/
theorem CreateBuckets_spec (blt : bolt.Bolt) (buckets : List Bytes)
    (hopen : blt.db.opened = true) :
    ∃ blt', bolt.Bolt.CreateBuckets blt buckets = some (blt', none) ∧
      (∀ name, (bbolt.Tx.Bucket blt'.db.root name).isSome = true ↔
        ((bbolt.Tx.Bucket blt.db.root name).isSome = true ∨ (name ∈ buckets ∧ name ≠ []))) ∧
      (∀ name b, bbolt.Tx.Bucket blt.db.root name = some b →
        bbolt.Tx.Bucket blt'.db.root name = some b) ∧
      (∀ name, (buckets.filter (fun b => decide (b ≠ []))).getLast? = some name →
        blt'.Bucket = name) ∧
      ((∀ name ∈ buckets, name = []) → blt' = blt) := by
  obtain ⟨blt', h1, _, h3, h4, h5, h6⟩ := bolt.createLoop_spec buckets blt hopen
  refine ⟨blt', h1, h3, h4, h5, ?_⟩
  intro hall
  apply h6
  have : buckets.filter (fun b => decide (b ≠ [])) = [] := by
    rw [List.filter_eq_nil_iff]
    intro a ha
    simp [hall a ha]
  rw [this]
  rfl

/-- The fixture `testBolt` is what `Open` returns. -/
theorem testBolt_is_open_result :
    bolt.Open testWorld.boltOpen 0 "test.db" testBucket
      = some (some testBolt, none, [EngineCall.boltOpen "test.db"]) := by
  decide

/-- C7 at the handle of `withBolt`, on a list with an empty name in the middle. -/
theorem CreateBuckets_spec_witness :
    testBolt.db.opened = true ∧
      ∃ blt', bolt.Bolt.CreateBuckets testBolt [newbucket1, [], newbucket2, []]
          = some (blt', none) ∧
        (∀ name, (bbolt.Tx.Bucket blt'.db.root name).isSome = true ↔
          ((bbolt.Tx.Bucket testBolt.db.root name).isSome = true ∨
            (name ∈ [newbucket1, [], newbucket2, []] ∧ name ≠ []))) ∧
        (∀ name b, bbolt.Tx.Bucket testBolt.db.root name = some b →
          bbolt.Tx.Bucket blt'.db.root name = some b) ∧
        (∀ name, ([newbucket1, [], newbucket2, []].filter
            (fun b => decide (b ≠ []))).getLast? = some name → blt'.Bucket = name) ∧
        ((∀ name ∈ [newbucket1, [], newbucket2, []], name = []) → blt' = testBolt) :=
  ⟨rfl, CreateBuckets_spec testBolt [newbucket1, [], newbucket2, []] rfl⟩

/-- The error `DeleteBuckets` returns is the error of its last round only. -/
theorem bolt.deleteLoop_append (pre : List Bytes) (last : Bytes) :
    ∀ (blt : bolt.Bolt) (err : Option Error),
      bolt.Bolt.deleteLoop (pre ++ [last]) blt err =
        match bolt.Bolt.deleteLoop pre blt err with
        | none => none
        | some (blt', _) => bolt.Bolt.deleteLoop [last] blt' none := by
  induction pre with
  | nil =>
    intro blt err
    simp [bolt.Bolt.deleteLoop]
  | cons p rest ih =>
    intro blt err
    simp only [List.cons_append, bolt.Bolt.deleteLoop]
    cases bbolt.DB.Update blt.db (fun tx => some (bbolt.Tx.DeleteBucket tx p)) with
    | none => rfl
    | some q =>
      obtain ⟨db', e⟩ := q
      exact ih _ _

/-- C6, the code at the failing input: on the handle of `withBolt`, where only
the partition "tbucket" exists, `DeleteBuckets("newbucket1", "tbucket")` returns
no error although no partition "newbucket1" exists, while
`DeleteBuckets("newbucket1")` alone returns `PartitionNotFound`. -/
theorem DeleteBuckets_swallows_missing :
    bbolt.Tx.Bucket testBolt.db.root newbucket1 = none ∧
      (bolt.Bolt.DeleteBuckets testBolt [newbucket1, testBucket]).map (fun r => r.2)
        = some none ∧
      (bolt.Bolt.DeleteBuckets testBolt [newbucket1]).map (fun r => r.2)
        = some (some Error.partitionNotFound) := by
  decide

/-! ## The log-structured adapter -/

/-- The fixture `testBadger` is what `Open` and two `Upsert`s give. -/
theorem testBadger_is_reachable :
    ((badger.Open testWorld.badgerOpen 0 "dir").1.bind
        (fun db => (db.Upsert testKey testValue).bind
          (fun r => r.1.Upsert testKey2 testValue2)))
      = some (testBadger, none) := by
  decide

/-- The key loop of the log-structured adapter calls the visitor on every key,
whatever the visitor returns, and what it returns is the error of the last
call. -/
theorem badger.keyLoop_visits_all {σ : Type} (query : σ → Bytes → σ × Option Error)
    (items : List (Bytes × Bytes)) :
    ∀ (s : σ) (tr : List (Bytes × Option Error)) (err : Option Error),
      (badger.keyLoop (recording query) items (s, tr) err).1.2.map Prod.fst
          = tr.map Prod.fst ++ items.map Prod.fst ∧
        (items ≠ [] →
          (badger.keyLoop (recording query) items (s, tr) err).2
            = (badger.keyLoop (recording query) items (s, tr) err).1.2.getLast?.bind
                Prod.snd) := by
  induction items with
  | nil => intro s tr err; simp [badger.keyLoop]
  | cons x rest ih =>
    intro s tr err
    obtain ⟨k, v⟩ := x
    cases hq : query s k with
    | mk s' e =>
      have hrun : badger.keyLoop (recording query) ((k, v) :: rest) (s, tr) err
          = badger.keyLoop (recording query) rest (s', tr ++ [(k, e)]) e := by
        simp [badger.keyLoop, recording, hq]
      rw [hrun]
      obtain ⟨i1, i2⟩ := ih s' (tr ++ [(k, e)]) e
      refine ⟨by rw [i1]; simp, fun _ => ?_⟩
      cases rest with
      | nil => simp [badger.keyLoop]
      | cons y l => exact i2 (by simp)

/-- C4, the code at the failing input: on a store holding "k2" and "key", with a
visitor that fails on "k2" only, `KeyIterator` calls the visitor on "k2" (error)
and then still on "key", and returns no error; `ForEach` with a visitor failing
on the first value stops there and returns the error. -/
theorem KeyIterator_continues_after_error :
    badger.Badger.KeyIterator testBadger (recording (failOn testKey2)) ((), [])
        = some (((), [(testKey2, some (Error.user 1)), (testKey, none)]), none) ∧
      badger.Badger.ForEach testBadger (recording (failOn testValue2)) ((), [])
        = some (((), [(testValue2, some (Error.user 1))]), some (Error.user 1)) :=
  ⟨rfl, rfl⟩

/-! ## Read-after-write and delete-then-get -/

theorem bolt_Get_after_Upsert (blt blt' : bolt.Bolt) (key value : Bytes)
    (h : bolt.Bolt.Upsert blt key value = some (blt', none)) :
    bolt.Bolt.Get blt' key = some (some value, none) := by
  unfold bolt.Bolt.Upsert bbolt.DB.Update bolt.txPut bbolt.Tx.Bucket at h
  by_cases ho : blt.db.opened = true
  · simp only [ho, if_true] at h
    cases hb : kvGet blt.Bucket blt.db.root with
    | none => rw [hb] at h; simp at h
    | some b =>
      rw [hb] at h
      unfold bbolt.Bucket.Put at h
      by_cases h1 : key = []
      · simp [h1] at h
      · by_cases h2 : bbolt.MaxKeySize < key.length
        · simp [h1, h2] at h
        · by_cases h3 : bbolt.MaxValueSize < value.length
          · simp [h1, h2, h3] at h
          · simp only [h1, h2, h3, if_false, Option.some.injEq, Prod.mk.injEq, and_true] at h
            subst h
            simp [bolt.Bolt.Get, bbolt.DB.View, ho, bbolt.Tx.Bucket, kvGet_kvPut_self,
              bbolt.Bucket.Get]
  · simp [ho] at h

theorem bolt_Get_after_Delete (blt blt' : bolt.Bolt) (key : Bytes)
    (h : bolt.Bolt.Delete blt key = some (blt', none)) :
    bolt.Bolt.Get blt' key = some (none, some Error.keyNotFound) := by
  unfold bolt.Bolt.Delete bbolt.DB.Update bolt.txDelete bbolt.Tx.Bucket at h
  by_cases ho : blt.db.opened = true
  · simp only [ho, if_true] at h
    cases hb : kvGet blt.Bucket blt.db.root with
    | none => rw [hb] at h; simp at h
    | some b =>
      rw [hb] at h
      simp only [bbolt.Bucket.Delete, Option.some.injEq, Prod.mk.injEq, and_true] at h
      subst h
      simp [bolt.Bolt.Get, bbolt.DB.View, ho, bbolt.Tx.Bucket, kvGet_kvPut_self,
        bbolt.Bucket.Get, kvGet_kvDel_self]
  · simp [ho] at h

theorem badger_Get_after_Upsert (bdger bdger' : badger.Badger) (key value : Bytes)
    (h : badger.Badger.Upsert bdger key value = some (bdger', none)) :
    badger.Badger.Get bdger' key = some (some value, none) := by
  unfold badger.Badger.Upsert at h
  cases hd : bdger.DB with
  | none => rw [hd] at h; simp at h
  | some db =>
    rw [hd] at h
    unfold badgerdb.DB.Update badgerdb.Txn.Set at h
    by_cases h1 : key = []
    · simp [h1] at h
    · simp only [h1, if_false, Option.some.injEq, Prod.mk.injEq, and_true] at h
      subst h
      simp [badger.Badger.Get, badgerdb.DB.View, badger.getValue, badgerdb.Txn.Get,
        kvGet_kvPut_self]

theorem badger_Get_after_Delete (bdger bdger' : badger.Badger) (key : Bytes)
    (h : badger.Badger.Delete bdger key = some (bdger', none)) :
    badger.Badger.Get bdger' key = some (none, some Error.keyNotFound) := by
  unfold badger.Badger.Delete at h
  cases hd : bdger.DB with
  | none => rw [hd] at h; simp at h
  | some db =>
    rw [hd] at h
    unfold badgerdb.DB.Update badgerdb.Txn.Delete at h
    by_cases h1 : key = []
    · simp [h1] at h
    · simp only [h1, if_false, Option.some.injEq, Prod.mk.injEq, and_true] at h
      subst h
      simp [badger.Badger.Get, badgerdb.DB.View, badger.getValue, badgerdb.Txn.Get,
        kvGet_kvDel_self]

/-- When the visibility wait ends, the engine's presence of the key is the one
waited for. -/
theorem ristretto.waitForKey_post {ε : Type} (E : ristretto.Engine ε) (key : Bytes)
    (available : Bool) :
    ∀ (fuel : Nat) (db db' : ε), ristretto.waitForKey E fuel db key available = some db' →
      (E.Get db' key).isSome = available := by
  intro fuel
  induction fuel with
  | zero => intro db db' h; simp [ristretto.waitForKey] at h
  | succ n ih =>
    intro db db' h
    unfold ristretto.waitForKey at h
    by_cases hp : (E.Get db key).isSome = available
    · simp only [hp, if_true, Option.some.injEq] at h
      subst h
      exact hp
    · simp only [hp, if_false] at h
      exact ih _ _ h

theorem ristretto_Get_after_Delete {ε : Type} (E : ristretto.Engine ε) (fuel : Nat)
    (c c' : ristretto.Cache ε) (key : Bytes)
    (h : ristretto.Cache.Delete E fuel c key = some (c', none)) :
    ristretto.Cache.Get E c' key = (none, some Error.keyNotFound) ∧ key ∉ c'.keys := by
  unfold ristretto.Cache.Delete at h
  cases hw : ristretto.waitForKey E fuel (E.Del c.db key) key false with
  | none => rw [hw] at h; simp at h
  | some db' =>
    rw [hw] at h
    simp only [Option.some.injEq, Prod.mk.injEq, and_true] at h
    subst h
    have hp := ristretto.waitForKey_post E key false fuel _ _ hw
    constructor
    · unfold ristretto.Cache.Get
      cases hg : E.Get db' key with
      | none => rfl
      | some v => rw [hg] at hp; simp at hp
    · simp [ristretto.Cache.delete]

/-- After a successful `Upsert` the key is in the overlay and `Get` on it
succeeds; the value it returns is the one the engine holds at that moment. -/
theorem ristretto_Get_after_Upsert {ε : Type} (E : ristretto.Engine ε) (fuel : Nat)
    (c c' : ristretto.Cache ε) (key value : Bytes)
    (h : ristretto.Cache.Upsert E fuel c key value = some (c', none)) :
    (∃ v, ristretto.Cache.Get E c' key = (some v, none)) ∧ key ∈ c'.keys := by
  unfold ristretto.Cache.Upsert at h
  cases hs : E.Set c.db key value (value.length : Int) with
  | mk ok db1 =>
    rw [hs] at h
    cases ok with
    | false => simp at h
    | true =>
      simp only at h
      cases hw : ristretto.waitForKey E fuel db1 key true with
      | none => rw [hw] at h; simp at h
      | some db' =>
        rw [hw] at h
        simp only [Option.some.injEq, Prod.mk.injEq, and_true] at h
        subst h
        have hp := ristretto.waitForKey_post E key true fuel _ _ hw
        constructor
        · unfold ristretto.Cache.Get
          cases hg : E.Get db' key with
          | none => rw [hg] at hp; simp at hp
          | some v => exact ⟨v, rfl⟩
        · simp only [ristretto.Cache.add]
          by_cases hm : key ∈ c.keys <;> simp [hm]

/-- The fixture `testCache` is what `Open` and `Upsert` give on the buffered
engine. -/
theorem testCache_is_reachable :
    ristretto.Cache.Upsert ristretto.buffered 2
        (ristretto.Open testWorld.newCache 2 "foo").1 testKey testValue
      = some (testCache, none) := by
  decide

/-! ## Traversals of the cache adapter -/

/-- The recorded calls of the key loop: up to the last one the visitor returned
no error, an error of the last call is what the loop returns, and the keys
visited are the first keys of the list. -/
theorem ristretto.keyLoop_trace {σ : Type} (query : σ → Bytes → σ × Option Error)
    (ks : List Bytes) :
    ∀ (s : σ) (tr : List (Bytes × Option Error)), (∀ x ∈ tr, x.2 = none) →
      (∀ x ∈ (ristretto.Cache.keyLoop (recording query) ks (s, tr)).1.2.dropLast, x.2 = none) ∧
      (∀ b e, (ristretto.Cache.keyLoop (recording query) ks (s, tr)).1.2.getLast?
          = some (b, some e) →
        (ristretto.Cache.keyLoop (recording query) ks (s, tr)).2 = some e) ∧
      ∃ p, (ristretto.Cache.keyLoop (recording query) ks (s, tr)).1.2.map Prod.fst
          = tr.map Prod.fst ++ p ∧ p <+: ks := by
  induction ks with
  | nil =>
    intro s tr htr
    refine ⟨fun x hx => htr x (List.mem_of_mem_dropLast hx), ?_, ⟨[], by simp [ristretto.Cache.keyLoop], List.prefix_refl _⟩⟩
    intro b e hl
    have := htr _ (List.mem_of_getLast?_eq_some hl)
    simp at this
  | cons k rest ih =>
    intro s tr htr
    cases hq : query s k with
    | mk s' e =>
      cases e with
      | some err =>
        have hrun : ristretto.Cache.keyLoop (recording query) (k :: rest) (s, tr)
            = ((s', tr ++ [(k, some err)]), some err) := by
          simp [ristretto.Cache.keyLoop, recording, hq]
        rw [hrun]
        refine ⟨?_, ?_, ⟨[k], by simp, by simp⟩⟩
        · intro x hx
          rw [List.dropLast_concat] at hx
          exact htr x hx
        · intro b e hl
          rw [List.getLast?_concat] at hl
          simp only [Option.some.injEq, Prod.mk.injEq] at hl
          rw [← hl.2]
      | none =>
        have hrun : ristretto.Cache.keyLoop (recording query) (k :: rest) (s, tr)
            = ristretto.Cache.keyLoop (recording query) rest (s', tr ++ [(k, none)]) := by
          simp [ristretto.Cache.keyLoop, recording, hq]
        rw [hrun]
        have htr' : ∀ x ∈ tr ++ [(k, (none : Option Error))], x.2 = none := by
          intro x hx
          rcases List.mem_append.1 hx with hx | hx
          · exact htr x hx
          · simp at hx; rw [hx]
        obtain ⟨h1, h2, p, hp, hpre⟩ := ih s' _ htr'
        refine ⟨h1, h2, ⟨k :: p, ?_, ?_⟩⟩
        · rw [hp]; simp
        · exact (List.prefix_cons_inj k).2 hpre

/-- The recorded calls of the value loop: up to the last one the visitor
returned no error, and an error of the last call is what the loop returns. -/
theorem ristretto.forEachLoop_trace {ε σ : Type} (E : ristretto.Engine ε)
    (c : ristretto.Cache ε) (query : σ → Bytes → σ × Option Error) (ks : List Bytes) :
    ∀ (s : σ) (tr : List (Bytes × Option Error)), (∀ x ∈ tr, x.2 = none) →
      (∀ x ∈ (ristretto.Cache.forEachLoop E c (recording query) ks (s, tr)).1.2.dropLast,
        x.2 = none) ∧
      (∀ b e, (ristretto.Cache.forEachLoop E c (recording query) ks (s, tr)).1.2.getLast?
          = some (b, some e) →
        (ristretto.Cache.forEachLoop E c (recording query) ks (s, tr)).2 = some e) := by
  induction ks with
  | nil =>
    intro s tr htr
    refine ⟨fun x hx => htr x (List.mem_of_mem_dropLast hx), ?_⟩
    intro b e hl
    have := htr _ (List.mem_of_getLast?_eq_some hl)
    simp at this
  | cons k rest ih =>
    intro s tr htr
    cases hg : ristretto.Cache.Get E c k with
    | mk value gerr =>
      cases gerr with
      | some err =>
        have hrun : ristretto.Cache.forEachLoop E c (recording query) (k :: rest) (s, tr)
            = ((s, tr), some err) := by
          simp [ristretto.Cache.forEachLoop, hg]
        rw [hrun]
        refine ⟨fun x hx => htr x (List.mem_of_mem_dropLast hx), ?_⟩
        intro b e hl
        have := htr _ (List.mem_of_getLast?_eq_some hl)
        simp at this
      | none =>
        cases hq : query s (value.getD []) with
        | mk s' e =>
          cases e with
          | some err =>
            have hrun : ristretto.Cache.forEachLoop E c (recording query) (k :: rest) (s, tr)
                = ((s', tr ++ [(value.getD [], some err)]), some err) := by
              simp [ristretto.Cache.forEachLoop, recording, hg, hq]
            rw [hrun]
            refine ⟨?_, ?_⟩
            · intro x hx
              rw [List.dropLast_concat] at hx
              exact htr x hx
            · intro b e hl
              rw [List.getLast?_concat] at hl
              simp only [Option.some.injEq, Prod.mk.injEq] at hl
              rw [← hl.2]
          | none =>
            have hrun : ristretto.Cache.forEachLoop E c (recording query) (k :: rest) (s, tr)
                = ristretto.Cache.forEachLoop E c (recording query) rest
                    (s', tr ++ [(value.getD [], none)]) := by
              simp [ristretto.Cache.forEachLoop, recording, hg, hq]
            rw [hrun]
            have htr' : ∀ x ∈ tr ++ [(value.getD [], (none : Option Error))], x.2 = none := by
              intro x hx
              rcases List.mem_append.1 hx with hx | hx
              · exact htr x hx
              · simp at hx; rw [hx]
            exact ih s' _ htr'

/-- Recording the calls of a visitor changes neither what the key loop returns
nor the state the visitor reaches. -/
theorem ristretto.keyLoop_recording {σ : Type} (query : σ → Bytes → σ × Option Error)
    (ks : List Bytes) :
    ∀ (s : σ) (tr : List (Bytes × Option Error)),
      ((ristretto.Cache.keyLoop (recording query) ks (s, tr)).1.1,
          (ristretto.Cache.keyLoop (recording query) ks (s, tr)).2)
        = ristretto.Cache.keyLoop query ks s := by
  induction ks with
  | nil => intro s tr; rfl
  | cons k rest ih =>
    intro s tr
    cases hq : query s k with
    | mk s' e =>
      cases e with
      | some err => simp [ristretto.Cache.keyLoop, recording, hq]
      | none =>
        simp only [ristretto.Cache.keyLoop, recording, hq]
        exact ih s' _

/-- Recording the calls of a visitor changes neither what the value loop returns
nor the state the visitor reaches. -/
theorem ristretto.forEachLoop_recording {ε σ : Type} (E : ristretto.Engine ε)
    (c : ristretto.Cache ε) (query : σ → Bytes → σ × Option Error) (ks : List Bytes) :
    ∀ (s : σ) (tr : List (Bytes × Option Error)),
      ((ristretto.Cache.forEachLoop E c (recording query) ks (s, tr)).1.1,
          (ristretto.Cache.forEachLoop E c (recording query) ks (s, tr)).2)
        = ristretto.Cache.forEachLoop E c query ks s := by
  induction ks with
  | nil => intro s tr; rfl
  | cons k rest ih =>
    intro s tr
    cases hg : ristretto.Cache.Get E c k with
    | mk value gerr =>
      cases gerr with
      | some err => simp [ristretto.Cache.forEachLoop, hg]
      | none =>
        cases hq : query s (value.getD []) with
        | mk s' e =>
          cases e with
          | some err => simp [ristretto.Cache.forEachLoop, recording, hg, hq]
          | none =>
            simp only [ristretto.Cache.forEachLoop, recording, hg, hq]
            exact ih s' _

/-! ## Writes of the cache adapter -/

/-- C9: for every engine, cache, key and value, when the engine's `Set` declines
the write, `Upsert` returns an `AdmissionRejected` error; it does so whatever
the bound on the polls, also with no poll allowed, so the visibility wait is not
entered; and the overlay is unchanged, hence `Length` and what `KeyIterator`
does are the same as before the call. -/
theorem Upsert_admission_rejected {ε : Type} (E : ristretto.Engine ε) (fuel : Nat)
    (c : ristretto.Cache ε) (key value : Bytes)
    (h : (E.Set c.db key value (value.length : Int)).1 = false) :
    ∃ c', ristretto.Cache.Upsert E fuel c key value = some (c', some Error.admissionRejected) ∧
      ristretto.Cache.Upsert E 0 c key value = some (c', some Error.admissionRejected) ∧
      c'.keys = c.keys ∧ c'.Length = c.Length ∧
      ∀ (σ : Type) (query : σ → Bytes → σ × Option Error) (s : σ),
        c'.KeyIterator query s = c.KeyIterator query s := by
  cases hs : E.Set c.db key value (value.length : Int) with
  | mk ok db' =>
    rw [hs] at h
    simp only at h
    subst h
    refine ⟨{ c with db := db' }, ?_, ?_, rfl, rfl, fun _ _ _ => rfl⟩
    · simp [ristretto.Cache.Upsert, hs]
    · simp [ristretto.Cache.Upsert, hs]

/-- The fixture `fullCache` is what `Delete("k2")` gives on the cache of
`withCache`. -/
theorem fullCache_is_reachable :
    ristretto.Cache.Delete (ristretto.bounded 1) 2 testCache testKey2
      = some (fullCache, none) := by
  decide

/-- C9 on a cache whose engine has a write buffer of one entry, full after the
`Delete` of an absent key: the write of the new key "k2" is declined. -/
theorem Upsert_admission_rejected_witness :
    ((ristretto.bounded 1).Set fullCache.db testKey2 testValue (testValue.length : Int)).1
        = false ∧
      ∃ c', ristretto.Cache.Upsert (ristretto.bounded 1) 7 fullCache testKey2 testValue
          = some (c', some Error.admissionRejected) ∧
        ristretto.Cache.Upsert (ristretto.bounded 1) 0 fullCache testKey2 testValue
          = some (c', some Error.admissionRejected) ∧
        c'.keys = fullCache.keys ∧ c'.Length = fullCache.Length ∧
        ∀ (σ : Type) (query : σ → Bytes → σ × Option Error) (s : σ),
          c'.KeyIterator query s = fullCache.KeyIterator query s :=
  ⟨by decide,
    Upsert_admission_rejected (ristretto.bounded 1) 7 fullCache testKey2 testValue (by decide)⟩

/-! ## The emulated bridge of the cache adapter -/

theorem ristretto.Upsert_keys {ε : Type} (E : ristretto.Engine ε) (fuel : Nat)
    (c c' : ristretto.Cache ε) (key value : Bytes) (e : Option Error)
    (h : ristretto.Cache.Upsert E fuel c key value = some (c', e)) :
    (e = none → ∀ k, k ∈ c'.keys ↔ (k = key ∨ k ∈ c.keys)) ∧
      (e ≠ none → c'.keys = c.keys) := by
  unfold ristretto.Cache.Upsert at h
  cases hs : E.Set c.db key value (value.length : Int) with
  | mk ok db1 =>
    rw [hs] at h
    cases ok with
    | false =>
      simp only [Option.some.injEq, Prod.mk.injEq] at h
      obtain ⟨h1, h2⟩ := h
      subst h1 h2
      simp
    | true =>
      simp only at h
      cases hw : ristretto.waitForKey E fuel db1 key true with
      | none => rw [hw] at h; simp at h
      | some db' =>
        rw [hw] at h
        simp only [Option.some.injEq, Prod.mk.injEq] at h
        obtain ⟨h1, h2⟩ := h
        subst h1 h2
        refine ⟨fun _ k => ?_, fun hne => absurd rfl hne⟩
        simp only [ristretto.Cache.add]
        by_cases hm : key ∈ c.keys
        · simp only [hm, if_true]
          constructor
          · exact Or.inr
          · rintro (hk | hk)
            · rw [hk]; exact hm
            · exact hk
        · simp only [hm, if_false, List.mem_append, List.mem_singleton]
          constructor
          · rintro (hk | hk)
            · exact Or.inr hk
            · exact Or.inl hk
          · rintro (hk | hk)
            · exact Or.inr hk
            · exact Or.inl hk

theorem ristretto.Delete_keys {ε : Type} (E : ristretto.Engine ε) (fuel : Nat)
    (c c' : ristretto.Cache ε) (key : Bytes) (e : Option Error)
    (h : ristretto.Cache.Delete E fuel c key = some (c', e)) :
    e = none ∧ ∀ k, k ∈ c'.keys ↔ (k ≠ key ∧ k ∈ c.keys) := by
  unfold ristretto.Cache.Delete at h
  cases hw : ristretto.waitForKey E fuel (E.Del c.db key) key false with
  | none => rw [hw] at h; simp at h
  | some db' =>
    rw [hw] at h
    simp only [Option.some.injEq, Prod.mk.injEq] at h
    obtain ⟨h1, h2⟩ := h
    subst h1 h2
    refine ⟨rfl, fun k => ?_⟩
    simp [ristretto.Cache.delete, and_comm]

theorem lastOn_cons (k : Bytes) (call : dbtx.Call) (rest : List dbtx.Call) :
    lastOn k (call :: rest) =
      match lastOn k rest with
      | some x => some x
      | none => if call.key = k ∧ call.err = none then some call else none := by
  unfold lastOn
  by_cases hc : call.key = k ∧ call.err = none
  · rw [List.filter_cons_of_pos (by simpa using hc)]
    cases hl : List.filter (fun x => decide (x.key = k ∧ x.err = none)) rest with
    | nil => simp [hc]
    | cons a l =>
      rw [List.getLast?_cons_cons]
      cases hg : (a :: l).getLast? with
      | none => simp at hg
      | some n => rfl
  · rw [List.filter_cons_of_neg (by simpa using hc)]
    cases (List.filter (fun x => decide (x.key = k ∧ x.err = none)) rest).getLast? with
    | none => simp [hc]
    | some n => rfl

/-- What a transaction function did through the bridge is what the listed calls
do when made directly, and the function, fed the errors of these calls, ends by
returning what the run returned. -/
theorem run_replay {ε : Type} (E : ristretto.Engine ε) (fuel : Nat) (execute : dbtx.Execute) :
    ∀ (c c' : ristretto.Cache ε) (r : Option Error) (log : List dbtx.Call),
      dbtx.Execute.run (ristretto.Cache.bridge E fuel) execute c = some (c', r, log) →
      replay E fuel log c = some c' ∧
        execute.after (log.map dbtx.Call.err) = dbtx.Execute.ret r := by
  induction execute with
  | ret e =>
    intro c c' r log h
    simp only [dbtx.Execute.run, Option.some.injEq, Prod.mk.injEq] at h
    obtain ⟨h1, h2, h3⟩ := h
    subst h1 h2 h3
    exact ⟨rfl, rfl⟩
  | put k v next ih =>
    intro c c' r log h
    simp only [dbtx.Execute.run, dbtx.BucketImp.Put, ristretto.Cache.bridge] at h
    cases hu : ristretto.Cache.Upsert E fuel c k v with
    | none => rw [hu] at h; simp at h
    | some q =>
      obtain ⟨c1, e⟩ := q
      rw [hu] at h
      simp only at h
      cases hr : dbtx.Execute.run (ristretto.Cache.bridge E fuel) (next e) c1 with
      | none =>
        simp only [ristretto.Cache.bridge] at hr
        rw [hr] at h; simp at h
      | some q2 =>
        obtain ⟨c2, r2, log2⟩ := q2
        have hr' := hr
        simp only [ristretto.Cache.bridge] at hr
        rw [hr] at h
        simp only [Option.some.injEq, Prod.mk.injEq] at h
        obtain ⟨h1, h2, h3⟩ := h
        subst h1 h2 h3
        obtain ⟨i1, i2⟩ := ih e c1 c2 r2 log2 hr'
        refine ⟨?_, ?_⟩
        · simp only [replay, hu, if_true]
          exact i1
        · simp only [List.map, dbtx.Call.err, dbtx.Execute.after]
          exact i2
  | delete k next ih =>
    intro c c' r log h
    simp only [dbtx.Execute.run, dbtx.BucketImp.Delete, ristretto.Cache.bridge] at h
    cases hu : ristretto.Cache.Delete E fuel c k with
    | none => rw [hu] at h; simp at h
    | some q =>
      obtain ⟨c1, e⟩ := q
      rw [hu] at h
      simp only at h
      cases hr : dbtx.Execute.run (ristretto.Cache.bridge E fuel) (next e) c1 with
      | none =>
        simp only [ristretto.Cache.bridge] at hr
        rw [hr] at h; simp at h
      | some q2 =>
        obtain ⟨c2, r2, log2⟩ := q2
        have hr' := hr
        simp only [ristretto.Cache.bridge] at hr
        rw [hr] at h
        simp only [Option.some.injEq, Prod.mk.injEq] at h
        obtain ⟨h1, h2, h3⟩ := h
        subst h1 h2 h3
        obtain ⟨i1, i2⟩ := ih e c1 c2 r2 log2 hr'
        refine ⟨?_, ?_⟩
        · simp only [replay, hu, if_true]
          exact i1
        · simp only [List.map, dbtx.Call.err, dbtx.Execute.after]
          exact i2

/-- The overlay after a list of calls: a key is in it according to the last call
on it that returned no error. -/
theorem replay_keys {ε : Type} (E : ristretto.Engine ε) (fuel : Nat) (k : Bytes)
    (log : List dbtx.Call) :
    ∀ (c c' : ristretto.Cache ε), replay E fuel log c = some c' →
      (lastOn k log = none → (k ∈ c'.keys ↔ k ∈ c.keys)) ∧
      (∀ k' v e, lastOn k log = some (dbtx.Call.put k' v e) → k ∈ c'.keys) ∧
      (∀ k' e, lastOn k log = some (dbtx.Call.delete k' e) → k ∉ c'.keys) := by
  induction log with
  | nil =>
    intro c c' h
    simp only [replay, Option.some.injEq] at h
    subst h
    simp [lastOn]
  | cons call rest ih =>
    intro c c' h
    rw [lastOn_cons]
    cases call with
    | put key v e =>
      simp only [replay] at h
      cases hu : ristretto.Cache.Upsert E fuel c key v with
      | none => rw [hu] at h; simp at h
      | some q =>
        obtain ⟨c1, e'⟩ := q
        rw [hu] at h
        simp only at h
        by_cases he : e' = e
        · subst he
          simp only [if_true] at h
          obtain ⟨i1, i2, i3⟩ := ih c1 c' h
          obtain ⟨u1, u2⟩ := ristretto.Upsert_keys E fuel c c1 key v e' hu
          cases hl : lastOn k rest with
          | some x =>
            rw [hl] at i2 i3
            simp only [false_implies, true_and, reduceCtorEq]
            exact ⟨i2, i3⟩
          | none =>
            have i1' := i1 hl
            simp only [dbtx.Call.key, dbtx.Call.err]
            by_cases hc : key = k ∧ e' = none
            · simp only [hc, and_self, if_true, reduceCtorEq, false_implies, true_and,
                Option.some.injEq, dbtx.Call.put.injEq, and_imp, imp_false, not_false_eq_true,
                implies_true, and_true]
              intro _ _ _ _ _ _
              rw [i1', u1 hc.2 k]
              exact Or.inl hc.1.symm
            · simp only [hc, if_false, true_implies, reduceCtorEq, false_implies, implies_true,
                and_true]
              rw [i1']
              by_cases hn : e' = none
              · rw [u1 hn k]
                have hk : ¬ k = key := fun hk => hc ⟨hk.symm, hn⟩
                simp [hk]
              · rw [u2 hn]
        · simp [he] at h
    | delete key e =>
      simp only [replay] at h
      cases hu : ristretto.Cache.Delete E fuel c key with
      | none => rw [hu] at h; simp at h
      | some q =>
        obtain ⟨c1, e'⟩ := q
        rw [hu] at h
        simp only at h
        by_cases he : e' = e
        · subst he
          simp only [if_true] at h
          obtain ⟨i1, i2, i3⟩ := ih c1 c' h
          obtain ⟨d1, d2⟩ := ristretto.Delete_keys E fuel c c1 key e' hu
          cases hl : lastOn k rest with
          | some x =>
            rw [hl] at i2 i3
            simp only [false_implies, true_and, reduceCtorEq]
            exact ⟨i2, i3⟩
          | none =>
            have i1' := i1 hl
            simp only [dbtx.Call.key, dbtx.Call.err]
            by_cases hc : key = k
            · simp only [hc, d1, and_self, if_true, reduceCtorEq, false_implies, true_and,
                implies_true]
              refine ⟨fun _ _ _ hx => by simp at hx, fun _ _ _ => ?_⟩
              rw [i1', d2 k]
              simp [hc]
            · simp only [hc, false_and, if_false, true_implies, reduceCtorEq, false_implies,
                implies_true, and_true]
              rw [i1', d2 k]
              have hk : k ≠ key := fun hk => hc hk.symm
              simp [hk]
        · simp [he] at h

/-! ## Opening the log-structured engine -/

/-- C13: for every selector value, and whatever opening the engine would give,
`badger.Open` on the empty path returns no handle and the `EmptyPath` error and
makes no engine call; hence `Open(Badgerdb, "", options)` of the facade fails
with that error for every options. -/
theorem badger_Open_empty_path {ε : Type}
    (engineOpen : String → Option badgerdb.DB × Option Error) (tp : Int) (W : World ε)
    (options : Options) :
    badger.Open engineOpen tp "" = (none, some Error.emptyPath, []) ∧
      Open W Badgerdb "" options = some (none, some Error.emptyPath, []) := by
  have h : ∀ (f : String → Option badgerdb.DB × Option Error) (t : Int),
      badger.Open f t "" = (none, some Error.emptyPath, []) := by
    intro f t
    simp [badger.Open]
  refine ⟨h engineOpen tp, ?_⟩
  have hne : Badgerdb ≠ Boltdb := by decide
  simp [Open, hne, h]

/-! ## The current partition of the page-tree adapter -/

/-- When the current partition exists on an open database, `Get` of an absent key
returns the key-not-found error. -/
theorem bolt_Get_absent (blt : bolt.Bolt) (key : Bytes) (b : bbolt.Bucket)
    (ho : blt.db.opened = true) (hb : bbolt.Tx.Bucket blt.db.root blt.Bucket = some b)
    (hk : bbolt.Bucket.Get b key = none) :
    bolt.Bolt.Get blt key = some (none, some Error.keyNotFound) := by
  simp [bolt.Bolt.Get, bbolt.DB.View, ho, hb, hk]

/-- C15, the code at the failing inputs. `Open` with the empty partition name
returns a handle with no error whose current partition does not exist, and `Get`
of an absent key on it ends in a panic. `Clean` on the handle of `withBolt`
deletes the current partition and leaves it current: `Get`, `Upsert`, `Delete`
and `Length` that follow end in a panic. So does `Get` after `DeleteBuckets` of
the current partition. -/
theorem Get_panics_on_missing_partition :
    (bolt.Open testWorld.boltOpen 0 "test.db" []
        = some (some unnamedBolt, none, [EngineCall.boltOpen "test.db"]) ∧
      bbolt.Tx.Bucket unnamedBolt.db.root unnamedBolt.Bucket = none ∧
      bolt.Bolt.Get unnamedBolt testKey = none) ∧
    (bolt.Bolt.Clean testBolt = some cleanedBolt ∧
      bbolt.Tx.Bucket cleanedBolt.db.root cleanedBolt.Bucket = none ∧
      bolt.Bolt.Get cleanedBolt testKey = none ∧
      bolt.Bolt.Upsert cleanedBolt testKey testValue = none ∧
      bolt.Bolt.Delete cleanedBolt testKey = none ∧
      bolt.Bolt.Length cleanedBolt = none) ∧
    (bolt.Bolt.DeleteBuckets testBolt [testBucket] = some (cleanedBolt, none) ∧
      bolt.Bolt.Get cleanedBolt testKey2 = none) := by
  refine ⟨⟨by decide, by decide, by decide⟩,
    ⟨by decide, by decide, by decide, by decide, by decide, by decide⟩, ⟨by decide, by decide⟩⟩

/-! ## The overlay of the cache adapter and the engine -/

/-- C12, the code at the failing input: on the engine of the specification,
after `Open`, `Upsert("key", "value")` and `Clean()`, the overlay is empty while
the engine still holds "key": `Get("key")` returns "value" with no error. `Clean`
of the log-structured adapter, in contrast, removes the data: `Get("key")` fails
after it. -/
theorem Clean_leaves_engine_data :
    ristretto.Cache.Upsert ristretto.buffered 2 freshCache testKey testValue
        = some (testCache, none) ∧
      (ristretto.Cache.Clean testCache).keys = [] ∧
      ristretto.Cache.Length (ristretto.Cache.Clean testCache) = 0 ∧
      ristretto.Cache.Get ristretto.buffered (ristretto.Cache.Clean testCache) testKey
        = (some testValue, none) ∧
      (badger.Badger.Clean testBadger).bind (fun db => badger.Badger.Get db testKey)
        = some (none, some Error.keyNotFound) := by
  decide

/-! ## The visibility wait -/

/-- A wait that ends, ends at the first poll at which the presence of the key is
the one waited for, on the state the engine has reached by then. -/
theorem ristretto.waitForKey_first {ε : Type} (E : ristretto.Engine ε) (key : Bytes)
    (available : Bool) :
    ∀ (fuel : Nat) (db db' : ε), ristretto.waitForKey E fuel db key available = some db' →
      ∃ n, n < fuel ∧ db' = E.Sleep^[n] db ∧
        (E.Get (E.Sleep^[n] db) key).isSome = available ∧
        ∀ m, m < n → (E.Get (E.Sleep^[m] db) key).isSome ≠ available := by
  intro fuel
  induction fuel with
  | zero => intro db db' h; simp [ristretto.waitForKey] at h
  | succ f ih =>
    intro db db' h
    unfold ristretto.waitForKey at h
    by_cases hp : (E.Get db key).isSome = available
    · simp only [hp, if_true, Option.some.injEq] at h
      subst h
      exact ⟨0, Nat.succ_pos f, rfl, hp, fun m hm => absurd hm (Nat.not_lt_zero m)⟩
    · simp only [hp, if_false] at h
      obtain ⟨n, hn, hdb, hget, hbefore⟩ := ih _ _ h
      refine ⟨n + 1, Nat.succ_lt_succ hn, ?_, ?_, ?_⟩
      · rw [Function.iterate_succ_apply]; exact hdb
      · rw [Function.iterate_succ_apply]; exact hget
      · intro m hm
        cases m with
        | zero => exact hp
        | succ m' =>
          rw [Function.iterate_succ_apply]
          exact hbefore m' (Nat.lt_of_succ_lt_succ hm)

/-- With more polls allowed than the first matching poll takes, the wait ends
there. -/
theorem ristretto.waitForKey_ends {ε : Type} (E : ristretto.Engine ε) (key : Bytes)
    (available : Bool) :
    ∀ (n fuel : Nat) (db : ε), n < fuel →
      (E.Get (E.Sleep^[n] db) key).isSome = available →
      (∀ m, m < n → (E.Get (E.Sleep^[m] db) key).isSome ≠ available) →
      ristretto.waitForKey E fuel db key available = some (E.Sleep^[n] db) := by
  intro n
  induction n with
  | zero =>
    intro fuel db hn hget _
    cases fuel with
    | zero => exact absurd hn (Nat.not_lt_zero 0)
    | succ f =>
      unfold ristretto.waitForKey
      have hget' : (E.Get db key).isSome = available := hget
      simp [hget']
  | succ n ih =>
    intro fuel db hn hget hbefore
    cases fuel with
    | zero => exact absurd hn (Nat.not_lt_zero _)
    | succ f =>
      unfold ristretto.waitForKey
      have h0 : ¬ (E.Get db key).isSome = available := hbefore 0 (Nat.succ_pos n)
      simp only [h0, if_false]
      rw [Function.iterate_succ_apply]
      apply ih f (E.Sleep db) (Nat.lt_of_succ_lt_succ hn)
      · rw [← Function.iterate_succ_apply]; exact hget
      · intro m hm
        rw [← Function.iterate_succ_apply]
        exact hbefore (m + 1) (Nat.succ_lt_succ hm)

/-- C14: the visibility wait returns exactly at the first poll at which the
engine's presence of the key equals `available` (it returns there as soon as
that many polls are allowed, on the engine state reached, and it returns in no
other way). When the engine never reports that presence, the wait has not
returned after any number of polls; so `Upsert` of a write that `Set` accepted
and that never becomes visible, and `Delete` of a key that never disappears,
do not return however many polls are allowed. -/
theorem waitForKey_unbounded {ε : Type} (E : ristretto.Engine ε) (c : ristretto.Cache ε)
    (key value : Bytes) :
    (∀ (db db' : ε) (available : Bool) (fuel : Nat),
        ristretto.waitForKey E fuel db key available = some db' ↔
          ∃ n, n < fuel ∧ db' = E.Sleep^[n] db ∧
            (E.Get (E.Sleep^[n] db) key).isSome = available ∧
            ∀ m, m < n → (E.Get (E.Sleep^[m] db) key).isSome ≠ available) ∧
      (∀ (db : ε) (available : Bool),
        (∀ n, (E.Get (E.Sleep^[n] db) key).isSome ≠ available) →
          ∀ fuel, ristretto.waitForKey E fuel db key available = none) ∧
      (∀ db1, E.Set c.db key value (value.length : Int) = (true, db1) →
        (∀ n, (E.Get (E.Sleep^[n] db1) key).isSome ≠ true) →
          ∀ fuel, ristretto.Cache.Upsert E fuel c key value = none) ∧
      ((∀ n, (E.Get (E.Sleep^[n] (E.Del c.db key)) key).isSome ≠ false) →
        ∀ fuel, ristretto.Cache.Delete E fuel c key = none) := by
  have hnever : ∀ (db : ε) (available : Bool),
      (∀ n, (E.Get (E.Sleep^[n] db) key).isSome ≠ available) →
        ∀ fuel, ristretto.waitForKey E fuel db key available = none := by
    intro db available hn fuel
    cases hw : ristretto.waitForKey E fuel db key available with
    | none => rfl
    | some db' =>
      obtain ⟨n, _, _, hget, _⟩ := ristretto.waitForKey_first E key available fuel db db' hw
      exact absurd hget (hn n)
  refine ⟨?_, hnever, ?_, ?_⟩
  · intro db db' available fuel
    constructor
    · exact ristretto.waitForKey_first E key available fuel db db'
    · rintro ⟨n, hn, hdb, hget, hbefore⟩
      rw [hdb]
      exact ristretto.waitForKey_ends E key available n fuel db hn hget hbefore
  · intro db1 hset hn fuel
    simp [ristretto.Cache.Upsert, hset, hnever db1 true hn fuel]
  · intro hn fuel
    simp [ristretto.Cache.Delete, hnever _ false hn fuel]

/-- On the engine that drops a write at the drain, the write of "value" (cost 5)
into a cache that admits no cost above 2 is never visible. -/
theorem lossy_never_visible (n : Nat) :
    (ristretto.lossy.Get
        (ristretto.lossy.Sleep^[n]
          (ristretto.lossy.Set tinyCache.db testKey2 testValue (testValue.length : Int)).2)
        testKey2).isSome ≠ true := by
  cases n with
  | zero => decide
  | succ m =>
    rw [Function.iterate_succ_apply]
    have hfix : ristretto.lossy.Sleep tinyCache.db = tinyCache.db := by decide
    have hstep : ristretto.lossy.Sleep
        (ristretto.lossy.Set tinyCache.db testKey2 testValue (testValue.length : Int)).2
          = tinyCache.db := by decide
    rw [hstep, Function.iterate_fixed hfix m]
    decide

/-- On the engine that never drains its buffer, "key" of the cache of `withCache`
never disappears after `Del`. -/
theorem stalled_never_absent (n : Nat) :
    (ristretto.stalled.Get
        (ristretto.stalled.Sleep^[n] (ristretto.stalled.Del testCache.db testKey))
        testKey).isSome ≠ false := by
  have hfix : ristretto.stalled.Sleep (ristretto.stalled.Del testCache.db testKey)
      = ristretto.stalled.Del testCache.db testKey := rfl
  rw [Function.iterate_fixed hfix n]
  decide

/-- C14 at concrete inputs: on the engine of the specification the wait for "k2"
ends at its second poll, once the buffered write is applied; on the engine that
drops the write at the drain `Upsert` does not return within 1000 polls, and on
the engine that never drains `Delete` does not return within 1000 polls. -/
theorem waitForKey_unbounded_witness :
    ristretto.waitForKey ristretto.buffered 5
        (ristretto.buffered.Set testCache.db testKey2 testValue2 2).2 testKey2 true
        = some (ristretto.buffered.Sleep^[1]
            (ristretto.buffered.Set testCache.db testKey2 testValue2 2).2) ∧
      ristretto.Cache.Upsert ristretto.lossy 1000 tinyCache testKey2 testValue = none ∧
      ristretto.Cache.Delete ristretto.stalled 1000 testCache testKey = none :=
  ⟨((waitForKey_unbounded ristretto.buffered testCache testKey2 testValue2).1 _ _ true 5).2
      ⟨1, by decide, rfl, by decide, fun m hm => by
        have hm0 : m = 0 := by omega
        subst hm0
        decide⟩,
    (waitForKey_unbounded ristretto.lossy tinyCache testKey2 testValue).2.2.1 _ rfl
      lossy_never_visible 1000,
    (waitForKey_unbounded ristretto.stalled testCache testKey testValue).2.2.2
      stalled_never_absent 1000⟩

/-! ## Counting the keys of the cache adapter -/

theorem bigValue_length : (bigValue.length : Int) = 600000 := by
  unfold bigValue
  rw [List.length_replicate]
  rfl


/-- When `Set` takes the write and the key is visible at the first poll, `Upsert`
returns no error with the key added to the overlay. -/
theorem ristretto.Upsert_immediate {ε : Type} (E : ristretto.Engine ε) (fuel : Nat)
    (c : ristretto.Cache ε) (key value : Bytes) (db1 : ε)
    (hset : E.Set c.db key value (value.length : Int) = (true, db1))
    (hget : (E.Get db1 key).isSome = true) :
    ristretto.Cache.Upsert E (fuel + 1) c key value
      = some ({ c with db := db1, keys := if key ∈ c.keys then c.keys else c.keys ++ [key] },
          none) := by
  simp [ristretto.Cache.Upsert, hset, ristretto.waitForKey, hget, ristretto.Cache.add]

/-- The engine with eviction takes the first write of 600000 bytes. -/
theorem evicting_Set_first :
    ristretto.evicting.Set ristretto.emptyBuffered testKey bigValue (bigValue.length : Int)
      = (true, { store := [(testKey, bigValue)], setBuf := [], MaxCost := 1000000 }) := by
  rw [bigValue_length]
  simp only [ristretto.evicting, ristretto.emptyBuffered]
  have hle : (600000 : Int) ≤ 1000000 := by decide
  rw [if_pos hle]
  have hev : ristretto.evict 1000000 testKey (kvPut testKey bigValue [])
      = [(testKey, bigValue)] := by
    simp only [kvPut, ristretto.evict, ristretto.totalCost, List.map, List.sum_cons,
      List.sum_nil, bigValue_length]
    rw [if_pos (by decide)]
  rw [hev]

/-- The engine with eviction takes the second write of 600000 bytes and evicts
the first, since the two do not fit the maximal cost of 1000000 together. -/
theorem evicting_Set_second :
    ristretto.evicting.Set
        { store := [(testKey, bigValue)], setBuf := [], MaxCost := 1000000 } testKey2 bigValue
        (bigValue.length : Int)
      = (true, { store := [(testKey2, bigValue)], setBuf := [], MaxCost := 1000000 }) := by
  rw [bigValue_length]
  simp only [ristretto.evicting]
  have hle : (600000 : Int) ≤ 1000000 := by decide
  rw [if_pos hle]
  have hput : kvPut testKey2 bigValue [(testKey, bigValue)]
      = [(testKey2, bigValue), (testKey, bigValue)] := by
    have hne : ¬ testKey2 = testKey := by decide
    have hlt : bytesLt testKey2 testKey = true := by decide
    simp only [kvPut, hne, hlt, if_true, if_false]
  have hev : ristretto.evict 1000000 testKey2 [(testKey2, bigValue), (testKey, bigValue)]
      = [(testKey2, bigValue)] := by
    have hne : ¬ testKey = testKey2 := by decide
    simp only [ristretto.evict, ristretto.totalCost, List.map, List.sum_cons,
      List.sum_nil, bigValue_length, hne, if_true, if_false]
    rw [if_neg (by decide), if_neg (by decide)]
  rw [hput, hev]

theorem evicting_first :
    ristretto.Cache.Upsert ristretto.evicting 1 freshCache testKey bigValue
      = some (bigCache1, none) :=
  ristretto.Upsert_immediate ristretto.evicting 0 freshCache testKey bigValue _
    evicting_Set_first (by simp [ristretto.evicting, kvGet])

theorem evicting_second :
    ristretto.Cache.Upsert ristretto.evicting 1 bigCache1 testKey2 bigValue
      = some (bigCache2, none) :=
  ristretto.Upsert_immediate ristretto.evicting 0 bigCache1 testKey2 bigValue _
    evicting_Set_second (by simp [ristretto.evicting, kvGet])

/-- On the engine with eviction, after `Open`, `Upsert("key", big)` and
`Upsert("k2", big)` with values of 600000 bytes both return no error. -/
theorem evicting_run :
    ristretto.upsertAll ristretto.evicting 1 [(testKey, bigValue), (testKey2, bigValue)]
        freshCache = some bigCache2 := by
  rw [ristretto.upsertAll, evicting_first]
  simp only []
  rw [ristretto.upsertAll, evicting_second]
  simp only [ristretto.upsertAll]

/-- On the cache the run leaves, `ForEach` with the visitor that never fails
returns the key-not-found error of `Get` without one call of the visitor. -/
theorem evicting_forEach :
    ristretto.Cache.ForEach ristretto.evicting bigCache2 countQuery 0
      = (0, some Error.keyNotFound) := by
  simp [ristretto.Cache.ForEach, ristretto.Cache.Keys, ristretto.Cache.forEachLoop,
    ristretto.Cache.Get, ristretto.evicting, bigCache2, kvGet, testKey, testKey2]

/-- `Upsert` keeps the overlay free of repetitions. -/
theorem ristretto.Upsert_nodup {ε : Type} (E : ristretto.Engine ε) (fuel : Nat)
    (c c' : ristretto.Cache ε) (key value : Bytes) (e : Option Error)
    (h : ristretto.Cache.Upsert E fuel c key value = some (c', e)) (hn : c.keys.Nodup) :
    c'.keys.Nodup := by
  unfold ristretto.Cache.Upsert at h
  cases hs : E.Set c.db key value (value.length : Int) with
  | mk ok db1 =>
    rw [hs] at h
    cases ok with
    | false =>
      simp only [Option.some.injEq, Prod.mk.injEq] at h
      obtain ⟨h1, _⟩ := h
      subst h1
      exact hn
    | true =>
      simp only at h
      cases hw : ristretto.waitForKey E fuel db1 key true with
      | none => rw [hw] at h; simp at h
      | some db' =>
        rw [hw] at h
        simp only [Option.some.injEq, Prod.mk.injEq] at h
        obtain ⟨h1, _⟩ := h
        subst h1
        simp only [ristretto.Cache.add]
        by_cases hm : key ∈ c.keys
        · simp only [hm, if_true]; exact hn
        · simp only [hm, if_false]
          exact List.Nodup.append hn (List.nodup_singleton key)
            (by
              intro a ha hb
              rw [List.mem_singleton] at hb
              subst hb
              exact hm ha)

/-- The overlay after a run of successful `Upsert` calls: without repetitions
when it was so before, and holding the keys it held and the keys written. -/
theorem ristretto.upsertAll_keys {ε : Type} (E : ristretto.Engine ε) (fuel : Nat)
    (ops : List (Bytes × Bytes)) :
    ∀ (c c' : ristretto.Cache ε), ristretto.upsertAll E fuel ops c = some c' →
      (c.keys.Nodup → c'.keys.Nodup) ∧
      ∀ k, k ∈ c'.keys ↔ (k ∈ c.keys ∨ k ∈ ops.map Prod.fst) := by
  induction ops with
  | nil =>
    intro c c' h
    simp only [ristretto.upsertAll, Option.some.injEq] at h
    subst h
    simp
  | cons op rest ih =>
    intro c c' h
    obtain ⟨key, value⟩ := op
    simp only [ristretto.upsertAll] at h
    cases hu : ristretto.Cache.Upsert E fuel c key value with
    | none => rw [hu] at h; simp at h
    | some q =>
      obtain ⟨c1, e⟩ := q
      rw [hu] at h
      cases e with
      | some err => simp at h
      | none =>
        simp only at h
        obtain ⟨i1, i2⟩ := ih c1 c' h
        refine ⟨fun hn => i1 (ristretto.Upsert_nodup E fuel c c1 key value none hu hn), ?_⟩
        intro k
        rw [i2 k, (ristretto.Upsert_keys E fuel c c1 key value none hu).1 rfl k]
        simp only [List.map_cons, List.mem_cons]
        constructor
        · rintro ((h1 | h1) | h1)
          · exact Or.inr (Or.inl h1)
          · exact Or.inl h1
          · exact Or.inr (Or.inr h1)
        · rintro (h1 | h1 | h1)
          · exact Or.inl (Or.inr h1)
          · exact Or.inl (Or.inl h1)
          · exact Or.inr h1

/-- A list without repetitions that has the members of another list is as long
as the other list has distinct members. -/
theorem length_eq_dedup_length (l m : List Bytes) (hn : l.Nodup)
    (hmem : ∀ k, k ∈ l ↔ k ∈ m) : l.length = m.dedup.length := by
  apply List.Perm.length_eq
  rw [List.perm_ext_iff_of_nodup hn (List.nodup_dedup m)]
  intro k
  rw [hmem k, List.mem_dedup]

/-- With a visitor that never fails the key loop calls the visitor on every key
of the list, in order, and returns no error. -/
theorem ristretto.keyLoop_total {σ : Type} (query : σ → Bytes → σ × Option Error)
    (hq : ∀ s b, (query s b).2 = none) (ks : List Bytes) :
    ∀ (s : σ) (tr : List (Bytes × Option Error)),
      (ristretto.Cache.keyLoop (recording query) ks (s, tr)).2 = none ∧
        (ristretto.Cache.keyLoop (recording query) ks (s, tr)).1.2.map Prod.fst
          = tr.map Prod.fst ++ ks := by
  induction ks with
  | nil => intro s tr; simp [ristretto.Cache.keyLoop]
  | cons k rest ih =>
    intro s tr
    cases hqk : query s k with
    | mk s' e =>
      have he : e = none := by have := hq s k; rw [hqk] at this; exact this
      subst he
      have hrun : ristretto.Cache.keyLoop (recording query) (k :: rest) (s, tr)
          = ristretto.Cache.keyLoop (recording query) rest (s', tr ++ [(k, none)]) := by
        simp [ristretto.Cache.keyLoop, recording, hqk]
      rw [hrun]
      obtain ⟨i1, i2⟩ := ih s' (tr ++ [(k, none)])
      exact ⟨i1, by rw [i2]; simp⟩

/-- With a visitor that never fails, on a list of keys the engine all holds, the
value loop calls the visitor once for every key and returns no error. -/
theorem ristretto.forEachLoop_total {ε σ : Type} (E : ristretto.Engine ε)
    (c : ristretto.Cache ε) (query : σ → Bytes → σ × Option Error)
    (hq : ∀ s b, (query s b).2 = none) (ks : List Bytes) :
    (∀ k ∈ ks, (E.Get c.db k).isSome = true) →
    ∀ (s : σ) (tr : List (Bytes × Option Error)),
      (ristretto.Cache.forEachLoop E c (recording query) ks (s, tr)).2 = none ∧
        (ristretto.Cache.forEachLoop E c (recording query) ks (s, tr)).1.2.length
          = tr.length + ks.length := by
  induction ks with
  | nil => intro _ s tr; simp [ristretto.Cache.forEachLoop]
  | cons k rest ih =>
    intro hheld s tr
    have hk : (E.Get c.db k).isSome = true := hheld k (List.mem_cons_self k rest)
    cases hg : E.Get c.db k with
    | none => rw [hg] at hk; simp at hk
    | some v =>
      cases hqv : query s v with
      | mk s' e =>
        have he : e = none := by have := hq s v; rw [hqv] at this; exact this
        subst he
        have hrun : ristretto.Cache.forEachLoop E c (recording query) (k :: rest) (s, tr)
            = ristretto.Cache.forEachLoop E c (recording query) rest
                (s', tr ++ [(v, none)]) := by
          simp [ristretto.Cache.forEachLoop, ristretto.Cache.Get, recording, hg, hqv]
        rw [hrun]
        obtain ⟨i1, i2⟩ := ih (fun k' hk' => hheld k' (List.mem_cons_of_mem k hk')) s'
          (tr ++ [(v, none)])
        refine ⟨i1, ?_⟩
        rw [i2, List.length_append, List.length_cons, List.length_cons, List.length_nil]
        omega

/-- On the buffered engine, while the buffer holds no delete, a retry interval
leaves no delete in the buffer and keeps every visible key visible. -/
theorem buffered_Sleep_keeps (b : ristretto.Buffered)
    (hb : ∀ it ∈ b.setBuf, ∃ k v, it = ristretto.Item.set k v) :
    (∀ it ∈ (ristretto.buffered.Sleep b).setBuf, ∃ k v, it = ristretto.Item.set k v) ∧
      ∀ k, (kvGet k b.store).isSome = true →
        (kvGet k (ristretto.buffered.Sleep b).store).isSome = true := by
  cases hbuf : b.setBuf with
  | nil =>
    have hs : ristretto.buffered.Sleep b = b := by
      simp only [ristretto.buffered, hbuf]
    rw [hs]
    exact ⟨hb, fun _ h => h⟩
  | cons it rest =>
    obtain ⟨k', v, hit⟩ := hb it (by rw [hbuf]; exact List.mem_cons_self it rest)
    subst hit
    have hrest : ∀ x ∈ rest, ∃ k v, x = ristretto.Item.set k v :=
      fun x hx => hb x (by rw [hbuf]; exact List.mem_cons_of_mem _ hx)
    by_cases hc : (v.length : Int) ≤ b.MaxCost
    · have hs : ristretto.buffered.Sleep b
          = { b with store := kvPut k' v b.store, setBuf := rest } := by
        simp only [ristretto.buffered, hbuf, hc, if_true]
      rw [hs]
      refine ⟨hrest, ?_⟩
      intro k hk
      simp only [kvGet_kvPut]
      by_cases hkk : k = k'
      · simp [hkk]
      · simp [hkk, hk]
    · have hs : ristretto.buffered.Sleep b = { b with setBuf := rest } := by
        simp only [ristretto.buffered, hbuf, hc, if_false]
      rw [hs]
      exact ⟨hrest, fun _ h => h⟩

/-- The same over any number of retry intervals. -/
theorem buffered_iterate_keeps (n : Nat) :
    ∀ b : ristretto.Buffered, (∀ it ∈ b.setBuf, ∃ k v, it = ristretto.Item.set k v) →
      (∀ it ∈ (ristretto.buffered.Sleep^[n] b).setBuf, ∃ k v, it = ristretto.Item.set k v) ∧
        ∀ k, (kvGet k b.store).isSome = true →
          (kvGet k (ristretto.buffered.Sleep^[n] b).store).isSome = true := by
  induction n with
  | zero => intro b hb; exact ⟨hb, fun _ h => h⟩
  | succ m ih =>
    intro b hb
    rw [Function.iterate_succ_apply]
    obtain ⟨h1, h2⟩ := buffered_Sleep_keeps b hb
    obtain ⟨i1, i2⟩ := ih (ristretto.buffered.Sleep b) h1
    exact ⟨i1, fun k hk => i2 k (h2 k hk)⟩

/-- On the buffered engine, which evicts nothing, a run of successful `Upsert`
calls from a cache with no delete in the buffer and every overlay key visible
leaves every overlay key visible. -/
theorem buffered_holds_overlay (fuel : Nat) (ops : List (Bytes × Bytes)) :
    ∀ (c c' : ristretto.Cache ristretto.Buffered),
      ristretto.upsertAll ristretto.buffered fuel ops c = some c' →
      (∀ it ∈ c.db.setBuf, ∃ k v, it = ristretto.Item.set k v) →
      (∀ k ∈ c.keys, (ristretto.buffered.Get c.db k).isSome = true) →
      (∀ it ∈ c'.db.setBuf, ∃ k v, it = ristretto.Item.set k v) ∧
        ∀ k ∈ c'.keys, (ristretto.buffered.Get c'.db k).isSome = true := by
  induction ops with
  | nil =>
    intro c c' h hb hk
    simp only [ristretto.upsertAll, Option.some.injEq] at h
    subst h
    exact ⟨hb, hk⟩
  | cons op rest ih =>
    intro c c' h hb hk
    obtain ⟨key, value⟩ := op
    simp only [ristretto.upsertAll] at h
    cases hu : ristretto.Cache.Upsert ristretto.buffered fuel c key value with
    | none => rw [hu] at h; simp at h
    | some q =>
      obtain ⟨c1, e⟩ := q
      rw [hu] at h
      cases e with
      | some err => simp at h
      | none =>
        simp only at h
        have hkeys := (ristretto.Upsert_keys ristretto.buffered fuel c c1 key value none hu).1 rfl
        have hvis := (ristretto_Get_after_Upsert ristretto.buffered fuel c c1 key value hu).1
        -- the engine state `Set` leaves: no delete in the buffer, nothing lost
        have hset : ∃ db1, ristretto.buffered.Set c.db key value (value.length : Int)
              = (true, db1) ∧
            (∀ it ∈ db1.setBuf, ∃ k v, it = ristretto.Item.set k v) ∧
            ∀ k, (kvGet k c.db.store).isSome = true → (kvGet k db1.store).isSome = true := by
          cases hg : kvGet key c.db.store with
          | some old =>
            refine ⟨{ c.db with store := kvPut key value c.db.store }, ?_, hb, ?_⟩
            · simp only [ristretto.buffered, hg]
            · intro k hk
              simp only [kvGet_kvPut]
              by_cases hkk : k = key
              · simp [hkk]
              · simp [hkk, hk]
          | none =>
            refine ⟨{ c.db with setBuf := c.db.setBuf ++ [ristretto.Item.set key value] },
              ?_, ?_, fun _ h => h⟩
            · simp only [ristretto.buffered, hg]
            · intro it hit
              rcases List.mem_append.1 hit with hit | hit
              · exact hb it hit
              · rw [List.mem_singleton] at hit
                exact ⟨key, value, hit⟩
        obtain ⟨db1, hs1, hb1, hkeep⟩ := hset
        -- the engine state the call leaves
        have hstate : ∃ n, c1.db = ristretto.buffered.Sleep^[n] db1 := by
          unfold ristretto.Cache.Upsert at hu
          rw [hs1] at hu
          simp only at hu
          cases hw : ristretto.waitForKey ristretto.buffered fuel db1 key true with
          | none => rw [hw] at hu; simp at hu
          | some db2 =>
            rw [hw] at hu
            simp only [Option.some.injEq, Prod.mk.injEq, and_true] at hu
            obtain ⟨n, _, hdb, _, _⟩ :=
              ristretto.waitForKey_first ristretto.buffered key true fuel _ _ hw
            refine ⟨n, ?_⟩
            rw [← hu]
            exact hdb
        obtain ⟨n, hn⟩ := hstate
        obtain ⟨k1, k2⟩ := buffered_iterate_keeps n _ hb1
        rw [← hn] at k1 k2
        apply ih c1 c' h k1
        intro k hkm
        rcases (hkeys k).1 hkm with hkk | hkk
        · subst hkk
          obtain ⟨v', hv'⟩ := hvis
          simp only [ristretto.Cache.Get] at hv'
          cases hg : ristretto.buffered.Get c1.db k with
          | none => rw [hg] at hv'; simp at hv'
          | some v => rfl
        · exact k2 k (hkeep k (hk k hkk))

/-- With a visitor that never fails, on a list of keys one of which the engine
does not hold, the value loop returns the key-not-found error of `Get` and has
called the visitor on fewer values than there are keys. -/
theorem ristretto.forEachLoop_evicted {ε σ : Type} (E : ristretto.Engine ε)
    (c : ristretto.Cache ε) (query : σ → Bytes → σ × Option Error)
    (hq : ∀ s b, (query s b).2 = none) (ks : List Bytes) :
    (∃ k ∈ ks, (E.Get c.db k).isSome = false) →
    ∀ (s : σ) (tr : List (Bytes × Option Error)),
      (ristretto.Cache.forEachLoop E c (recording query) ks (s, tr)).2
          = some Error.keyNotFound ∧
        (ristretto.Cache.forEachLoop E c (recording query) ks (s, tr)).1.2.length
          < tr.length + ks.length := by
  induction ks with
  | nil => intro h; obtain ⟨k, hk, _⟩ := h; simp at hk
  | cons k rest ih =>
    intro hex s tr
    cases hg : E.Get c.db k with
    | none =>
      have hrun : ristretto.Cache.forEachLoop E c (recording query) (k :: rest) (s, tr)
          = ((s, tr), some Error.keyNotFound) := by
        simp [ristretto.Cache.forEachLoop, ristretto.Cache.Get, hg]
      rw [hrun]
      refine ⟨rfl, ?_⟩
      simp only [List.length_cons]
      omega
    | some v =>
      cases hqv : query s v with
      | mk s' e =>
        have he : e = none := by have := hq s v; rw [hqv] at this; exact this
        subst he
        have hrun : ristretto.Cache.forEachLoop E c (recording query) (k :: rest) (s, tr)
            = ristretto.Cache.forEachLoop E c (recording query) rest
                (s', tr ++ [(v, none)]) := by
          simp [ristretto.Cache.forEachLoop, ristretto.Cache.Get, recording, hg, hqv]
        rw [hrun]
        have hex' : ∃ k' ∈ rest, (E.Get c.db k').isSome = false := by
          obtain ⟨k', hk', hn⟩ := hex
          rcases List.mem_cons.1 hk' with h1 | h1
          · subst h1; rw [hg] at hn; simp at hn
          · exact ⟨k', h1, hn⟩
        obtain ⟨i1, i2⟩ := ih hex' s' (tr ++ [(v, none)])
        refine ⟨i1, ?_⟩
        rw [List.length_append, List.length_cons, List.length_nil] at i2
        simp only [List.length_cons]
        omega

/-- C11, as stated, fails on an engine with eviction. After `Open`,
`Upsert("key", big)` and `Upsert("k2", big)` with two values of 600000 bytes both
return no error: two distinct keys, no delete, and `Length()` is 2. The second
write has evicted "key", so `ForEach` with a visitor that never fails returns
the key-not-found error and has visited no value, not two. -/
theorem key_counting_counterexample :
    ristretto.Open (ristretto.emptyBuffered, none) 2 "foo"
        = (freshCache, none, [EngineCall.newCache]) ∧
      ristretto.upsertAll ristretto.evicting 1 [(testKey, bigValue), (testKey2, bigValue)]
        freshCache = some bigCache2 ∧
      ([(testKey, bigValue), (testKey2, bigValue)].map Prod.fst).dedup.length = 2 ∧
      ristretto.Cache.Length bigCache2 = 2 ∧
      ristretto.Cache.ForEach ristretto.evicting bigCache2 countQuery 0
        = (0, some Error.keyNotFound) := by
  refine ⟨rfl, evicting_run, ?_, rfl, evicting_forEach⟩
  simp only [List.map]
  decide

/-- C11, amended: for every engine and every cache reached from `Open` by a run
of successful `Upsert` calls on `N` distinct keys, `Length()` is `N`, and
`KeyIterator` with a visitor that never fails returns no error after exactly `N`
calls, one for each distinct key. `ForEach` with such a visitor returns no error
after exactly `N` calls when the engine still holds every key of the overlay;
when the engine has evicted one of them it returns the key-not-found error
after fewer than `N` calls. -/
theorem key_counting {ε σ : Type} (E : ristretto.Engine ε) (fuel : Nat)
    (newCache : ε × Option Error) (tp : Int) (name : String) (ops : List (Bytes × Bytes))
    (c : ristretto.Cache ε) (query : σ → Bytes → σ × Option Error) (s : σ)
    (hrun : ristretto.upsertAll E fuel ops (ristretto.Open newCache tp name).1 = some c)
    (hq : ∀ s b, (query s b).2 = none) :
    c.Length = (ops.map Prod.fst).dedup.length ∧
      ((c.KeyIterator (recording query) (s, [])).2 = none ∧
        ((c.KeyIterator (recording query) (s, [])).1.2.map Prod.fst).Nodup ∧
        (∀ k, k ∈ (c.KeyIterator (recording query) (s, [])).1.2.map Prod.fst ↔
          k ∈ ops.map Prod.fst) ∧
        (c.KeyIterator (recording query) (s, [])).1.2.length
          = (ops.map Prod.fst).dedup.length) ∧
      ((∀ k ∈ c.keys, (E.Get c.db k).isSome = true) →
        (ristretto.Cache.ForEach E c (recording query) (s, [])).2 = none ∧
        (ristretto.Cache.ForEach E c (recording query) (s, [])).1.2.length
          = (ops.map Prod.fst).dedup.length) ∧
      ((∃ k ∈ c.keys, (E.Get c.db k).isSome = false) →
        (ristretto.Cache.ForEach E c (recording query) (s, [])).2 = some Error.keyNotFound ∧
        (ristretto.Cache.ForEach E c (recording query) (s, [])).1.2.length
          < (ops.map Prod.fst).dedup.length) := by
  obtain ⟨hnd, hmem⟩ := ristretto.upsertAll_keys E fuel ops _ c hrun
  have hnodup : c.keys.Nodup := hnd (by simp [ristretto.Open])
  have hmem' : ∀ k, k ∈ c.keys ↔ k ∈ ops.map Prod.fst := by
    intro k
    rw [hmem k]
    simp [ristretto.Open]
  have hlen : c.keys.length = (ops.map Prod.fst).dedup.length :=
    length_eq_dedup_length c.keys (ops.map Prod.fst) hnodup hmem'
  obtain ⟨k1, k2⟩ := ristretto.keyLoop_total query hq c.keys s []
  simp only [List.map_nil, List.nil_append] at k2
  refine ⟨hlen, ⟨k1, ?_, ?_, ?_⟩, ?_, ?_⟩
  · unfold ristretto.Cache.KeyIterator ristretto.Cache.Keys
    rw [k2]; exact hnodup
  · intro k
    unfold ristretto.Cache.KeyIterator ristretto.Cache.Keys
    rw [k2]; exact hmem' k
  · have := congrArg List.length k2
    rw [List.length_map] at this
    unfold ristretto.Cache.KeyIterator ristretto.Cache.Keys
    rw [this]; exact hlen
  · intro hheld
    obtain ⟨f1, f2⟩ := ristretto.forEachLoop_total E c query hq c.keys hheld s []
    refine ⟨f1, ?_⟩
    unfold ristretto.Cache.ForEach ristretto.Cache.Keys
    rw [f2, List.length_nil, Nat.zero_add]; exact hlen
  · intro hex
    obtain ⟨f1, f2⟩ := ristretto.forEachLoop_evicted E c query hq c.keys hex s []
    refine ⟨f1, ?_⟩
    unfold ristretto.Cache.ForEach ristretto.Cache.Keys
    rw [List.length_nil, Nat.zero_add, hlen] at f2
    exact f2

/-- C11, amended, at three `Upsert` calls on two distinct keys on the engine of
the specification, with the visitor that counts its calls. -/
theorem key_counting_witness :
    ristretto.upsertAll ristretto.buffered 2
        [(testKey, testValue), (testKey2, testValue2), (testKey, testValue2)]
        (ristretto.Open (ristretto.emptyBuffered, none) 2 "foo").1 = some twoKeyCache ∧
      (∀ s b, (countQuery s b).2 = none) ∧
      twoKeyCache.Length
        = ([(testKey, testValue), (testKey2, testValue2), (testKey, testValue2)].map
            Prod.fst).dedup.length ∧
      (twoKeyCache.KeyIterator (recording countQuery) (0, [])).1.2.length
        = ([(testKey, testValue), (testKey2, testValue2), (testKey, testValue2)].map
            Prod.fst).dedup.length ∧
      (ristretto.Cache.ForEach ristretto.buffered twoKeyCache (recording countQuery)
          (0, [])).1.2.length
        = ([(testKey, testValue), (testKey2, testValue2), (testKey, testValue2)].map
            Prod.fst).dedup.length :=
  ⟨by decide, fun _ _ => rfl,
    (key_counting ristretto.buffered 2 (ristretto.emptyBuffered, none) 2 "foo"
      [(testKey, testValue), (testKey2, testValue2), (testKey, testValue2)] twoKeyCache
      countQuery 0 (by decide) (fun _ _ => rfl)).1,
    (key_counting ristretto.buffered 2 (ristretto.emptyBuffered, none) 2 "foo"
      [(testKey, testValue), (testKey2, testValue2), (testKey, testValue2)] twoKeyCache
      countQuery 0 (by decide) (fun _ _ => rfl)).2.1.2.2.2,
    ((key_counting ristretto.buffered 2 (ristretto.emptyBuffered, none) 2 "foo"
      [(testKey, testValue), (testKey2, testValue2), (testKey, testValue2)] twoKeyCache
      countQuery 0 (by decide) (fun _ _ => rfl)).2.2.1 (by decide)).2⟩

/-! ## The buffered engine between two calls of the adapter -/

/-- Draining a delete of a key that is not visible changes nothing a read
sees. -/
theorem buffered_Sleep_del (b : ristretto.Buffered) (k : Bytes) (rest : List ristretto.Item)
    (hbuf : b.setBuf = ristretto.Item.del k :: rest) (hk : kvGet k b.store = none) :
    (ristretto.buffered.Sleep b).setBuf = rest ∧
      ∀ k', kvGet k' (ristretto.buffered.Sleep b).store = kvGet k' b.store := by
  have hs : ristretto.buffered.Sleep b = { b with store := kvDel k b.store, setBuf := rest } := by
    simp only [ristretto.buffered, hbuf]
  rw [hs]
  refine ⟨rfl, ?_⟩
  intro k'
  simp only [kvGet_kvDel]
  by_cases hkk : k' = k
  · simp [hkk, hk]
  · simp [hkk]

/-- On the buffered engine at rest, a retry interval leaves the engine at rest
and changes nothing a read sees. -/
theorem buffered_Sleep_settled (b : ristretto.Buffered) (hb : b.settled) :
    (ristretto.buffered.Sleep b).settled ∧
      ∀ k, kvGet k (ristretto.buffered.Sleep b).store = kvGet k b.store := by
  cases hbuf : b.setBuf with
  | nil =>
    have hs : ristretto.buffered.Sleep b = b := by
      simp only [ristretto.buffered, hbuf]
    rw [hs]
    exact ⟨hb, fun _ => rfl⟩
  | cons it rest =>
    obtain ⟨k', hit, hk'⟩ := hb it (by rw [hbuf]; exact List.mem_cons_self it rest)
    subst hit
    obtain ⟨h1, h2⟩ := buffered_Sleep_del b k' rest hbuf hk'
    refine ⟨?_, h2⟩
    intro x hx
    rw [h1] at hx
    obtain ⟨k, hxk, hk⟩ := hb x (by rw [hbuf]; exact List.mem_cons_of_mem _ hx)
    exact ⟨k, hxk, by rw [h2]; exact hk⟩

/-- The same over any number of retry intervals. -/
theorem buffered_iterate_settled (n : Nat) :
    ∀ b : ristretto.Buffered, b.settled →
      (ristretto.buffered.Sleep^[n] b).settled ∧
        ∀ k, kvGet k (ristretto.buffered.Sleep^[n] b).store = kvGet k b.store := by
  induction n with
  | zero => intro b hb; exact ⟨hb, fun _ => rfl⟩
  | succ m ih =>
    intro b hb
    rw [Function.iterate_succ_apply]
    obtain ⟨h1, h2⟩ := buffered_Sleep_settled b hb
    obtain ⟨i1, i2⟩ := ih _ h1
    exact ⟨i1, fun k => by rw [i2, h2]⟩

/-- On the buffered engine, a write of a key that is not visible, taken behind
deletes of keys that are not visible: at every later retry interval the other
keys read as before, and either the write is still in the buffer and the key
not visible, or the engine is at rest and the key reads as the value written or
is not visible (the write was dropped at the drain). -/
theorem buffered_pending_set (key value : Bytes) (n : Nat) :
    ∀ b : ristretto.Buffered, kvGet key b.store = none →
      (∃ dels, b.setBuf = dels ++ [ristretto.Item.set key value] ∧
        ∀ it ∈ dels, ∃ k, it = ristretto.Item.del k ∧ kvGet k b.store = none) →
      (∀ k, k ≠ key → kvGet k (ristretto.buffered.Sleep^[n] b).store = kvGet k b.store) ∧
      ((kvGet key (ristretto.buffered.Sleep^[n] b).store = none ∧
          ¬ (ristretto.buffered.Sleep^[n] b).setBuf = []) ∨
        ((ristretto.buffered.Sleep^[n] b).settled ∧
          (kvGet key (ristretto.buffered.Sleep^[n] b).store = some value ∨
            kvGet key (ristretto.buffered.Sleep^[n] b).store = none))) := by
  induction n with
  | zero =>
    intro b hk hbuf
    obtain ⟨dels, hd, _⟩ := hbuf
    refine ⟨fun _ _ => rfl, Or.inl ⟨hk, ?_⟩⟩
    simp only [Function.iterate_zero, id_eq]
    rw [hd]
    simp
  | succ m ih =>
    intro b hk hbuf
    obtain ⟨dels, hd, hdels⟩ := hbuf
    rw [Function.iterate_succ_apply]
    cases dels with
    | nil =>
      simp only [List.nil_append] at hd
      by_cases hc : (value.length : Int) ≤ b.MaxCost
      · have hs : ristretto.buffered.Sleep b
            = { b with store := kvPut key value b.store, setBuf := [] } := by
          simp only [ristretto.buffered, hd, hc, if_true]
        have hset : (ristretto.buffered.Sleep b).settled := by
          rw [hs]; intro it hit; simp at hit
        obtain ⟨i1, i2⟩ := buffered_iterate_settled m _ hset
        refine ⟨?_, Or.inr ⟨i1, Or.inl ?_⟩⟩
        · intro k hkk
          rw [i2, hs]
          simp only [kvGet_kvPut, hkk, if_false]
        · rw [i2, hs]
          simp only [kvGet_kvPut_self]
      · have hs : ristretto.buffered.Sleep b = { b with setBuf := [] } := by
          simp only [ristretto.buffered, hd, hc, if_false]
        have hset : (ristretto.buffered.Sleep b).settled := by
          rw [hs]; intro it hit; simp at hit
        obtain ⟨i1, i2⟩ := buffered_iterate_settled m _ hset
        refine ⟨?_, Or.inr ⟨i1, Or.inr ?_⟩⟩
        · intro k _
          rw [i2, hs]
        · rw [i2, hs]
          exact hk
    | cons d ds =>
      obtain ⟨k0, hd0, hk0⟩ := hdels d (List.mem_cons_self d ds)
      subst hd0
      obtain ⟨h1, h2⟩ := buffered_Sleep_del b k0 (ds ++ [ristretto.Item.set key value])
        (by rw [hd]; rfl) hk0
      have hk' : kvGet key (ristretto.buffered.Sleep b).store = none := by rw [h2]; exact hk
      have hbuf' : ∃ dels, (ristretto.buffered.Sleep b).setBuf
            = dels ++ [ristretto.Item.set key value] ∧
          ∀ it ∈ dels, ∃ k, it = ristretto.Item.del k ∧
            kvGet k (ristretto.buffered.Sleep b).store = none := by
        refine ⟨ds, h1, ?_⟩
        intro it hit
        obtain ⟨k, hik, hkn⟩ := hdels it (List.mem_cons_of_mem _ hit)
        exact ⟨k, hik, by rw [h2]; exact hkn⟩
      obtain ⟨i1, i2⟩ := ih _ hk' hbuf'
      refine ⟨fun k hkk => by rw [i1 k hkk, h2], ?_⟩
      exact i2

/-- On the buffered engine, a delete taken behind deletes of keys that are not
visible: at every later retry interval the other keys read as before, and the
engine is at rest whenever the key is not visible. -/
theorem buffered_pending_del (key : Bytes) (n : Nat) :
    ∀ b : ristretto.Buffered,
      (∃ dels, b.setBuf = dels ++ [ristretto.Item.del key] ∧
        ∀ it ∈ dels, ∃ k, it = ristretto.Item.del k ∧ kvGet k b.store = none) →
      (∀ k, k ≠ key → kvGet k (ristretto.buffered.Sleep^[n] b).store = kvGet k b.store) ∧
      (kvGet key (ristretto.buffered.Sleep^[n] b).store = none →
        (ristretto.buffered.Sleep^[n] b).settled) := by
  induction n with
  | zero =>
    intro b hbuf
    obtain ⟨dels, hd, hdels⟩ := hbuf
    refine ⟨fun _ _ => rfl, ?_⟩
    intro hk it hit
    simp only [Function.iterate_zero, id_eq] at hk hit ⊢
    rw [hd] at hit
    rcases List.mem_append.1 hit with hit | hit
    · exact hdels it hit
    · rw [List.mem_singleton] at hit
      exact ⟨key, hit, hk⟩
  | succ m ih =>
    intro b hbuf
    obtain ⟨dels, hd, hdels⟩ := hbuf
    rw [Function.iterate_succ_apply]
    cases dels with
    | nil =>
      simp only [List.nil_append] at hd
      have hs : ristretto.buffered.Sleep b
          = { b with store := kvDel key b.store, setBuf := [] } := by
        simp only [ristretto.buffered, hd]
      have hset : (ristretto.buffered.Sleep b).settled := by
        rw [hs]; intro it hit; simp at hit
      obtain ⟨i1, i2⟩ := buffered_iterate_settled m _ hset
      refine ⟨?_, fun _ => i1⟩
      intro k hkk
      rw [i2, hs]
      simp only [kvGet_kvDel, hkk, if_false]
    | cons d ds =>
      obtain ⟨k0, hd0, hk0⟩ := hdels d (List.mem_cons_self d ds)
      subst hd0
      obtain ⟨h1, h2⟩ := buffered_Sleep_del b k0 (ds ++ [ristretto.Item.del key])
        (by rw [hd]; rfl) hk0
      have hbuf' : ∃ dels, (ristretto.buffered.Sleep b).setBuf
            = dels ++ [ristretto.Item.del key] ∧
          ∀ it ∈ dels, ∃ k, it = ristretto.Item.del k ∧
            kvGet k (ristretto.buffered.Sleep b).store = none := by
        refine ⟨ds, h1, ?_⟩
        intro it hit
        obtain ⟨k, hik, hkn⟩ := hdels it (List.mem_cons_of_mem _ hit)
        exact ⟨k, hik, by rw [h2]; exact hkn⟩
      obtain ⟨i1, i2⟩ := ih _ hbuf'
      exact ⟨fun k hkk => by rw [i1 k hkk, h2], i2⟩

/-- The buffered engine evicts nothing and shows a write it has taken as
written: it meets `Retains` for the states at rest. -/
theorem buffered_retains : ristretto.buffered.Retains ristretto.Buffered.settled where
  declined := by
    intro db key value cost _ h
    cases hg : kvGet key db.store <;> simp [ristretto.buffered, hg] at h
  taken := by
    intro db key value cost n hrest _
    cases hg : kvGet key db.store with
    | some old =>
      have hs : (ristretto.buffered.Set db key value cost).2
          = { db with store := kvPut key value db.store } := by
        simp only [ristretto.buffered, hg]
      have hset : (ristretto.buffered.Set db key value cost).2.settled := by
        rw [hs]
        intro it hit
        obtain ⟨k, hik, hkn⟩ := hrest it hit
        refine ⟨k, hik, ?_⟩
        simp only [kvGet_kvPut]
        by_cases hkk : k = key
        · rw [hkk, hg] at hkn; simp at hkn
        · simp [hkk, hkn]
      obtain ⟨i1, i2⟩ := buffered_iterate_settled n _ hset
      have hget : ∀ k, ristretto.buffered.Get
          (ristretto.buffered.Sleep^[n] (ristretto.buffered.Set db key value cost).2) k
            = kvGet k (kvPut key value db.store) := by
        intro k
        have := i2 k
        rw [hs] at this ⊢
        exact this
      refine ⟨Or.inl ?_, ?_, fun _ => i1⟩
      · rw [hget, kvGet_kvPut_self]
      · intro k hkk
        rw [hget, kvGet_kvPut]
        simp only [hkk, if_false]
        rfl
    | none =>
      have hs : (ristretto.buffered.Set db key value cost).2
          = { db with setBuf := db.setBuf ++ [ristretto.Item.set key value] } := by
        simp only [ristretto.buffered, hg]
      rw [hs]
      obtain ⟨i1, i2⟩ := buffered_pending_set key value n
        { db with setBuf := db.setBuf ++ [ristretto.Item.set key value] } hg
        ⟨db.setBuf, rfl, hrest⟩
      refine ⟨?_, fun k hkk => i1 k hkk, ?_⟩
      · rcases i2 with ⟨h1, _⟩ | ⟨_, h2⟩
        · exact Or.inr h1
        · exact h2
      · intro hv
        rcases i2 with ⟨h1, _⟩ | ⟨h2, _⟩
        · have hv' : kvGet key (ristretto.buffered.Sleep^[n]
              { db with setBuf := db.setBuf ++ [ristretto.Item.set key value] }).store
                = some value := hv
          rw [h1] at hv'
          simp at hv'
        · exact h2
  deleted := by
    intro db key n hrest
    have hs : ristretto.buffered.Del db key
        = { db with setBuf := db.setBuf ++ [ristretto.Item.del key] } := rfl
    rw [hs]
    obtain ⟨i1, i2⟩ := buffered_pending_del key n
      { db with setBuf := db.setBuf ++ [ristretto.Item.del key] } ⟨db.setBuf, rfl, hrest⟩
    exact ⟨fun k hkk => i1 k hkk, fun hk => i2 hk⟩

/-! ## The cache adapter on an engine that retains what it has taken -/

/-- On an engine that retains, from a state at rest: `Upsert` leaves the engine
at rest, every other key reads as before, and the key reads as the value
written when the call returned no error and as before when it returned one. -/
theorem ristretto.Upsert_retains {ε : Type} (E : ristretto.Engine ε) (rest : ε → Prop)
    (hE : E.Retains rest) (fuel : Nat) (c c' : ristretto.Cache ε) (key value : Bytes)
    (e : Option Error) (hc : rest c.db)
    (h : ristretto.Cache.Upsert E fuel c key value = some (c', e)) :
    rest c'.db ∧ (∀ k, k ≠ key → E.Get c'.db k = E.Get c.db k) ∧
      (e = none → E.Get c'.db key = some value) ∧
      (e ≠ none → E.Get c'.db key = E.Get c.db key) := by
  unfold ristretto.Cache.Upsert at h
  cases hs : E.Set c.db key value (value.length : Int) with
  | mk ok db1 =>
    rw [hs] at h
    cases ok with
    | false =>
      simp only [Option.some.injEq, Prod.mk.injEq] at h
      obtain ⟨h1, h2⟩ := h
      subst h1 h2
      have hd := hE.declined c.db key value (value.length : Int) hc (by rw [hs])
      rw [hs] at hd
      exact ⟨hd.1, fun k _ => hd.2 k, fun hn => by simp at hn, fun _ => hd.2 key⟩
    | true =>
      simp only at h
      cases hw : ristretto.waitForKey E fuel db1 key true with
      | none => rw [hw] at h; simp at h
      | some db2 =>
        rw [hw] at h
        simp only [Option.some.injEq, Prod.mk.injEq] at h
        obtain ⟨h1, h2⟩ := h
        subst h1 h2
        obtain ⟨n, _, hdb, hget, _⟩ := ristretto.waitForKey_first E key true fuel _ _ hw
        have ht := hE.taken c.db key value (value.length : Int) n hc (by rw [hs])
        rw [hs] at ht
        simp only at ht
        rw [← hdb] at ht hget
        obtain ⟨t1, t2, t3⟩ := ht
        have hv : E.Get db2 key = some value := by
          rcases t1 with t1 | t1
          · exact t1
          · rw [t1] at hget; simp at hget
        exact ⟨t3 hv, t2, fun _ => hv, fun hn => absurd rfl hn⟩

/-- On an engine that retains, from a state at rest: `Delete` leaves the engine
at rest, the key is not visible and every other key reads as before. -/
theorem ristretto.Delete_retains {ε : Type} (E : ristretto.Engine ε) (rest : ε → Prop)
    (hE : E.Retains rest) (fuel : Nat) (c c' : ristretto.Cache ε) (key : Bytes)
    (e : Option Error) (hc : rest c.db)
    (h : ristretto.Cache.Delete E fuel c key = some (c', e)) :
    rest c'.db ∧ (∀ k, k ≠ key → E.Get c'.db k = E.Get c.db k) ∧ E.Get c'.db key = none := by
  unfold ristretto.Cache.Delete at h
  cases hw : ristretto.waitForKey E fuel (E.Del c.db key) key false with
  | none => rw [hw] at h; simp at h
  | some db2 =>
    rw [hw] at h
    simp only [Option.some.injEq, Prod.mk.injEq] at h
    obtain ⟨h1, h2⟩ := h
    subst h1 h2
    obtain ⟨n, _, hdb, hget, _⟩ := ristretto.waitForKey_first E key false fuel _ _ hw
    have hd := hE.deleted c.db key n hc
    rw [← hdb] at hd hget
    have hv : E.Get db2 key = none := by
      cases hg : E.Get db2 key with
      | none => rfl
      | some v => rw [hg] at hget; simp at hget
    exact ⟨hd.2 hv, hd.1, hv⟩

/-- On an engine that retains, from a state at rest: after a list of calls each
key reads according to the last call on it that returned no error: as the value
of a `Put`, as not visible after a `Delete`, and as before the calls when there
was no such call. -/
theorem replay_reads {ε : Type} (E : ristretto.Engine ε) (rest : ε → Prop)
    (hE : E.Retains rest) (fuel : Nat) (k : Bytes) (log : List dbtx.Call) :
    ∀ (c c' : ristretto.Cache ε), replay E fuel log c = some c' → rest c.db →
      rest c'.db ∧
      (lastOn k log = none → E.Get c'.db k = E.Get c.db k) ∧
      (∀ k' v e, lastOn k log = some (dbtx.Call.put k' v e) → E.Get c'.db k = some v) ∧
      (∀ k' e, lastOn k log = some (dbtx.Call.delete k' e) → E.Get c'.db k = none) := by
  induction log with
  | nil =>
    intro c c' h hc
    simp only [replay, Option.some.injEq] at h
    subst h
    simp [lastOn, hc]
  | cons call rest' ih =>
    intro c c' h hc
    rw [lastOn_cons]
    cases call with
    | put key v e =>
      simp only [replay] at h
      cases hu : ristretto.Cache.Upsert E fuel c key v with
      | none => rw [hu] at h; simp at h
      | some q =>
        obtain ⟨c1, e'⟩ := q
        rw [hu] at h
        simp only at h
        by_cases he : e' = e
        · subst he
          simp only [if_true] at h
          obtain ⟨u0, u1, u2, u3⟩ :=
            ristretto.Upsert_retains E rest hE fuel c c1 key v e' hc hu
          obtain ⟨i0, i1, i2, i3⟩ := ih c1 c' h u0
          cases hl : lastOn k rest' with
          | some x =>
            rw [hl] at i2 i3
            simp only [false_implies, true_and, reduceCtorEq]
            exact ⟨i0, i2, i3⟩
          | none =>
            have i1' := i1 hl
            simp only [dbtx.Call.key, dbtx.Call.err]
            by_cases hck : key = k ∧ e' = none
            · obtain ⟨hk1, hk2⟩ := hck
              subst hk1
              simp only [hk2, and_self, if_true, reduceCtorEq, false_implies, true_and,
                Option.some.injEq, dbtx.Call.put.injEq, and_imp, implies_true, and_true]
              refine ⟨i0, ?_⟩
              intro _ v' _ _ hv _
              rw [i1', u2 hk2, hv]
            · simp only [hck, if_false, true_implies, reduceCtorEq, false_implies,
                implies_true, and_true]
              refine ⟨i0, ?_⟩
              rw [i1']
              by_cases hkk : k = key
              · subst hkk
                have hn : e' ≠ none := fun hn => hck ⟨rfl, hn⟩
                exact u3 hn
              · exact u1 k hkk
        · simp [he] at h
    | delete key e =>
      simp only [replay] at h
      cases hu : ristretto.Cache.Delete E fuel c key with
      | none => rw [hu] at h; simp at h
      | some q =>
        obtain ⟨c1, e'⟩ := q
        rw [hu] at h
        simp only at h
        by_cases he : e' = e
        · subst he
          simp only [if_true] at h
          obtain ⟨d0, d1, d2⟩ := ristretto.Delete_retains E rest hE fuel c c1 key e' hc hu
          have hn := (ristretto.Delete_keys E fuel c c1 key e' hu).1
          obtain ⟨i0, i1, i2, i3⟩ := ih c1 c' h d0
          cases hl : lastOn k rest' with
          | some x =>
            rw [hl] at i2 i3
            simp only [false_implies, true_and, reduceCtorEq]
            exact ⟨i0, i2, i3⟩
          | none =>
            have i1' := i1 hl
            simp only [dbtx.Call.key, dbtx.Call.err]
            by_cases hck : key = k
            · subst hck
              simp only [hn, and_self, if_true, reduceCtorEq, false_implies, true_and,
                implies_true]
              refine ⟨i0, fun _ _ _ hx => by simp at hx, fun _ _ _ => ?_⟩
              rw [i1', d2]
            · simp only [hck, false_and, if_false, true_implies, reduceCtorEq, false_implies,
                implies_true, and_true]
              refine ⟨i0, ?_⟩
              rw [i1']
              exact d1 k (fun hkk => hck hkk.symm)
        · simp [he] at h

/-! ## Read-after-write of the three adapters -/

/-- C1: for each of the three adapters, every key and every value, when
`Upsert(k, v)` has returned no error, the `Get(k)` that follows at once returns
`v` and no error. For the page-tree and the log-structured adapter this holds
of every handle. For the cache adapter it holds over every engine, every cache
and every bound on the polls of the visibility wait, provided the engine shows
a write it has taken as written: at every retry interval after the `Set` the
key reads as the value written or is not visible. `Upsert` returns only once
the wait has seen the key, so what `Get` then reads is the value written; the
key is in the overlay as well. An engine that retains what it has taken
(`Retains`) is such an engine in every state at rest, and is at rest again when
`Upsert` returns, so on it the property holds along every run of calls. -/
theorem Upsert_then_Get {ε : Type} (E : ristretto.Engine ε) (fuel : Nat) (key value : Bytes) :
    (∀ blt blt' : bolt.Bolt, bolt.Bolt.Upsert blt key value = some (blt', none) →
        bolt.Bolt.Get blt' key = some (some value, none)) ∧
      (∀ bdger bdger' : badger.Badger,
        badger.Badger.Upsert bdger key value = some (bdger', none) →
          badger.Badger.Get bdger' key = some (some value, none)) ∧
      (∀ c c' : ristretto.Cache ε,
        (∀ n, E.Get (E.Sleep^[n] (E.Set c.db key value (value.length : Int)).2) key
              = some value ∨
            E.Get (E.Sleep^[n] (E.Set c.db key value (value.length : Int)).2) key = none) →
        ristretto.Cache.Upsert E fuel c key value = some (c', none) →
          ristretto.Cache.Get E c' key = (some value, none) ∧ key ∈ c'.keys) ∧
      (∀ (rest : ε → Prop), E.Retains rest → ∀ c c' : ristretto.Cache ε, rest c.db →
        ristretto.Cache.Upsert E fuel c key value = some (c', none) →
          ristretto.Cache.Get E c' key = (some value, none) ∧ key ∈ c'.keys ∧ rest c'.db) := by
  refine ⟨fun blt blt' h => bolt_Get_after_Upsert blt blt' key value h,
    fun bdger bdger' h => badger_Get_after_Upsert bdger bdger' key value h, ?_, ?_⟩
  rotate_left
  · intro rest hE c c' hc h
    obtain ⟨u0, _, u2, _⟩ := ristretto.Upsert_retains E rest hE fuel c c' key value none hc h
    refine ⟨?_, (ristretto_Get_after_Upsert E fuel c c' key value h).2, u0⟩
    unfold ristretto.Cache.Get
    rw [u2 rfl]
  intro c c' hlaw h
  refine ⟨?_, (ristretto_Get_after_Upsert E fuel c c' key value h).2⟩
  unfold ristretto.Cache.Upsert at h
  cases hs : E.Set c.db key value (value.length : Int) with
  | mk ok db1 =>
    rw [hs] at h hlaw
    cases ok with
    | false => simp at h
    | true =>
      simp only at h hlaw
      cases hw : ristretto.waitForKey E fuel db1 key true with
      | none => rw [hw] at h; simp at h
      | some db2 =>
        rw [hw] at h
        simp only [Option.some.injEq, Prod.mk.injEq, and_true] at h
        subst h
        obtain ⟨n, _, hdb, hget, _⟩ := ristretto.waitForKey_first E key true fuel _ _ hw
        have hn := hlaw n
        rw [← hdb] at hn hget
        unfold ristretto.Cache.Get
        simp only
        rcases hn with hn | hn
        · rw [hn]
        · rw [hn] at hget; simp at hget

/-- The cache of `withCache` is at rest. -/
theorem testCache_settled : testCache.db.settled :=
  fun _ hit => absurd hit (List.not_mem_nil _)

/-- C1 at the fixtures of the test files. On the page-tree handle of `withBolt`
and on a log-structured handle, `Upsert("key", "value")` is followed by
`Get("key")` = "value". On the cache of `withCache`, which holds "key" with
"value", `Upsert("key", "v2")` returns no error and `Get("key")` then returns
"v2"; and `Upsert("k2", "v2")` of the key "k2", which `Get` did not find
before, returns no error once the write is visible and `Get("k2")` then returns
"v2". -/
theorem Upsert_then_Get_witness :
    (bolt.Bolt.Upsert testBolt testKey testValue = some (filledBolt, none) ∧
        bolt.Bolt.Get filledBolt testKey = some (some testValue, none)) ∧
      (badger.Badger.Upsert testBadgerDeleted testKey testValue = some (testBadger, none) ∧
        badger.Badger.Get testBadger testKey = some (some testValue, none)) ∧
      (ristretto.Cache.Get ristretto.buffered testCache testKey = (some testValue, none) ∧
        ristretto.Cache.Upsert ristretto.buffered 2 testCache testKey testValue2
          = some (testCacheOverwritten, none) ∧
        ristretto.Cache.Get ristretto.buffered testCacheOverwritten testKey
          = (some testValue2, none) ∧
        testKey ∈ testCacheOverwritten.keys) ∧
      (ristretto.Cache.Get ristretto.buffered testCache testKey2
          = (none, some Error.keyNotFound) ∧
        ristretto.Cache.Upsert ristretto.buffered 2 testCache testKey2 testValue2
          = some (pairCache, none) ∧
        ristretto.Cache.Get ristretto.buffered pairCache testKey2 = (some testValue2, none) ∧
        testKey2 ∈ pairCache.keys) :=
  ⟨⟨by decide,
      (Upsert_then_Get ristretto.buffered 2 testKey testValue).1 testBolt filledBolt
        (by decide)⟩,
    ⟨by decide,
      (Upsert_then_Get ristretto.buffered 2 testKey testValue).2.1 testBadgerDeleted testBadger
        (by decide)⟩,
    ⟨by decide, by decide,
      (Upsert_then_Get ristretto.buffered 2 testKey testValue2).2.2.1 testCache
        testCacheOverwritten
        (fun n => (buffered_retains.taken testCache.db testKey testValue2 _ n
          testCache_settled (by decide)).1)
        (by decide)⟩,
    ⟨by decide, by decide,
      (Upsert_then_Get ristretto.buffered 2 testKey2 testValue2).2.2.1 testCache pairCache
        (fun n => (buffered_retains.taken testCache.db testKey2 testValue2 _ n
          testCache_settled (by decide)).1)
        (by decide)⟩⟩

/-! ## Delete-then-get of the three adapters -/

/-- A wait ends within the polls allowed when, at some poll among them, the
presence of the key is the one waited for. -/
theorem ristretto.waitForKey_returns {ε : Type} (E : ristretto.Engine ε) (key : Bytes)
    (available : Bool) :
    ∀ (fuel : Nat) (db : ε),
      (∃ n, n < fuel ∧ (E.Get (E.Sleep^[n] db) key).isSome = available) →
      ∃ db', ristretto.waitForKey E fuel db key available = some db' := by
  intro fuel
  induction fuel with
  | zero =>
    intro db h
    obtain ⟨n, hn, _⟩ := h
    exact absurd hn (Nat.not_lt_zero n)
  | succ f ih =>
    intro db h
    unfold ristretto.waitForKey
    by_cases hp : (E.Get db key).isSome = available
    · exact ⟨db, by simp [hp]⟩
    · simp only [hp, if_false]
      obtain ⟨n, hn, hget⟩ := h
      cases n with
      | zero => exact absurd hget hp
      | succ m =>
        rw [Function.iterate_succ_apply] at hget
        exact ih (E.Sleep db) ⟨m, Nat.lt_of_succ_lt_succ hn, hget⟩

/-- On a page-tree handle whose database is open and whose current partition
exists, `Delete` returns no error, whether the key is there or not. -/
theorem bolt_Delete_returns (blt : bolt.Bolt) (key : Bytes) (ho : blt.db.opened = true)
    (hb : (kvGet blt.Bucket blt.db.root).isSome = true) :
    ∃ blt', bolt.Bolt.Delete blt key = some (blt', none) := by
  cases hg : kvGet blt.Bucket blt.db.root with
  | none => rw [hg] at hb; simp at hb
  | some b =>
    simp [bolt.Bolt.Delete, bbolt.DB.Update, bolt.txDelete, bbolt.Tx.Bucket, ho, hg,
      bbolt.Bucket.Delete]

/-- On a log-structured handle with an engine, `Delete` of a non-empty key
returns no error, whether the key is there or not. -/
theorem badger_Delete_returns (bdger : badger.Badger) (key : Bytes)
    (hd : bdger.DB.isSome = true) (hk : key ≠ []) :
    ∃ bdger', badger.Badger.Delete bdger key = some (bdger', none) := by
  cases hg : bdger.DB with
  | none => rw [hg] at hd; simp at hd
  | some db =>
    simp [badger.Badger.Delete, badgerdb.DB.Update, badgerdb.Txn.Delete, hg, hk]

/-- C2: for each of the three adapters and every key, when `Delete` has
returned no error, the `Get` of the same key that follows fails with
`KeyNotFound` and returns no value. For the cache adapter this holds over every
engine and every bound on the polls of the visibility wait. And `Delete` does
return no error, whether the key was present or not: on a page-tree handle
whose database is open and whose current partition exists; on a log-structured
handle with an engine, for a non-empty key; on a cache, as soon as the engine
no longer shows the key at one of the polls allowed. -/
theorem Delete_then_Get {ε : Type} (E : ristretto.Engine ε) (fuel : Nat) (key : Bytes) :
    (∀ blt blt' : bolt.Bolt, bolt.Bolt.Delete blt key = some (blt', none) →
        bolt.Bolt.Get blt' key = some (none, some Error.keyNotFound)) ∧
      (∀ bdger bdger' : badger.Badger, badger.Badger.Delete bdger key = some (bdger', none) →
        badger.Badger.Get bdger' key = some (none, some Error.keyNotFound)) ∧
      (∀ c c' : ristretto.Cache ε, ristretto.Cache.Delete E fuel c key = some (c', none) →
        ristretto.Cache.Get E c' key = (none, some Error.keyNotFound)) ∧
      (∀ blt : bolt.Bolt, blt.db.opened = true →
        (kvGet blt.Bucket blt.db.root).isSome = true →
          ∃ blt', bolt.Bolt.Delete blt key = some (blt', none) ∧
            bolt.Bolt.Get blt' key = some (none, some Error.keyNotFound)) ∧
      (∀ bdger : badger.Badger, bdger.DB.isSome = true → key ≠ [] →
        ∃ bdger', badger.Badger.Delete bdger key = some (bdger', none) ∧
          badger.Badger.Get bdger' key = some (none, some Error.keyNotFound)) ∧
      (∀ (c : ristretto.Cache ε) (n : Nat), n < fuel →
        E.Get (E.Sleep^[n] (E.Del c.db key)) key = none →
          ∃ c', ristretto.Cache.Delete E fuel c key = some (c', none) ∧
            ristretto.Cache.Get E c' key = (none, some Error.keyNotFound) ∧
            key ∉ c'.keys) := by
  refine ⟨fun blt blt' h => bolt_Get_after_Delete blt blt' key h,
    fun bdger bdger' h => badger_Get_after_Delete bdger bdger' key h,
    fun c c' h => (ristretto_Get_after_Delete E fuel c c' key h).1, ?_, ?_, ?_⟩
  · intro blt ho hb
    obtain ⟨blt', h⟩ := bolt_Delete_returns blt key ho hb
    exact ⟨blt', h, bolt_Get_after_Delete blt blt' key h⟩
  · intro bdger hd hk
    obtain ⟨bdger', h⟩ := badger_Delete_returns bdger key hd hk
    exact ⟨bdger', h, badger_Get_after_Delete bdger bdger' key h⟩
  · intro c n hn hget
    obtain ⟨db', hw⟩ := ristretto.waitForKey_returns E key false fuel (E.Del c.db key)
      ⟨n, hn, by rw [hget]; rfl⟩
    have h : ristretto.Cache.Delete E fuel c key
        = some ({ ristretto.Cache.delete c key with db := db' }, none) := by
      simp [ristretto.Cache.Delete, hw]
    exact ⟨_, h, ristretto_Get_after_Delete E fuel c _ key h⟩

/-- C2 at the fixtures of the three test files. On each adapter the handle
holds "key" (`Get` returns "value"), `Delete("key")` returns no error, and the
`Get` that follows fails with `KeyNotFound`; on the page-tree handle the same
holds of a second `Delete`, of the key now absent. -/
theorem Delete_then_Get_witness :
    (bolt.Bolt.Get filledBolt testKey = some (some testValue, none) ∧
        bolt.Bolt.Delete filledBolt testKey = some (testBolt, none) ∧
        bolt.Bolt.Get testBolt testKey = some (none, some Error.keyNotFound) ∧
        bolt.Bolt.Delete testBolt testKey = some (testBolt, none)) ∧
      (badger.Badger.Get testBadger testKey = some (some testValue, none) ∧
        badger.Badger.Delete testBadger testKey = some (testBadgerDeleted, none) ∧
        badger.Badger.Get testBadgerDeleted testKey = some (none, some Error.keyNotFound)) ∧
      (ristretto.Cache.Get ristretto.buffered testCache testKey = (some testValue, none) ∧
        ristretto.Cache.Delete ristretto.buffered 2 testCache testKey
          = some (testCacheDeleted, none) ∧
        ristretto.Cache.Get ristretto.buffered testCacheDeleted testKey
          = (none, some Error.keyNotFound)) ∧
      (∃ blt', bolt.Bolt.Delete filledBolt testKey = some (blt', none) ∧
        bolt.Bolt.Get blt' testKey = some (none, some Error.keyNotFound)) ∧
      (∃ bdger', badger.Badger.Delete testBadger testKey = some (bdger', none) ∧
        badger.Badger.Get bdger' testKey = some (none, some Error.keyNotFound)) ∧
      (∃ c', ristretto.Cache.Delete ristretto.buffered 2 testCache testKey = some (c', none) ∧
        ristretto.Cache.Get ristretto.buffered c' testKey = (none, some Error.keyNotFound) ∧
        testKey ∉ c'.keys) :=
  ⟨⟨by decide, by decide,
      (Delete_then_Get ristretto.buffered 2 testKey).1 filledBolt testBolt (by decide),
      by decide⟩,
    ⟨by decide, by decide,
      (Delete_then_Get ristretto.buffered 2 testKey).2.1 testBadger testBadgerDeleted
        (by decide)⟩,
    ⟨by decide, by decide,
      (Delete_then_Get ristretto.buffered 2 testKey).2.2.1 testCache testCacheDeleted
        (by decide)⟩,
    (Delete_then_Get ristretto.buffered 2 testKey).2.2.2.1 filledBolt (by decide) (by decide),
    (Delete_then_Get ristretto.buffered 2 testKey).2.2.2.2.1 testBadger (by decide)
      (by decide),
    (Delete_then_Get ristretto.buffered 2 testKey).2.2.2.2.2 testCache 1 (by decide)
      (by decide)⟩

/-! ## Traversals of the cache adapter stop at the first failing call -/

/-- The key loop returns an error only when the last call it made on the
visitor returned that error, and returns none only after a call on every
key. -/
theorem ristretto.keyLoop_exact {σ : Type} (query : σ → Bytes → σ × Option Error)
    (ks : List Bytes) :
    ∀ (s : σ) (tr : List (Bytes × Option Error)),
      (∀ e, (ristretto.Cache.keyLoop (recording query) ks (s, tr)).2 = some e →
        ∃ b, (ristretto.Cache.keyLoop (recording query) ks (s, tr)).1.2.getLast?
          = some (b, some e)) ∧
      ((ristretto.Cache.keyLoop (recording query) ks (s, tr)).2 = none →
        (ristretto.Cache.keyLoop (recording query) ks (s, tr)).1.2.map Prod.fst
          = tr.map Prod.fst ++ ks) := by
  induction ks with
  | nil =>
    intro s tr
    simp [ristretto.Cache.keyLoop]
  | cons k rest ih =>
    intro s tr
    cases hq : query s k with
    | mk s' e =>
      cases e with
      | some err =>
        have hrun : ristretto.Cache.keyLoop (recording query) (k :: rest) (s, tr)
            = ((s', tr ++ [(k, some err)]), some err) := by
          simp [ristretto.Cache.keyLoop, recording, hq]
        rw [hrun]
        refine ⟨?_, fun h => by simp at h⟩
        intro e he
        simp only [Option.some.injEq] at he
        subst he
        exact ⟨k, by rw [List.getLast?_concat]⟩
      | none =>
        have hrun : ristretto.Cache.keyLoop (recording query) (k :: rest) (s, tr)
            = ristretto.Cache.keyLoop (recording query) rest (s', tr ++ [(k, none)]) := by
          simp [ristretto.Cache.keyLoop, recording, hq]
        rw [hrun]
        obtain ⟨i1, i2⟩ := ih s' (tr ++ [(k, none)])
        refine ⟨i1, fun h => ?_⟩
        rw [i2 h]
        simp

/-- The value loop hands over the values of the first keys of the list; it
returns an error only when the last call it made on the visitor returned that
error, or when no call failed and the engine does not hold a key of the list
(the error of `Get`); it returns none only after a call on the value of every
key. -/
theorem ristretto.forEachLoop_exact {ε σ : Type} (E : ristretto.Engine ε)
    (c : ristretto.Cache ε) (query : σ → Bytes → σ × Option Error) (ks : List Bytes) :
    ∀ (s : σ) (tr : List (Bytes × Option Error)), (∀ x ∈ tr, x.2 = none) →
      (∃ p, (ristretto.Cache.forEachLoop E c (recording query) ks (s, tr)).1.2.map Prod.fst
          = tr.map Prod.fst ++ p ∧ p <+: ks.map (fun k => (E.Get c.db k).getD [])) ∧
      (∀ e, (ristretto.Cache.forEachLoop E c (recording query) ks (s, tr)).2 = some e →
        (∃ b, (ristretto.Cache.forEachLoop E c (recording query) ks (s, tr)).1.2.getLast?
          = some (b, some e)) ∨
        (e = Error.keyNotFound ∧
          (∀ x ∈ (ristretto.Cache.forEachLoop E c (recording query) ks (s, tr)).1.2,
            x.2 = none) ∧
          ∃ k ∈ ks, E.Get c.db k = none)) ∧
      ((ristretto.Cache.forEachLoop E c (recording query) ks (s, tr)).2 = none →
        (ristretto.Cache.forEachLoop E c (recording query) ks (s, tr)).1.2.map Prod.fst
            = tr.map Prod.fst ++ ks.map (fun k => (E.Get c.db k).getD []) ∧
          ∀ k ∈ ks, (E.Get c.db k).isSome = true) := by
  induction ks with
  | nil =>
    intro s tr _
    refine ⟨⟨[], by simp [ristretto.Cache.forEachLoop], List.prefix_refl _⟩, ?_, ?_⟩
    · intro e he
      simp [ristretto.Cache.forEachLoop] at he
    · intro _
      simp [ristretto.Cache.forEachLoop]
  | cons k rest ih =>
    intro s tr htr
    cases hg : E.Get c.db k with
    | none =>
      have hrun : ristretto.Cache.forEachLoop E c (recording query) (k :: rest) (s, tr)
          = ((s, tr), some Error.keyNotFound) := by
        simp [ristretto.Cache.forEachLoop, ristretto.Cache.Get, hg]
      rw [hrun]
      refine ⟨⟨[], by simp, List.nil_prefix⟩, ?_, fun h => by simp at h⟩
      intro e he
      simp only [Option.some.injEq] at he
      exact Or.inr ⟨he.symm, htr, k, List.mem_cons_self k rest, hg⟩
    | some v =>
      cases hq : query s v with
      | mk s' e =>
        cases e with
        | some err =>
          have hrun : ristretto.Cache.forEachLoop E c (recording query) (k :: rest) (s, tr)
              = ((s', tr ++ [(v, some err)]), some err) := by
            simp [ristretto.Cache.forEachLoop, ristretto.Cache.Get, recording, hg, hq]
          rw [hrun]
          refine ⟨⟨[v], by simp, ?_⟩, ?_, fun h => by simp at h⟩
          · simp only [List.map_cons, hg, Option.getD_some]
            exact (List.prefix_cons_inj v).2 List.nil_prefix
          · intro e he
            simp only [Option.some.injEq] at he
            subst he
            exact Or.inl ⟨v, by rw [List.getLast?_concat]⟩
        | none =>
          have hrun : ristretto.Cache.forEachLoop E c (recording query) (k :: rest) (s, tr)
              = ristretto.Cache.forEachLoop E c (recording query) rest
                  (s', tr ++ [(v, none)]) := by
            simp [ristretto.Cache.forEachLoop, ristretto.Cache.Get, recording, hg, hq]
          rw [hrun]
          have htr' : ∀ x ∈ tr ++ [(v, (none : Option Error))], x.2 = none := by
            intro x hx
            rcases List.mem_append.1 hx with hx | hx
            · exact htr x hx
            · simp at hx; rw [hx]
          obtain ⟨⟨p, hp, hpre⟩, i2, i3⟩ := ih s' _ htr'
          refine ⟨⟨v :: p, ?_, ?_⟩, ?_, ?_⟩
          · rw [hp]; simp
          · simp only [List.map_cons, hg, Option.getD_some]
            exact (List.prefix_cons_inj v).2 hpre
          · intro e he
            rcases i2 e he with h1 | ⟨h1, h2, k', hk', hn⟩
            · exact Or.inl h1
            · exact Or.inr ⟨h1, h2, k', List.mem_cons_of_mem _ hk', hn⟩
          · intro h
            obtain ⟨j1, j2⟩ := i3 h
            refine ⟨?_, ?_⟩
            · rw [j1]; simp [hg]
            · intro k' hk'
              rcases List.mem_cons.1 hk' with hk' | hk'
              · rw [hk', hg]; rfl
              · exact j2 k' hk'

/-- C5: for every engine, every cache (every overlay content) and every
visitor, with `keyCalls` and `valueCalls` the calls `KeyIterator` and `ForEach`
make on the visitor, in order, each with the error returned.

`KeyIterator`: the keys handed over are the first keys of the overlay, in
order; no call but the last returned an error; the traversal returns an error
exactly when the last call it made returned that error, and returns none only
after a call on every key of the overlay.

`ForEach`: the values handed over are the values of the first keys of the
overlay, in order; no call but the last returned an error; when the last call
returned an error the traversal returns exactly that error; when it returns an
error, that is the error of the last call, or no call failed and it is the
`KeyNotFound` of `Get` on an overlay key the engine does not hold; it returns
none only after a call on the value of every key of the overlay.

So both stop at the first call of the visitor that fails, return exactly its
error and call the visitor no further. In particular, with a visitor that
always fails, on a non-empty overlay, `KeyIterator` makes one call, on the
first key, and returns what that call returned; `ForEach` returns an error,
and when the engine holds the first key it makes one call, on the value of that
key, and returns what that call returned. -/
theorem traversal_stops_at_first_error {ε σ : Type} (E : ristretto.Engine ε)
    (c : ristretto.Cache ε) (query : σ → Bytes → σ × Option Error) (s : σ) :
    (((ristretto.Cache.KeyIterator c (recording query) (s, [])).1.1,
          (ristretto.Cache.KeyIterator c (recording query) (s, [])).2)
        = ristretto.Cache.KeyIterator c query s ∧
      (keyCalls c query s).map Prod.fst <+: c.keys ∧
      (∀ x ∈ (keyCalls c query s).dropLast, x.2 = none) ∧
      (∀ e, (ristretto.Cache.KeyIterator c query s).2 = some e ↔
        ∃ b, (keyCalls c query s).getLast? = some (b, some e)) ∧
      ((ristretto.Cache.KeyIterator c query s).2 = none →
        (keyCalls c query s).map Prod.fst = c.keys)) ∧
    (((ristretto.Cache.ForEach E c (recording query) (s, [])).1.1,
          (ristretto.Cache.ForEach E c (recording query) (s, [])).2)
        = ristretto.Cache.ForEach E c query s ∧
      (valueCalls E c query s).map Prod.fst
        <+: c.keys.map (fun k => (E.Get c.db k).getD []) ∧
      (∀ x ∈ (valueCalls E c query s).dropLast, x.2 = none) ∧
      (∀ b e, (valueCalls E c query s).getLast? = some (b, some e) →
        (ristretto.Cache.ForEach E c query s).2 = some e) ∧
      (∀ e, (ristretto.Cache.ForEach E c query s).2 = some e →
        (∃ b, (valueCalls E c query s).getLast? = some (b, some e)) ∨
        (e = Error.keyNotFound ∧ (∀ x ∈ valueCalls E c query s, x.2 = none) ∧
          ∃ k ∈ c.keys, E.Get c.db k = none)) ∧
      ((ristretto.Cache.ForEach E c query s).2 = none →
        (valueCalls E c query s).map Prod.fst
            = c.keys.map (fun k => (E.Get c.db k).getD []) ∧
          ∀ k ∈ c.keys, (E.Get c.db k).isSome = true)) ∧
    (∀ k rest, c.keys = k :: rest → (∀ s b, (query s b).2 ≠ none) →
      ristretto.Cache.KeyIterator c query s = query s k ∧
      keyCalls c query s = [(k, (query s k).2)] ∧
      (ristretto.Cache.ForEach E c query s).2 ≠ none ∧
      ∀ v, E.Get c.db k = some v →
        ristretto.Cache.ForEach E c query s = query s v ∧
        valueCalls E c query s = [(v, (query s v).2)]) := by
  have hkrec := ristretto.keyLoop_recording query c.keys s []
  have hfrec := ristretto.forEachLoop_recording E c query c.keys s []
  have hk2 : (ristretto.Cache.KeyIterator c query s).2
      = (ristretto.Cache.KeyIterator c (recording query) (s, [])).2 := by
    unfold ristretto.Cache.KeyIterator ristretto.Cache.Keys
    rw [← hkrec]
  have hf2 : (ristretto.Cache.ForEach E c query s).2
      = (ristretto.Cache.ForEach E c (recording query) (s, [])).2 := by
    unfold ristretto.Cache.ForEach ristretto.Cache.Keys
    rw [← hfrec]
  refine ⟨⟨hkrec, ?_, ?_, ?_, ?_⟩, ⟨hfrec, ?_, ?_, ?_, ?_, ?_⟩, ?_⟩
  · obtain ⟨_, _, p, hp, hpre⟩ := ristretto.keyLoop_trace query c.keys s [] (by simp)
    unfold keyCalls ristretto.Cache.KeyIterator ristretto.Cache.Keys
    rw [hp]
    simpa using hpre
  · exact (ristretto.keyLoop_trace query c.keys s [] (by simp)).1
  · intro e
    rw [hk2]
    constructor
    · exact (ristretto.keyLoop_exact query c.keys s []).1 e
    · rintro ⟨b, hb⟩
      exact (ristretto.keyLoop_trace query c.keys s [] (by simp)).2.1 b e hb
  · intro h
    rw [hk2] at h
    have := (ristretto.keyLoop_exact query c.keys s []).2 h
    simpa using this
  · obtain ⟨⟨p, hp, hpre⟩, _, _⟩ := ristretto.forEachLoop_exact E c query c.keys s [] (by simp)
    unfold valueCalls ristretto.Cache.ForEach ristretto.Cache.Keys
    rw [hp]
    simpa using hpre
  · exact (ristretto.forEachLoop_trace E c query c.keys s [] (by simp)).1
  · intro b e hb
    rw [hf2]
    exact (ristretto.forEachLoop_trace E c query c.keys s [] (by simp)).2 b e hb
  · intro e he
    rw [hf2] at he
    exact (ristretto.forEachLoop_exact E c query c.keys s [] (by simp)).2.1 e he
  · intro h
    rw [hf2] at h
    have := (ristretto.forEachLoop_exact E c query c.keys s [] (by simp)).2.2 h
    simpa using this
  · intro k rest hkeys hfail
    have hqk : ∀ b, ∃ s' err, query s b = (s', some err) := by
      intro b
      cases hq : query s b with
      | mk s' e =>
        cases e with
        | none => exact absurd (by rw [hq]) (hfail s b)
        | some err => exact ⟨s', err, rfl⟩
    refine ⟨?_, ?_, ?_, ?_⟩
    · obtain ⟨s', err, hq⟩ := hqk k
      simp [ristretto.Cache.KeyIterator, ristretto.Cache.Keys, hkeys, ristretto.Cache.keyLoop,
        hq]
    · obtain ⟨s', err, hq⟩ := hqk k
      simp [keyCalls, ristretto.Cache.KeyIterator, ristretto.Cache.Keys, hkeys,
        ristretto.Cache.keyLoop, recording, hq]
    · cases hg : E.Get c.db k with
      | none =>
        simp [ristretto.Cache.ForEach, ristretto.Cache.Keys, hkeys,
          ristretto.Cache.forEachLoop, ristretto.Cache.Get, hg]
      | some v =>
        obtain ⟨s', err, hq⟩ := hqk v
        simp [ristretto.Cache.ForEach, ristretto.Cache.Keys, hkeys,
          ristretto.Cache.forEachLoop, ristretto.Cache.Get, hg, hq]
    · intro v hg
      obtain ⟨s', err, hq⟩ := hqk v
      constructor
      · simp [ristretto.Cache.ForEach, ristretto.Cache.Keys, hkeys,
          ristretto.Cache.forEachLoop, ristretto.Cache.Get, hg, hq]
      · simp [valueCalls, ristretto.Cache.ForEach, ristretto.Cache.Keys, hkeys,
          ristretto.Cache.forEachLoop, ristretto.Cache.Get, recording, hg, hq]

/-- C5 at the fixtures of the test file. On the cache of `withCache`, with the
visitor of `TestErrorsHandle` that always fails, `KeyIterator` and `ForEach`
each make one call and return the visitor's error. On the cache holding "key"
and "k2": with a visitor that fails on "key", `KeyIterator` calls it on "key"
only and returns its error; with a visitor that fails on "k2", it calls it on
"key", then on "k2", and returns its error; with a visitor that fails on
"value", `ForEach` calls it on "value" only and returns its error; with a
visitor that never fails, `KeyIterator` returns none after a call on each of
the two keys. -/
theorem traversal_stops_at_first_error_witness :
    (ristretto.Cache.KeyIterator testCache queryError () = ((), some (Error.user 1)) ∧
        keyCalls testCache queryError () = [(testKey, some (Error.user 1))] ∧
        ristretto.Cache.ForEach ristretto.buffered testCache queryError ()
          = ((), some (Error.user 1)) ∧
        valueCalls ristretto.buffered testCache queryError ()
          = [(testValue, some (Error.user 1))]) ∧
      (keyCalls pairCache (failOn testKey) () = [(testKey, some (Error.user 1))] ∧
        (ristretto.Cache.KeyIterator pairCache (failOn testKey) ()).2
          = some (Error.user 1)) ∧
      (keyCalls pairCache (failOn testKey2) ()
          = [(testKey, none), (testKey2, some (Error.user 1))] ∧
        (ristretto.Cache.KeyIterator pairCache (failOn testKey2) ()).2
          = some (Error.user 1)) ∧
      (valueCalls ristretto.buffered pairCache (failOn testValue) ()
          = [(testValue, some (Error.user 1))] ∧
        (ristretto.Cache.ForEach ristretto.buffered pairCache (failOn testValue) ()).2
          = some (Error.user 1)) ∧
      ((ristretto.Cache.KeyIterator pairCache countQuery 0).2 = none ∧
        (keyCalls pairCache countQuery 0).map Prod.fst = [testKey, testKey2]) :=
  ⟨⟨((traversal_stops_at_first_error ristretto.buffered testCache queryError ()).2.2
        testKey [] rfl (fun _ _ => by simp [queryError])).1,
      ((traversal_stops_at_first_error ristretto.buffered testCache queryError ()).2.2
        testKey [] rfl (fun _ _ => by simp [queryError])).2.1,
      (((traversal_stops_at_first_error ristretto.buffered testCache queryError ()).2.2
        testKey [] rfl (fun _ _ => by simp [queryError])).2.2.2 testValue rfl).1,
      (((traversal_stops_at_first_error ristretto.buffered testCache queryError ()).2.2
        testKey [] rfl (fun _ _ => by simp [queryError])).2.2.2 testValue rfl).2⟩,
    ⟨rfl,
      ((traversal_stops_at_first_error ristretto.buffered pairCache (failOn testKey)
        ()).1.2.2.2.1 (Error.user 1)).2 ⟨testKey, rfl⟩⟩,
    ⟨rfl,
      ((traversal_stops_at_first_error ristretto.buffered pairCache (failOn testKey2)
        ()).1.2.2.2.1 (Error.user 1)).2 ⟨testKey2, rfl⟩⟩,
    ⟨rfl,
      (traversal_stops_at_first_error ristretto.buffered pairCache (failOn testValue)
        ()).2.1.2.2.2.1 testValue (Error.user 1) rfl⟩,
    ⟨rfl,
      (traversal_stops_at_first_error ristretto.buffered pairCache countQuery 0).1.2.2.2.2
        rfl⟩⟩

/-! ## No rollback in the emulated bridge -/

/-- A transaction function that starts with a `Put` that returns: the run is
the run of what follows, with the call put first in the list. -/
theorem run_put_cons {σ : Type} (mb : dbtx.BucketImp σ) (k v : Bytes)
    (next : Option Error → dbtx.Execute) (s s' s'' : σ) (e r : Option Error)
    (log : List dbtx.Call) (h1 : mb.PutImp s k v = some (s', e))
    (h2 : dbtx.Execute.run mb (next e) s' = some (s'', r, log)) :
    dbtx.Execute.run mb (dbtx.Execute.put k v next) s
      = some (s'', r, dbtx.Call.put k v e :: log) := by
  simp only [dbtx.Execute.run, dbtx.BucketImp.Put, h1, h2]

/-- On the engine with eviction, the transaction function `putBigFail` completes
its two puts and leaves the cache holding "k2" only. -/
theorem evicting_putBigFail :
    dbtx.Execute.run (ristretto.Cache.bridge ristretto.evicting 1) putBigFail freshCache
      = some (bigCache2, some (Error.user 1),
          [dbtx.Call.put testKey bigValue none, dbtx.Call.put testKey2 bigValue none]) :=
  run_put_cons (ristretto.Cache.bridge ristretto.evicting 1) testKey bigValue _ freshCache
    bigCache1 bigCache2 none (some (Error.user 1)) _ evicting_first
    (run_put_cons (ristretto.Cache.bridge ristretto.evicting 1) testKey2 bigValue _ bigCache1
      bigCache2 bigCache2 none (some (Error.user 1)) [] evicting_second rfl)

/-- C10, as stated, fails. The transaction function `putDeleteFail` completes
`Put("k2", "v2")` and `Delete("k2")` and returns an error; after `Update`,
`Get("k2")` fails and "k2" is not in the overlay, so the completed put is not
observable: a later call on the same key has undone it. And on an engine with
eviction, `putBigFail` completes `Put("key", big)` and `Put("k2", big)` and
returns an error; no later call was made on "key", yet `Get("key")` fails after
`Update`, while "key" is still in the overlay: the engine has evicted it. -/
theorem Update_completed_put_counterexample :
    ¬ (∀ (c c' : ristretto.Cache ristretto.Buffered) (execute : dbtx.Execute) (e : Error)
          (log : List dbtx.Call),
        dbtx.Execute.run (ristretto.Cache.bridge ristretto.buffered 2) execute c
            = some (c', some e, log) →
        (∀ k v, dbtx.Call.put k v none ∈ log →
          ristretto.Cache.Get ristretto.buffered c' k = (some v, none) ∧ k ∈ c'.keys) ∧
        (∀ k, dbtx.Call.delete k none ∈ log →
          ristretto.Cache.Get ristretto.buffered c' k = (none, some Error.keyNotFound) ∧
            k ∉ c'.keys)) ∧
      (dbtx.Execute.run (ristretto.Cache.bridge ristretto.buffered 2) putDeleteFail testCache
          = some (testCache, some (Error.user 1),
              [dbtx.Call.put testKey2 testValue2 none, dbtx.Call.delete testKey2 none]) ∧
        ristretto.Cache.Get ristretto.buffered testCache testKey2
          = (none, some Error.keyNotFound) ∧
        testKey2 ∉ testCache.keys) ∧
      (dbtx.Execute.run (ristretto.Cache.bridge ristretto.evicting 1) putBigFail freshCache
          = some (bigCache2, some (Error.user 1),
              [dbtx.Call.put testKey bigValue none, dbtx.Call.put testKey2 bigValue none]) ∧
        lastOn testKey
            [dbtx.Call.put testKey bigValue none, dbtx.Call.put testKey2 bigValue none]
          = some (dbtx.Call.put testKey bigValue none) ∧
        ristretto.Cache.Get ristretto.evicting bigCache2 testKey
          = (none, some Error.keyNotFound) ∧
        testKey ∈ bigCache2.keys) := by
  have hrun : dbtx.Execute.run (ristretto.Cache.bridge ristretto.buffered 2) putDeleteFail
      testCache = some (testCache, some (Error.user 1),
        [dbtx.Call.put testKey2 testValue2 none, dbtx.Call.delete testKey2 none]) := by
    decide
  refine ⟨?_, ⟨hrun, by decide, by decide⟩, ⟨evicting_putBigFail, ?_, ?_, by decide⟩⟩
  · intro hall
    have := ((hall testCache testCache putDeleteFail (Error.user 1) _ hrun).1 testKey2
      testValue2 (by simp)).2
    revert this
    decide
  · simp [lastOn, dbtx.Call.key, dbtx.Call.err, testKey, testKey2]
  · simp [ristretto.Cache.Get, ristretto.evicting, bigCache2, kvGet, testKey, testKey2]

/-- C10, amended. `Update` returns exactly what the transaction function
returns and rolls nothing back: whatever the function returns, an error or
none, the cache is left in the state the completed bridge calls produce when
carried out in order as ordinary `Upsert` and `Delete` calls, and the function,
fed the errors of these calls, ends by returning what `Update` returns. For
every key, according to the last completed call on it that returned no error:
after a `Put` the key is in the overlay, after a `Delete` it is not, and with no
such call it is in the overlay exactly when it was before. On an engine that
retains what it has taken (it evicts nothing), from a state at rest, the reads
agree: after a last `Put(k, v)`, `Get(k)` returns `v` and no error; after a
last `Delete(k)`, `Get(k)` fails with `KeyNotFound`; with no such call `Get(k)`
returns what it returned before `Update`; and the engine is at rest again. -/
theorem Update_no_rollback {ε : Type} (E : ristretto.Engine ε) (fuel : Nat)
    (c c' : ristretto.Cache ε) (execute : dbtx.Execute) (r : Option Error)
    (log : List dbtx.Call)
    (h : dbtx.Execute.run (ristretto.Cache.bridge E fuel) execute c = some (c', r, log)) :
    ristretto.Cache.Update E fuel c execute = some (c', r) ∧
      execute.after (log.map dbtx.Call.err) = dbtx.Execute.ret r ∧
      replay E fuel log c = some c' ∧
      (∀ k v, lastOn k log = some (dbtx.Call.put k v none) → k ∈ c'.keys) ∧
      (∀ k e, lastOn k log = some (dbtx.Call.delete k e) → k ∉ c'.keys) ∧
      (∀ k, lastOn k log = none → (k ∈ c'.keys ↔ k ∈ c.keys)) ∧
      (∀ rest : ε → Prop, E.Retains rest → rest c.db →
        rest c'.db ∧
        (∀ k v, lastOn k log = some (dbtx.Call.put k v none) →
          ristretto.Cache.Get E c' k = (some v, none)) ∧
        (∀ k e, lastOn k log = some (dbtx.Call.delete k e) →
          ristretto.Cache.Get E c' k = (none, some Error.keyNotFound)) ∧
        (∀ k, lastOn k log = none →
          ristretto.Cache.Get E c' k = ristretto.Cache.Get E c k)) := by
  obtain ⟨h1, h2⟩ := run_replay E fuel execute c c' r log h
  refine ⟨?_, h2, h1, ?_, ?_, ?_, ?_⟩
  · simp [ristretto.Cache.Update, h]
  · intro k v hl
    exact (replay_keys E fuel k log c c' h1).2.1 k v none hl
  · intro k e hl
    exact (replay_keys E fuel k log c c' h1).2.2 k e hl
  · intro k hl
    exact (replay_keys E fuel k log c c' h1).1 hl
  · intro rest hE hc
    refine ⟨(replay_reads E rest hE fuel [] log c c' h1 hc).1, ?_, ?_, ?_⟩
    · intro k v hl
      have := (replay_reads E rest hE fuel k log c c' h1 hc).2.2.1 k v none hl
      unfold ristretto.Cache.Get
      rw [this]
    · intro k e hl
      have := (replay_reads E rest hE fuel k log c c' h1 hc).2.2.2 k e hl
      unfold ristretto.Cache.Get
      rw [this]
    · intro k hl
      have := (replay_reads E rest hE fuel k log c c' h1 hc).2.1 hl
      unfold ristretto.Cache.Get
      rw [this]

/-- C10, amended, on the cache of `withCache`, which holds "key" with "value"
and not "k2". The transaction function `putDeleteOtherFail` completes
`Put("k2", "v2")` and `Delete("key")` and returns an error: `Update` returns that
error, and afterwards `Get("k2")` returns "v2" and "k2" is in the overlay, while
`Get("key")` fails with `KeyNotFound` and "key" is not in the overlay. The
function `putNewFail` (`Put("k2", "v2")`, then an error) leaves `Get("k2")` =
"v2" and `Get("key")` = "value" as before; the function `putFail`
(`Put("key", "v2")` over the visible "value", then an error) leaves
`Get("key")` = "v2". -/
theorem Update_no_rollback_witness :
    (ristretto.Cache.Get ristretto.buffered testCache testKey = (some testValue, none) ∧
        ristretto.Cache.Get ristretto.buffered testCache testKey2
          = (none, some Error.keyNotFound) ∧
        testCache.keys = [testKey]) ∧
      (ristretto.Cache.Update ristretto.buffered 2 testCache putDeleteOtherFail
          = some (swappedCache, some (Error.user 1)) ∧
        testKey2 ∈ swappedCache.keys ∧ testKey ∉ swappedCache.keys ∧
        ristretto.Cache.Get ristretto.buffered swappedCache testKey2
          = (some testValue2, none) ∧
        ristretto.Cache.Get ristretto.buffered swappedCache testKey
          = (none, some Error.keyNotFound)) ∧
      (ristretto.Cache.Update ristretto.buffered 2 testCache putNewFail
          = some (pairCache, some (Error.user 1)) ∧
        testKey2 ∈ pairCache.keys ∧
        ristretto.Cache.Get ristretto.buffered pairCache testKey2 = (some testValue2, none) ∧
        ristretto.Cache.Get ristretto.buffered pairCache testKey
          = ristretto.Cache.Get ristretto.buffered testCache testKey) ∧
      (ristretto.Cache.Update ristretto.buffered 2 testCache putFail
          = some (testCacheOverwritten, some (Error.user 1)) ∧
        ristretto.Cache.Get ristretto.buffered testCacheOverwritten testKey
          = (some testValue2, none)) :=
  ⟨⟨by decide, by decide, rfl⟩,
    ⟨(Update_no_rollback ristretto.buffered 2 testCache swappedCache putDeleteOtherFail
        (some (Error.user 1))
        [dbtx.Call.put testKey2 testValue2 none, dbtx.Call.delete testKey none]
        (by decide)).1,
      (Update_no_rollback ristretto.buffered 2 testCache swappedCache putDeleteOtherFail
        (some (Error.user 1))
        [dbtx.Call.put testKey2 testValue2 none, dbtx.Call.delete testKey none]
        (by decide)).2.2.2.1 testKey2 testValue2 (by decide),
      (Update_no_rollback ristretto.buffered 2 testCache swappedCache putDeleteOtherFail
        (some (Error.user 1))
        [dbtx.Call.put testKey2 testValue2 none, dbtx.Call.delete testKey none]
        (by decide)).2.2.2.2.1 testKey none (by decide),
      ((Update_no_rollback ristretto.buffered 2 testCache swappedCache putDeleteOtherFail
        (some (Error.user 1))
        [dbtx.Call.put testKey2 testValue2 none, dbtx.Call.delete testKey none]
        (by decide)).2.2.2.2.2.2 ristretto.Buffered.settled buffered_retains
          testCache_settled).2.1 testKey2 testValue2 (by decide),
      ((Update_no_rollback ristretto.buffered 2 testCache swappedCache putDeleteOtherFail
        (some (Error.user 1))
        [dbtx.Call.put testKey2 testValue2 none, dbtx.Call.delete testKey none]
        (by decide)).2.2.2.2.2.2 ristretto.Buffered.settled buffered_retains
          testCache_settled).2.2.1 testKey none (by decide)⟩,
    ⟨(Update_no_rollback ristretto.buffered 2 testCache pairCache putNewFail
        (some (Error.user 1)) [dbtx.Call.put testKey2 testValue2 none] (by decide)).1,
      (Update_no_rollback ristretto.buffered 2 testCache pairCache putNewFail
        (some (Error.user 1)) [dbtx.Call.put testKey2 testValue2 none]
        (by decide)).2.2.2.1 testKey2 testValue2 (by decide),
      ((Update_no_rollback ristretto.buffered 2 testCache pairCache putNewFail
        (some (Error.user 1)) [dbtx.Call.put testKey2 testValue2 none]
        (by decide)).2.2.2.2.2.2 ristretto.Buffered.settled buffered_retains
          testCache_settled).2.1 testKey2 testValue2 (by decide),
      ((Update_no_rollback ristretto.buffered 2 testCache pairCache putNewFail
        (some (Error.user 1)) [dbtx.Call.put testKey2 testValue2 none]
        (by decide)).2.2.2.2.2.2 ristretto.Buffered.settled buffered_retains
          testCache_settled).2.2.2 testKey (by decide)⟩,
    ⟨(Update_no_rollback ristretto.buffered 2 testCache testCacheOverwritten putFail
        (some (Error.user 1)) [dbtx.Call.put testKey testValue2 none] (by decide)).1,
      ((Update_no_rollback ristretto.buffered 2 testCache testCacheOverwritten putFail
        (some (Error.user 1)) [dbtx.Call.put testKey testValue2 none]
        (by decide)).2.2.2.2.2.2 ristretto.Buffered.settled buffered_retains
          testCache_settled).2.1 testKey testValue2 (by decide)⟩⟩

end drivers
